import Mathlib

/-!
Verification of the catj-rss streaming JSON flattener (src/src/main.rs).

The development shallowly embeds the Rust program:
* `JsonError`, `Value`, `Terminal`, `Terminal` formatting (`fmtTerminal`),
  `do_action`, `print_path`, `parse_ch` and `parse` are translated
  directly from `src/src/main.rs`.
* The program's `mod tables` (`STATES`, `GOTOS`, `CATCODE`) is not part of
  the provided sources; those three tables are modelled from the spec
  (section 4.1/4.2 of spec.md), see their doc comments.

Bytes, code points and output are modelled as `Nat` / `List Nat`; machine
strings are lists of Unicode scalar values.  Rust panics (`unwrap` on an
empty stack, the `panic!`-free embedding uses a dedicated constructor) are
modelled as a distinguished `panicked` outcome, and the `loop` in
`parse_ch` is given explicit fuel (`stack length + 2`), which is shown
adequate where needed.
-/

/-- UTF-8 encoding of one Unicode scalar value (as produced by Rust's
`char::encode_utf8`). -/
def utf8Encode (c : Nat) : List Nat :=
  if c < 0x80 then [c]
  else if c < 0x800 then [0xC0 + c / 64, 0x80 + c % 64]
  else if c < 0x10000 then [0xE0 + c / 4096, 0x80 + c / 64 % 64, 0x80 + c % 64]
  else [0xF0 + c / 262144, 0x80 + c / 4096 % 64, 0x80 + c / 64 % 64, 0x80 + c % 64]

/-- One step of strict UTF-8 decoding: given the lead byte and the
remaining bytes, the decoded scalar value and the bytes after its
encoding, or `none` on malformed input (overlong forms, surrogates and
code points above 0x10FFFF rejected, as in Rust's `str::from_utf8`). -/
def utf8Step (b : Nat) (bs : List Nat) : Option (Nat × List Nat) :=
  if b < 0x80 then some (b, bs)
  else if 0xC2 ≤ b ∧ b ≤ 0xDF then
    match bs with
    | b1 :: bs' =>
      if 0x80 ≤ b1 ∧ b1 ≤ 0xBF then
        some ((b - 0xC0) * 64 + (b1 - 0x80), bs')
      else none
    | [] => none
  else if 0xE0 ≤ b ∧ b ≤ 0xEF then
    match bs with
    | b1 :: b2 :: bs' =>
      if (if b = 0xE0 then 0xA0 ≤ b1 ∧ b1 ≤ 0xBF
          else if b = 0xED then 0x80 ≤ b1 ∧ b1 ≤ 0x9F
          else 0x80 ≤ b1 ∧ b1 ≤ 0xBF) ∧ (0x80 ≤ b2 ∧ b2 ≤ 0xBF) then
        some ((b - 0xE0) * 4096 + (b1 - 0x80) * 64 + (b2 - 0x80), bs')
      else none
    | _ => none
  else if 0xF0 ≤ b ∧ b ≤ 0xF4 then
    match bs with
    | b1 :: b2 :: b3 :: bs' =>
      if (if b = 0xF0 then 0x90 ≤ b1 ∧ b1 ≤ 0xBF
          else if b = 0xF4 then 0x80 ≤ b1 ∧ b1 ≤ 0x8F
          else 0x80 ≤ b1 ∧ b1 ≤ 0xBF) ∧ (0x80 ≤ b2 ∧ b2 ≤ 0xBF)
          ∧ (0x80 ≤ b3 ∧ b3 ≤ 0xBF) then
        some ((b - 0xF0) * 262144 + (b1 - 0x80) * 4096 + (b2 - 0x80) * 64
              + (b3 - 0x80), bs')
      else none
    | _ => none
  else none

/-- Strict UTF-8 decoding with fuel (one unit per decoded scalar; the
entry point supplies the list length, which always suffices because each
scalar consumes at least one byte). -/
def utf8DecodeAux : Nat → List Nat → Option (List Nat)
  | _, [] => some []
  | 0, _ :: _ => none
  | fuel + 1, b :: bs =>
    match utf8Step b bs with
    | none => none
    | some (c, rest) => (utf8DecodeAux fuel rest).map (c :: ·)

/-- Strict UTF-8 decoding of a byte list into Unicode scalar values,
as performed by Rust's `String::from_utf8` / `str::from_utf8`. -/
def utf8Decode (l : List Nat) : Option (List Nat) := utf8DecodeAux l.length l

/-- Value of an ASCII hex digit character code, `none` otherwise
(Rust's `u8::is_ascii_hexdigit` + digit value). -/
def hexVal (c : Nat) : Option Nat :=
  if 48 ≤ c ∧ c ≤ 57 then some (c - 48)
  else if 97 ≤ c ∧ c ≤ 102 then some (c - 87)
  else if 65 ≤ c ∧ c ≤ 70 then some (c - 55)
  else none

/-- Helper for `parseHex`: left fold with an accumulator. -/
def parseHexAux : List Nat → Nat → Option Nat
  | [], acc => some acc
  | c :: cs, acc =>
    match hexVal c with
    | none => none
    | some d => parseHexAux cs (acc * 16 + d)

/-- Radix-16 parse of a list of character codes, as `u16::from_str_radix(_, 16)`
(all inputs reaching it in the program are hex digits, so overflow of `u16`
cannot occur there: four hex digits are at most 0xFFFF). -/
def parseHex (cs : List Nat) : Option Nat := parseHexAux cs 0

/-- Code points of a Lean string (used to state concrete inputs/outputs). -/
def strCps (s : String) : List Nat := s.data.map Char.toNat

/-- UTF-8 bytes of a Lean string (used to state concrete inputs/outputs). -/
def strBytes (s : String) : List Nat := (s.data.map (fun c => utf8Encode c.toNat)).flatten

/-- Character codes of a list of code points rendered as a Lean string
(used to build the `InvalidEscape` message payloads, mirroring the
`format!` calls in the source). -/
def natsToString (l : List Nat) : String := String.mk (l.map Char.ofNat)

/-- A single character quoted, standing in for Rust's `{:?}` rendering of a
`char` in the "not a hex digit" message. -/
def charQuote (c : Nat) : String := "'" ++ natsToString [c] ++ "'"

/-- Lowercase hex digit character code. -/
def hexDigitChar (n : Nat) : Nat := if n < 10 then 48 + n else 87 + n

/-- Four lowercase hex digit character codes, Rust's `{:04x}` for values
below 0x10000. -/
def hex4 (n : Nat) : List Nat :=
  [hexDigitChar (n / 4096 % 16), hexDigitChar (n / 256 % 16),
   hexDigitChar (n / 16 % 16), hexDigitChar (n % 16)]

/-- Error type of the parser, from `enum JsonError` in src/src/main.rs.
`Unicode` drops the `Utf8Error` detail and `Io` (source name `IO`) the
`io::Error`; neither payload is inspected by the program. -/
inductive JsonError where
  | Truncated
  | Syntax
  | InvalidEscape (msg : String)
  | Unicode
  | Io
deriving DecidableEq, Repr

/-- Scalar values, from `enum Terminal` in src/src/main.rs.  `Number` keeps
the verbatim numeric text and `Str` (source name `String`) the decoded
string, both as lists of Unicode scalar values. -/
inductive Terminal where
  | Null
  | Bool (b : Bool)
  | Number (s : List Nat)
  | Str (s : List Nat)
deriving DecidableEq, Repr

/-- Entries of the value stack, from `enum Value` in src/src/main.rs.
`Term` is the source's `Value::Terminal`. -/
inductive Value where
  | Object (empty : Bool)
  | List (index : Nat)
  | Term (t : Terminal)
deriving DecidableEq, Repr

/-- Escape rendering of one character of a string value, from the `match`
inside `Terminal::fmt` (src/src/main.rs lines 61-77). -/
def fmtChar (c : Nat) : List Nat :=
  if c = 0x22 then [92, 34]
  else if c = 0x5C then [92, 92]
  else if c = 8 then [92, 98]
  else if c = 9 then [92, 116]
  else if c = 12 then [92, 102]
  else if c = 10 then [92, 110]
  else if c = 13 then [92, 114]
  else if c < 0x20 then [92, 117] ++ hex4 c
  else utf8Encode c

/-- Output bytes of `Terminal`'s `Display` implementation
(src/src/main.rs lines 51-82). -/
def fmtTerminal : Terminal → List Nat
  | .Null => [110, 117, 108, 108]
  | .Bool true => [116, 114, 117, 101]
  | .Bool false => [102, 97, 108, 115, 101]
  | .Number s => (s.map utf8Encode).flatten
  | .Str s => [34] ++ (s.map fmtChar).flatten ++ [34]

/-- Whether a code point may appear in a bare (unquoted) path component:
`c.is_ascii_alphanumeric() || c == '_'` from `print_path`
(src/src/main.rs line 332). -/
def isBareChar (c : Nat) : Bool :=
  (48 ≤ c && c ≤ 57) || (65 ≤ c && c ≤ 90) || (97 ≤ c && c ≤ 122) || (c == 95)

/-- Decimal digit character codes of a natural number (Rust's integer
`Display`, used for list indices in paths). -/
def decDigits (n : Nat) : List Nat := (Nat.toDigits 10 n).map Char.toNat

/-- Pop the last element of a list, `Vec::pop`. -/
def popLast {α : Type} (l : List α) : Option (List α × α) :=
  match l.getLast? with
  | none => none
  | some v => some (l.dropLast, v)

/-- Outcome of a program fragment: normal result, parse error, or Rust
panic (`unwrap` on `None` / explicit panic sites). -/
inductive PR (α : Type) where
  | ok (a : α)
  | err (e : JsonError)
  | panicked (msg : String)
deriving DecidableEq, Repr

/-- The mutable data of the parser apart from state and control stack:
value stack `ds`, string buffer `ss`, escape buffer `es`, and the bytes
written to the output sink so far. -/
structure DState where
  ds : List Value
  ss : List Nat
  es : List Nat
  out : List Nat
deriving DecidableEq, Repr

/-- Rendering of one value-stack entry inside a path, the body of the
`for` loop of `fn print_path` (src/src/main.rs lines 327-342): `.` for an
object, `[index]` for a list, for a string terminal (a key) either the
bare characters or the quoted scalar rendering; any other terminal in a
path is a panic. -/
def pathItem : Value → PR (List Nat)
  | .Object _ => .ok [46]
  | .List index => .ok ([91] ++ decDigits index ++ [93])
  | .Term (.Str s) =>
    if s.all isBareChar then .ok ((s.map utf8Encode).flatten)
    else .ok (fmtTerminal (.Str s))
  | .Term _ => .panicked "invalid item in a path"

/-- Sequencing of `PR` computations (the `?` operator of the source). -/
def prBind {α β : Type} : PR α → (α → PR β) → PR β
  | .ok a, f => f a
  | .err e, _ => .err e
  | .panicked m, _ => .panicked m

/-- Path rendering, from `fn print_path` (src/src/main.rs lines 326-344):
walks the value stack from the root rendering each entry. -/
def print_path : List Value → PR (List Nat)
  | [] => .ok []
  | item :: rest =>
    prBind (pathItem item) fun h =>
      prBind (print_path rest) fun r => .ok (h ++ r)

/-- Validity of a code point for `char::from_u32`: a Unicode scalar value
(not a surrogate, at most 0x10FFFF). -/
def isScalar (c : Nat) : Bool := (c < 0xD800) || (0xE000 ≤ c && c < 0x110000)

/-- Modelled from the spec: the category table `tables::CATCODE` is not in
the provided sources.  Section 4.1 of the spec: a pure total map from a
byte (0-0x7E; larger bytes are clamped by the engine) to a lexical
category.  Categories: 0 whitespace, 1 `\x7b`, 2 `\x7d`, 3 `[`, 4 `]`,
5 `:`, 6 `,`, 7 `"`, 8 backslash, 9 `/`, 10 `-`, 11 `+`, 12 `0`,
13 `1`-`9`, 14 `.`, 15 `e`/`E`, 16 `t`, 17 `r`, 18 `u`, 19 `n`, 20 `a`,
21 `l`, 22 `f`, 23 `s`, 24 `b`, 25 anything else (generic string
content, including all bytes at or above 0x7E). -/
def CATCODE (b : Nat) : Nat :=
  if b = 9 ∨ b = 10 ∨ b = 13 ∨ b = 32 then 0
  else if b = 123 then 1
  else if b = 125 then 2
  else if b = 91 then 3
  else if b = 93 then 4
  else if b = 58 then 5
  else if b = 44 then 6
  else if b = 34 then 7
  else if b = 92 then 8
  else if b = 47 then 9
  else if b = 45 then 10
  else if b = 43 then 11
  else if b = 48 then 12
  else if 49 ≤ b ∧ b ≤ 57 then 13
  else if b = 46 then 14
  else if b = 101 ∨ b = 69 then 15
  else if b = 116 then 16
  else if b = 114 then 17
  else if b = 117 then 18
  else if b = 110 then 19
  else if b = 97 then 20
  else if b = 108 then 21
  else if b = 102 then 22
  else if b = 115 then 23
  else if b = 98 then 24
  else 25

/-- A transition-table entry in the source's packed `u16` encoding: high
byte the action (plus 0x80 when a goto push is required), low byte the
next state (0xFF: pop the control stack and re-dispatch). -/
def tEntry (push : Bool) (action code : Nat) : Nat :=
  (if push then action + 0x80 else action) * 256 + code

/-- The source's sentinel for "no valid transition": action and next-state
bytes both 0xFF. -/
def tSyntax : Nat := 0xFFFF

/-- Modelled from the spec: the shared transitions of the four
value-expecting states (top level, after `[`, after `,` in a list, after
`:`), per section 4.2 of the spec: `\x7b` pushes an object, `[` pushes a
list, `"` enters a string, `-`/`0`/`1`-`9` start a number, `t`/`f`/`n`
start a keyword; each pushes the current state's goto. -/
def valueStartEntry (c : Nat) : Nat :=
  if c = 1 then tEntry true 0x2 2
  else if c = 3 then tEntry true 0x1 7
  else if c = 7 then tEntry true 0x0 10
  else if c = 10 then tEntry true 0xB 17
  else if c = 12 then tEntry true 0xB 18
  else if c = 13 then tEntry true 0xB 19
  else if c = 16 then tEntry true 0x0 25
  else if c = 22 then tEntry true 0x0 28
  else if c = 19 then tEntry true 0x0 32
  else tSyntax

/-- Categories that may legally follow (and thereby terminate) a complete
number literal: whitespace, `,`, `]`, `\x7d`. -/
def isDelimCat (c : Nat) : Bool := c == 0 || c == 6 || c == 4 || c == 2

/-- Modelled from the spec: the transition table `tables::STATES` is not in
the provided sources.  Built from the JSON grammar as described in section
4.2 of the spec (objects, arrays, strings with escapes and `\u` scratch
accumulation, numbers with optional sign/fraction/exponent and no leading
zeros, the three keywords, whitespace between tokens).  States:
0 top level; 1 value done (returns to the caller on the next byte);
2 object expecting key or `\x7d`; 3 object expecting key after `,`;
4 after key, expecting `:`; 5 expecting member value; 6 after member
value, expecting `,` or `\x7d`; 7 list expecting value or `]`; 8 list
expecting value after `,`; 9 after list element, expecting `,` or `]`;
10 string body; 11 after backslash; 12-15 the four `\u` hex digits;
16 `\u` scratch complete, resolving on the next byte; 17-24 number states
(after `-`, after leading `0`, integer part, fraction start, fraction,
exponent start, exponent sign, exponent digits); 25-27 `true`,
28-31 `false`, 32-34 `null`. -/
def STATES (s c : Nat) : Nat :=
  match s with
  | 0 => if c = 0 then tEntry false 0 0 else valueStartEntry c
  | 1 => tEntry false 0 0xFF
  | 2 =>
    if c = 0 then tEntry false 0 2
    else if c = 7 then tEntry true 0 10
    else if c = 2 then tEntry false 0 1
    else tSyntax
  | 3 =>
    if c = 0 then tEntry false 0 3
    else if c = 7 then tEntry true 0 10
    else tSyntax
  | 4 =>
    if c = 0 then tEntry false 0 4
    else if c = 5 then tEntry false 0 5
    else tSyntax
  | 5 => if c = 0 then tEntry false 0 5 else valueStartEntry c
  | 6 =>
    if c = 0 then tEntry false 0 6
    else if c = 6 then tEntry false 0x4 3
    else if c = 2 then tEntry false 0x4 1
    else tSyntax
  | 7 =>
    if c = 0 then tEntry false 0 7
    else if c = 4 then tEntry false 0 1
    else valueStartEntry c
  | 8 => if c = 0 then tEntry false 0 8 else valueStartEntry c
  | 9 =>
    if c = 0 then tEntry false 0 9
    else if c = 6 then tEntry false 0x3 8
    else if c = 4 then tEntry false 0x3 1
    else tSyntax
  | 10 =>
    if c = 7 then tEntry false 0x8 1
    else if c = 8 then tEntry false 0 11
    else tEntry false 0xB 10
  | 11 =>
    if c = 7 ∨ c = 8 ∨ c = 9 then tEntry false 0xB 10
    else if c = 18 then tEntry true 0 12
    else tEntry false 0xD 10
  | 12 => tEntry false 0xC 13
  | 13 => tEntry false 0xC 14
  | 14 => tEntry false 0xC 15
  | 15 => tEntry false 0xC 16
  | 16 => tEntry false 0xE 0xFF
  | 17 =>
    if c = 12 then tEntry false 0xB 18
    else if c = 13 then tEntry false 0xB 19
    else tSyntax
  | 18 =>
    if c = 14 then tEntry false 0xB 20
    else if c = 15 then tEntry false 0xB 22
    else if isDelimCat c then tEntry false 0x9 0xFF
    else tSyntax
  | 19 =>
    if c = 12 ∨ c = 13 then tEntry false 0xB 19
    else if c = 14 then tEntry false 0xB 20
    else if c = 15 then tEntry false 0xB 22
    else if isDelimCat c then tEntry false 0x9 0xFF
    else tSyntax
  | 20 => if c = 12 ∨ c = 13 then tEntry false 0xB 21 else tSyntax
  | 21 =>
    if c = 12 ∨ c = 13 then tEntry false 0xB 21
    else if c = 15 then tEntry false 0xB 22
    else if isDelimCat c then tEntry false 0xA 0xFF
    else tSyntax
  | 22 =>
    if c = 10 ∨ c = 11 then tEntry false 0xB 23
    else if c = 12 ∨ c = 13 then tEntry false 0xB 24
    else tSyntax
  | 23 => if c = 12 ∨ c = 13 then tEntry false 0xB 24 else tSyntax
  | 24 =>
    if c = 12 ∨ c = 13 then tEntry false 0xB 24
    else if isDelimCat c then tEntry false 0xA 0xFF
    else tSyntax
  | 25 => if c = 17 then tEntry false 0 26 else tSyntax
  | 26 => if c = 18 then tEntry false 0 27 else tSyntax
  | 27 => if c = 15 then tEntry false 0x6 1 else tSyntax
  | 28 => if c = 20 then tEntry false 0 29 else tSyntax
  | 29 => if c = 21 then tEntry false 0 30 else tSyntax
  | 30 => if c = 23 then tEntry false 0 31 else tSyntax
  | 31 => if c = 15 then tEntry false 0x7 1 else tSyntax
  | 32 => if c = 18 then tEntry false 0 33 else tSyntax
  | 33 => if c = 21 then tEntry false 0 34 else tSyntax
  | 34 => if c = 21 then tEntry false 0x5 1 else tSyntax
  | _ => tSyntax

/-- Modelled from the spec: the goto table `tables::GOTOS` is not in the
provided sources.  Per section 4.2 of the spec it gives, for each state
that can enter a nested construct, the state to return to when that
construct completes: the top level returns to the top level, a key string
returns to "expecting `:`", a member value to "expecting `,` or `\x7d`",
a list element to "expecting `,` or `]`", and a `\u` escape to the string
body. -/
def GOTOS (s : Nat) : Nat :=
  match s with
  | 0 => 0
  | 2 => 4
  | 3 => 4
  | 5 => 6
  | 7 => 9
  | 8 => 9
  | 11 => 10
  | _ => 0

/-- Resolution of a `\u` code point once validated, the tail of action 0xE
(src/src/main.rs lines 311-319): `char::from_u32` then push the UTF-8
bytes onto the string buffer and clear the escape scratch. -/
def finishCodepoint (st : DState) (cp : Nat) : PR DState :=
  if isScalar cp then
    .ok { st with ss := st.ss ++ utf8Encode cp, es := [] }
  else
    .err (.InvalidEscape ("\\u" ++ natsToString st.es ++ " ?"))

/-- Semantic action dispatch, from `fn do_action`
(src/src/main.rs lines 155-324).  Errors abort the parse, so buffer
mutations on error paths are not observable and error cases return the
error directly. -/
def do_action (action ch : Nat) (st : DState) : PR DState :=
  match action with
  | 0x1 => .ok { st with ds := st.ds ++ [.List 0] }
  | 0x2 => .ok { st with ds := st.ds ++ [.Object true] }
  | 0x3 =>
    match popLast st.ds with
    | none => .panicked "pop on empty data stack"
    | some (ds1, v) =>
      let printed : PR (List Nat) :=
        match v with
        | .Term t =>
          match print_path ds1 with
          | .ok p => .ok (st.out ++ p ++ [32, 61, 32] ++ fmtTerminal t ++ [10])
          | .err e => .err e
          | .panicked m => .panicked m
        | _ => .ok st.out
      match printed with
      | .ok out1 =>
        match popLast ds1 with
        | some (ds2, .List index) =>
          .ok { st with ds := ds2 ++ [.List (index + 1)], out := out1 }
        | _ => .panicked "expected list on top of the stack"
      | .err e => .err e
      | .panicked m => .panicked m
  | 0x4 =>
    match popLast st.ds with
    | none => .panicked "pop on empty data stack"
    | some (ds1, v) =>
      let lhs : PR (List Nat) :=
        match print_path ds1 with
        | .ok p => .ok (p ++ [32, 61, 32])
        | .err e => .err e
        | .panicked m => .panicked m
      let printed : PR (List Nat) :=
        match v with
        | .Term t =>
          match lhs with
          | .ok p => .ok (st.out ++ p ++ fmtTerminal t ++ [10])
          | .err e => .err e
          | .panicked m => .panicked m
        | .List 0 =>
          match lhs with
          | .ok p => .ok (st.out ++ p ++ [91, 93, 10])
          | .err e => .err e
          | .panicked m => .panicked m
        | .Object true =>
          match lhs with
          | .ok p => .ok (st.out ++ p ++ [123, 125, 10])
          | .err e => .err e
          | .panicked m => .panicked m
        | .List _ => .ok st.out
        | .Object false => .ok st.out
      match printed with
      | .ok out1 =>
        match popLast ds1 with
        | none => .panicked "pop on empty data stack"
        | some (ds2, _key) =>
          match popLast ds2 with
          | some (ds3, .Object _) =>
            .ok { st with ds := ds3 ++ [.Object false], out := out1 }
          | _ => .panicked "cannot set a field on non-object"
      | .err e => .err e
      | .panicked m => .panicked m
  | 0x5 => .ok { st with ds := st.ds ++ [.Term .Null] }
  | 0x6 => .ok { st with ds := st.ds ++ [.Term (.Bool true)] }
  | 0x7 => .ok { st with ds := st.ds ++ [.Term (.Bool false)] }
  | 0x8 =>
    match utf8Decode st.ss with
    | none => .err .Unicode
    | some cps => .ok { st with ds := st.ds ++ [.Term (.Str cps)], ss := [], es := [] }
  | 0x9 | 0xA =>
    match utf8Decode st.ss with
    | none => .err .Unicode
    | some cps => .ok { st with ds := st.ds ++ [.Term (.Number cps)], ss := [] }
  | 0xB =>
    if st.es = [] then .ok { st with ss := st.ss ++ [ch] }
    else .err (.InvalidEscape (natsToString st.es))
  | 0xC =>
    match hexVal ch with
    | none => .err (.InvalidEscape (charQuote ch ++ " is not a hex digit"))
    | some _ => .ok { st with es := st.es ++ [ch] }
  | 0xD =>
    if ch = 98 then .ok { st with ss := st.ss ++ [8], es := [] }
    else if ch = 116 then .ok { st with ss := st.ss ++ [9], es := [] }
    else if ch = 110 then .ok { st with ss := st.ss ++ [10], es := [] }
    else if ch = 102 then .ok { st with ss := st.ss ++ [12], es := [] }
    else if ch = 114 then .ok { st with ss := st.ss ++ [13], es := [] }
    else .err (.InvalidEscape ("\\" ++ natsToString [ch]))
  | 0xE =>
    if st.es.length = 8 then
      match parseHex (st.es.take 4) with
      | none =>
        .err (.InvalidEscape ("\\u" ++ natsToString (st.es.take 4) ++ ": invalid digit"))
      | some high =>
        if 0xD800 ≤ high ∧ high ≤ 0xDBFF then
          match parseHex (st.es.drop 4) with
          | none =>
            .err (.InvalidEscape ("\\u" ++ natsToString (st.es.drop 4) ++ ": invalid digit"))
          | some low =>
            if 0xDC00 ≤ low ∧ low ≤ 0xDFFF then
              finishCodepoint st (0x10000 + (high - 0xD800) * 0x400 + (low - 0xDC00))
            else
              .err (.InvalidEscape
                ("\\u" ++ natsToString (st.es.drop 4) ++ ": unpaired low surrogate"))
        else
          .err (.InvalidEscape
            ("\\u" ++ natsToString (st.es.take 4) ++ ": unpaired high surrogate"))
    else if st.es.length = 4 then
      match parseHex st.es with
      | none => .err (.InvalidEscape ("\\u" ++ natsToString st.es ++ ": invalid digit"))
      | some two_bytes =>
        if 0xD800 ≤ two_bytes ∧ two_bytes < 0xDBFF then
          -- note the half-open range 0xD800..0xDBFF in the source (line 298)
          .ok st
        else finishCodepoint st two_bytes
    else .err (.InvalidEscape ("\\u" ++ natsToString st.es ++ ": wrong number of digits"))
  | _ => .panicked "JSON algorithm bug"

/-- Result of one iteration of the transition loop: either a final
outcome, or "pop the control stack and re-dispatch the same byte" with
the popped state. -/
inductive ChRes where
  | done (r : PR (Nat × List Nat × DState))
  | cont (state : Nat) (stack : List Nat) (d : DState)
deriving DecidableEq, Repr

/-- One iteration of the `loop` of `fn parse_ch`
(src/src/main.rs lines 124-152): look the (state, category) pair up in
the table, fail on the syntax sentinel, push the goto on the push flag,
emit the record separator / discard at the top level, run the semantic
action, and either return the concrete next state or pop the control
stack and continue with the same byte. -/
def chStep (cat ch : Nat) (stack : List Nat) (state : Nat) (d : DState) : ChRes :=
  let code0 := STATES state cat
  let action0 := code0 / 256 % 256
  let code := code0 % 256
  if action0 = 0xFF ∧ code = 0xFF then .done (.err .Syntax)
  else
    let stack1 := if 0x80 ≤ action0 then GOTOS state :: stack else stack
    let action := if 0x80 ≤ action0 then action0 - 0x80 else action0
    let d1 :=
      if state = 0 ∧ d.ds ≠ [] then
        { d with out := d.out ++ [10], ds := d.ds.dropLast }
      else d
    match (if 0 < action then do_action action ch d1 else .ok d1) with
    | .err e => .done (.err e)
    | .panicked m => .done (.panicked m)
    | .ok d2 =>
      if code = 0xFF then
        match stack1 with
        | [] => .done (.panicked "pop on empty control stack")
        | top :: rest => .cont top rest d2
      else .done (.ok (code, stack1, d2))

/-- The per-byte transition loop, from `fn parse_ch`
(src/src/main.rs lines 119-153): iterate `chStep` until it yields a final
outcome.  The source's unbounded `loop` carries explicit fuel here; the
engine always supplies `stack length + 2`, which is shown sufficient
where needed. -/
def parse_ch : Nat → Nat → Nat → List Nat → Nat → DState → PR (Nat × List Nat × DState)
  | 0, _, _, _, _, _ => .panicked "out of fuel"
  | fuel + 1, cat, ch, stack, state, d =>
    match chStep cat ch stack state d with
    | .done r => r
    | .cont s1 k1 d1 => parse_ch fuel cat ch k1 s1 d1

theorem parse_ch_done (fuel : Nat) (hf : fuel ≠ 0) (cat ch : Nat) (stack : List Nat)
    (state : Nat) (d : DState) (r : PR (Nat × List Nat × DState))
    (h : chStep cat ch stack state d = .done r) :
    parse_ch fuel cat ch stack state d = r := by
  cases fuel with
  | zero => exact absurd rfl hf
  | succ f => simp [parse_ch, h]

theorem parse_ch_cont (fuel : Nat) (hf : fuel ≠ 0) (cat ch : Nat) (stack : List Nat)
    (state : Nat) (d : DState) (s1 : Nat) (k1 : List Nat) (d1 : DState)
    (h : chStep cat ch stack state d = .cont s1 k1 d1) :
    parse_ch fuel cat ch stack state d = parse_ch (fuel - 1) cat ch k1 s1 d1 := by
  cases fuel with
  | zero => exact absurd rfl hf
  | succ f => simp [parse_ch, h]

/-- The record-separator adjustment performed at the top-level state
(src/src/main.rs lines 136-140): the previous top-level value is popped
and discarded and a bare newline is written. -/
def sepAdj (s : Nat) (d : DState) : DState :=
  if s = 0 ∧ d.ds ≠ [] then { d with out := d.out ++ [10], ds := d.ds.dropLast } else d

theorem sepAdj_ne (s : Nat) (d : DState) (hs : s ≠ 0) : sepAdj s d = d := by
  simp [sepAdj, hs]

theorem chStep_synErr (cat ch : Nat) (k : List Nat) (s : Nat) (d : DState)
    (hS : STATES s cat = tSyntax) :
    chStep cat ch k s d = .done (.err .Syntax) := by
  simp [chStep, hS, tSyntax]

theorem chStep_entry_nopush (cat ch : Nat) (k : List Nat) (s : Nat) (d : DState)
    (a code : Nat) (hS : STATES s cat = tEntry false a code)
    (ha : a < 0x80) (hc : code < 0xFF) :
    chStep cat ch k s d =
      (match (if 0 < a then do_action a ch (sepAdj s d) else .ok (sepAdj s d)) with
       | .err e => .done (.err e)
       | .panicked m => .done (.panicked m)
       | .ok d2 => .done (.ok (code, k, d2))) := by
  have h1 : STATES s cat / 256 % 256 = a := by
    rw [hS]; simp only [tEntry, if_neg Bool.false_ne_true]; omega
  have h2 : STATES s cat % 256 = code := by
    rw [hS]; simp only [tEntry, if_neg Bool.false_ne_true]; omega
  have hna : ¬(0x80 ≤ a) := by omega
  have hcne : ¬(code = 0xFF) := by omega
  have hsent : ¬(a = 0xFF ∧ code = 0xFF) := by omega
  simp only [chStep, h1, h2, sepAdj, if_neg hna, if_neg hcne, if_neg hsent]

theorem chStep_entry_push (cat ch : Nat) (k : List Nat) (s : Nat) (d : DState)
    (a code : Nat) (hS : STATES s cat = tEntry true a code)
    (ha : a < 0x80) (hc : code < 0xFF) :
    chStep cat ch k s d =
      (match (if 0 < a then do_action a ch (sepAdj s d) else .ok (sepAdj s d)) with
       | .err e => .done (.err e)
       | .panicked m => .done (.panicked m)
       | .ok d2 => .done (.ok (code, GOTOS s :: k, d2))) := by
  have h1 : STATES s cat / 256 % 256 = a + 0x80 := by
    rw [hS]; simp only [tEntry, eq_self_iff_true, if_true]; omega
  have h2 : STATES s cat % 256 = code := by
    rw [hS]; simp only [tEntry, eq_self_iff_true, if_true]; omega
  have h3 : a + 0x80 - 0x80 = a := by omega
  have hpa : 0x80 ≤ a + 0x80 := by omega
  have hcne : ¬(code = 0xFF) := by omega
  have hsent : ¬(a + 0x80 = 0xFF ∧ code = 0xFF) := by omega
  simp only [chStep, h1, h2, h3, sepAdj, if_pos hpa, if_neg hcne, if_neg hsent]

theorem chStep_entry_pop (cat ch : Nat) (k : List Nat) (s : Nat) (d : DState)
    (a : Nat) (hS : STATES s cat = tEntry false a 0xFF)
    (ha : a < 0x80) (hs : s ≠ 0) :
    chStep cat ch k s d =
      (match (if 0 < a then do_action a ch d else .ok d) with
       | .err e => .done (.err e)
       | .panicked m => .done (.panicked m)
       | .ok d2 =>
         match k with
         | [] => .done (.panicked "pop on empty control stack")
         | g :: k2 => .cont g k2 d2) := by
  have h1 : STATES s cat / 256 % 256 = a := by
    rw [hS]; simp only [tEntry, if_neg Bool.false_ne_true]; omega
  have h2 : STATES s cat % 256 = 0xFF := by
    rw [hS]; simp only [tEntry, if_neg Bool.false_ne_true]; omega
  have hna : ¬(0x80 ≤ a) := by omega
  have hne : ¬(a = 0xFF) := by omega
  have hsd : ¬(s = 0 ∧ d.ds ≠ []) := by simp [hs]
  simp only [chStep, h1, h2, and_true, eq_self_iff_true, if_true,
    if_neg hne, if_neg hna, if_neg hsd]

/-- The full parser configuration threaded through the byte loop of
`fn parse`: position tracker, control stack, state and mutable data. -/
structure PCfg where
  line : Nat
  col : Nat
  stack : List Nat
  state : Nat
  d : DState
deriving DecidableEq, Repr

/-- Result of running a prefix of the byte loop. -/
inductive RunRes where
  | ok (p : PCfg)
  | err (line col : Nat) (e : JsonError)
  | panicked (msg : String)
deriving DecidableEq, Repr

/-- The initial configuration of `fn parse`: line 1, column 0, empty
stacks and buffers. -/
def initCfg : PCfg := ⟨1, 0, [], 0, ⟨[], [], [], []⟩⟩

/-- One iteration of the byte loop of `fn parse`
(src/src/main.rs lines 99-110): update the position, classify the byte
(clamped to 0x7E) and run the transition loop. -/
def stepByte (p : PCfg) (ch : Nat) : RunRes :=
  let line := if ch = 10 then p.line + 1 else p.line
  let col := if ch = 10 then 0 else p.col + 1
  match parse_ch (p.stack.length + 2) (CATCODE (min ch 0x7E)) ch p.stack p.state p.d with
  | .ok (state, stack, d) => .ok ⟨line, col, stack, state, d⟩
  | .err e => .err line col e
  | .panicked m => .panicked m

/-- The byte loop of `fn parse` over a list of input bytes. -/
def runBytes (bytes : List Nat) (p : PCfg) : RunRes :=
  match bytes with
  | [] => .ok p
  | ch :: rest =>
    match stepByte p ch with
    | .ok p1 => runBytes rest p1
    | .err l c e => .err l c e
    | .panicked m => .panicked m

/-- Overall result of `fn parse`: the bytes written to the output sink on
success, or the position-tagged error. -/
inductive ParseRes where
  | ok (out : List Nat)
  | err (line col : Nat) (e : JsonError)
  | panicked (msg : String)
deriving DecidableEq, Repr

/-- The end-of-input step of `fn parse` (src/src/main.rs lines 111-116):
feed the synthetic end-of-input byte (category of a space, byte `?`) and
report `Truncated` unless the final state is the initial state. -/
def parseEnd (p : PCfg) : ParseRes :=
  match parse_ch (p.stack.length + 2) (CATCODE 32) 0x3F p.stack p.state p.d with
  | .err e => .err p.line p.col e
  | .panicked m => .panicked m
  | .ok (state, _, d) =>
    if state ≠ 0 then .err p.line p.col .Truncated
    else .ok d.out

/-- The remainder of `fn parse` from an intermediate configuration: run
the remaining bytes, then the end-of-input step. -/
def parseFrom (bytes : List Nat) (p : PCfg) : ParseRes :=
  match runBytes bytes p with
  | .err l c e => .err l c e
  | .panicked m => .panicked m
  | .ok p1 => parseEnd p1

/-- The parser entry point, from `fn parse` (src/src/main.rs lines
91-117): run every input byte from the initial configuration, then the
synthetic end-of-input byte.  Input is a pure byte list, so the source's
input-side `io::Error` path cannot arise; output writes are infallible. -/
def parse (bytes : List Nat) : ParseRes := parseFrom bytes initCfg

/-- Entries that `print_path` renders without panicking: container markers
and string terminals (pending object keys). -/
def pathEntry : Value → Bool
  | .Object _ => true
  | .List _ => true
  | .Term (.Str _) => true
  | .Term _ => false

/-- Container markers only (the notion of "Object or List marker" used by
the value-stack-invariant claim). -/
def isMarker : Value → Bool
  | .Object _ => true
  | .List _ => true
  | .Term _ => false

theorem popLast_snoc {α : Type} (xs : List α) (v : α) :
    popLast (xs ++ [v]) = some (xs, v) := by
  simp [popLast, List.getLast?_concat, List.dropLast_concat]

theorem print_path_append (l1 l2 : List Value) (p1 p2 : List Nat)
    (h1 : print_path l1 = .ok p1) (h2 : print_path l2 = .ok p2) :
    print_path (l1 ++ l2) = .ok (p1 ++ p2) := by
  induction l1 generalizing p1 with
  | nil =>
    simp only [print_path] at h1
    cases h1
    simpa using h2
  | cons item rest ih =>
    simp only [print_path] at h1 ⊢
    cases hi : pathItem item with
    | ok h =>
      rw [hi] at h1
      simp only [prBind] at h1
      cases hr : print_path rest with
      | ok r =>
        rw [hr] at h1
        simp only [prBind] at h1
        cases h1
        simp only [List.cons_append, List.append_eq, prBind, ih r hr, List.append_assoc]
      | err e => rw [hr] at h1; simp [prBind] at h1
      | panicked m => rw [hr] at h1; simp [prBind] at h1
    | err e => rw [hi] at h1; simp [prBind] at h1
    | panicked m => rw [hi] at h1; simp [prBind] at h1

theorem print_path_ok (l : List Value) (h : l.all pathEntry = true) :
    ∃ p, print_path l = .ok p := by
  induction l with
  | nil => exact ⟨[], rfl⟩
  | cons item rest ih =>
    simp only [List.all_cons, Bool.and_eq_true] at h
    obtain ⟨p, hp⟩ := ih h.2
    have hitem : ∃ hbytes, pathItem item = .ok hbytes := by
      cases item with
      | Object b => exact ⟨[46], rfl⟩
      | List n => exact ⟨[91] ++ decDigits n ++ [93], rfl⟩
      | Term t =>
        cases t with
        | Str s =>
          by_cases hb : s.all isBareChar = true
          · exact ⟨(s.map utf8Encode).flatten, by simp [pathItem, hb]⟩
          · exact ⟨fmtTerminal (.Str s), by simp [pathItem, hb]⟩
        | Null => simp [pathEntry] at h
        | Bool b => simp [pathEntry] at h
        | Number s => simp [pathEntry] at h
    obtain ⟨hbytes, hh⟩ := hitem
    exact ⟨hbytes ++ p, by rw [print_path, hh, hp]; rfl⟩

theorem utf8DecodeAux_ascii (bs : List Nat) (fuel : Nat) (hf : bs.length ≤ fuel)
    (h : ∀ b ∈ bs, b < 0x80) : utf8DecodeAux fuel bs = some bs := by
  induction bs generalizing fuel with
  | nil => cases fuel <;> rfl
  | cons b rest ih =>
    have hb : b < 0x80 := h b (List.mem_cons_self b rest)
    cases fuel with
    | zero => simp at hf
    | succ f =>
      have hrest := ih f (by simpa using hf)
        (fun x hx => h x (List.mem_cons_of_mem b hx))
      simp [utf8DecodeAux, utf8Step, if_pos hb, hrest]

/-- ASCII byte lists decode to themselves. -/
theorem utf8Decode_ascii (bs : List Nat) (h : ∀ b ∈ bs, b < 0x80) :
    utf8Decode bs = some bs :=
  utf8DecodeAux_ascii bs bs.length le_rfl h

theorem utf8Encode_length_pos (c : Nat) : 1 ≤ (utf8Encode c).length := by
  unfold utf8Encode
  split_ifs <;> simp

theorem utf8Step_encode (c : Nat) (hc : isScalar c = true) (rest : List Nat) :
    ∃ b bs, utf8Encode c = b :: bs ∧ utf8Step b (bs ++ rest) = some (c, rest) := by
  simp only [isScalar, Bool.or_eq_true, Bool.and_eq_true, decide_eq_true_eq] at hc
  by_cases h1 : c < 0x80
  · refine ⟨c, [], by simp [utf8Encode, h1], ?_⟩
    simp [utf8Step, h1]
  · by_cases h2 : c < 0x800
    · refine ⟨0xC0 + c / 64, [0x80 + c % 64], by simp [utf8Encode, h1, h2], ?_⟩
      have e1 : (0xC0 + c / 64 - 0xC0) * 64 + (0x80 + c % 64 - 0x80) = c := by omega
      simp only [utf8Step, List.cons_append, List.nil_append]
      rw [if_neg (by omega), if_pos (by omega), if_pos (by omega), e1]
    · by_cases h3 : c < 0x10000
      · refine ⟨0xE0 + c / 4096, [0x80 + c / 64 % 64, 0x80 + c % 64],
          by simp [utf8Encode, h1, h2, h3], ?_⟩
        have e1 : (0xE0 + c / 4096 - 0xE0) * 4096 + (0x80 + c / 64 % 64 - 0x80) * 64
            + (0x80 + c % 64 - 0x80) = c := by omega
        have hcond : (if 0xE0 + c / 4096 = 0xE0 then
              0xA0 ≤ 0x80 + c / 64 % 64 ∧ 0x80 + c / 64 % 64 ≤ 0xBF
            else if 0xE0 + c / 4096 = 0xED then
              0x80 ≤ 0x80 + c / 64 % 64 ∧ 0x80 + c / 64 % 64 ≤ 0x9F
            else 0x80 ≤ 0x80 + c / 64 % 64 ∧ 0x80 + c / 64 % 64 ≤ 0xBF) := by
          by_cases he : c / 4096 = 0
          · rw [if_pos (by omega)]; omega
          · by_cases hd : c / 4096 = 0xD
            · rw [if_neg (by omega), if_pos (by omega)]; omega
            · rw [if_neg (by omega), if_neg (by omega)]; omega
        simp only [utf8Step, List.cons_append, List.nil_append]
        rw [if_neg (by omega), if_neg (by omega), if_pos (by omega),
          if_pos ⟨hcond, by omega⟩, e1]
      · refine ⟨0xF0 + c / 262144,
          [0x80 + c / 4096 % 64, 0x80 + c / 64 % 64, 0x80 + c % 64],
          by simp [utf8Encode, h1, h2, h3], ?_⟩
        have hup : c < 0x110000 := by omega
        have e1 : (0xF0 + c / 262144 - 0xF0) * 262144 + (0x80 + c / 4096 % 64 - 0x80) * 4096
            + (0x80 + c / 64 % 64 - 0x80) * 64 + (0x80 + c % 64 - 0x80) = c := by omega
        have hcond : (if 0xF0 + c / 262144 = 0xF0 then
              0x90 ≤ 0x80 + c / 4096 % 64 ∧ 0x80 + c / 4096 % 64 ≤ 0xBF
            else if 0xF0 + c / 262144 = 0xF4 then
              0x80 ≤ 0x80 + c / 4096 % 64 ∧ 0x80 + c / 4096 % 64 ≤ 0x8F
            else 0x80 ≤ 0x80 + c / 4096 % 64 ∧ 0x80 + c / 4096 % 64 ≤ 0xBF) := by
          by_cases he : c / 262144 = 0
          · rw [if_pos (by omega)]; omega
          · by_cases hd : c / 262144 = 4
            · rw [if_neg (by omega), if_pos (by omega)]; omega
            · rw [if_neg (by omega), if_neg (by omega)]; omega
        simp only [utf8Step, List.cons_append, List.nil_append]
        rw [if_neg (by omega), if_neg (by omega), if_neg (by omega),
          if_pos (by omega), if_pos ⟨hcond, by omega⟩, e1]

theorem utf8DecodeAux_encode (cps : List Nat) (fuel : Nat)
    (h : ∀ c ∈ cps, isScalar c = true) (hf : cps.length ≤ fuel) :
    utf8DecodeAux fuel ((cps.map utf8Encode).flatten) = some cps := by
  induction cps generalizing fuel with
  | nil => cases fuel <;> rfl
  | cons c rest ih =>
    have hc : isScalar c = true := h c (List.mem_cons_self c rest)
    cases fuel with
    | zero => simp at hf
    | succ f =>
      obtain ⟨b, bs, henc, hstep⟩ :=
        utf8Step_encode c hc ((rest.map utf8Encode).flatten)
      have hrest := ih f (fun x hx => h x (List.mem_cons_of_mem c hx)) (by simpa using hf)
      simp only [List.map_cons, List.flatten_cons, henc, List.cons_append,
        utf8DecodeAux, hstep, hrest, Option.map_some']

/-- Encoding then decoding a list of Unicode scalar values is the
identity. -/
theorem utf8Decode_encode (cps : List Nat) (h : ∀ c ∈ cps, isScalar c = true) :
    utf8Decode ((cps.map utf8Encode).flatten) = some cps := by
  have hlen : cps.length ≤ ((cps.map utf8Encode).flatten).length := by
    clear h
    induction cps with
    | nil => simp
    | cons c rest ih =>
      have h1 := utf8Encode_length_pos c
      simp only [List.map_cons, List.flatten_cons, List.length_cons, List.length_append]
      omega
  exact utf8DecodeAux_encode cps _ h hlen

theorem utf8Step_inv (b : Nat) (bs : List Nat) (c : Nat) (rest : List Nat)
    (h : utf8Step b bs = some (c, rest)) : utf8Encode c ++ rest = b :: bs := by
  by_cases h1 : b < 0x80
  · simp only [utf8Step, if_pos h1, Option.some.injEq, Prod.mk.injEq] at h
    obtain ⟨hc, hr⟩ := h
    subst hc; subst hr
    simp [utf8Encode, h1]
  · by_cases h2 : 0xC2 ≤ b ∧ b ≤ 0xDF
    · cases bs with
      | nil => simp [utf8Step, if_neg h1, if_pos h2] at h
      | cons b1 bs' =>
        simp only [utf8Step, if_neg h1, if_pos h2] at h
        by_cases hcnd : 0x80 ≤ b1 ∧ b1 ≤ 0xBF
        · rw [if_pos hcnd] at h
          simp only [Option.some.injEq, Prod.mk.injEq] at h
          obtain ⟨hc, hr⟩ := h
          subst hc; subst hr
          have e1 : ((b - 0xC0) * 64 + (b1 - 0x80)) / 64 = b - 0xC0 := by omega
          have e2 : ((b - 0xC0) * 64 + (b1 - 0x80)) % 64 = b1 - 0x80 := by omega
          simp only [utf8Encode]
          rw [if_neg (by omega), if_pos (by omega), e1, e2]
          simp only [List.cons_append, List.nil_append, List.cons.injEq]
          exact ⟨by omega, by omega, trivial⟩
        · rw [if_neg hcnd] at h
          simp at h
    · by_cases h3 : 0xE0 ≤ b ∧ b ≤ 0xEF
      · cases bs with
        | nil => simp [utf8Step, if_neg h1, if_neg h2, if_pos h3] at h
        | cons b1 bs1 =>
          cases bs1 with
          | nil => simp [utf8Step, if_neg h1, if_neg h2, if_pos h3] at h
          | cons b2 bs' =>
            simp only [utf8Step, if_neg h1, if_neg h2, if_pos h3] at h
            by_cases hcnd : (if b = 0xE0 then 0xA0 ≤ b1 ∧ b1 ≤ 0xBF
                else if b = 0xED then 0x80 ≤ b1 ∧ b1 ≤ 0x9F
                else 0x80 ≤ b1 ∧ b1 ≤ 0xBF) ∧ (0x80 ≤ b2 ∧ b2 ≤ 0xBF)
            · rw [if_pos hcnd] at h
              obtain ⟨hin, hb2⟩ := hcnd
              have hb1 : 0x80 ≤ b1 ∧ b1 ≤ 0xBF := by
                by_cases he : b = 0xE0
                · rw [if_pos he] at hin; omega
                · by_cases hd : b = 0xED
                  · rw [if_neg he, if_pos hd] at hin; omega
                  · rw [if_neg he, if_neg hd] at hin; omega
              have hlow : 0x800 ≤ (b - 0xE0) * 4096 + (b1 - 0x80) * 64 + (b2 - 0x80) := by
                by_cases he : b = 0xE0
                · rw [if_pos he] at hin; omega
                · omega
              simp only [Option.some.injEq, Prod.mk.injEq] at h
              obtain ⟨hc, hr⟩ := h
              subst hc; subst hr
              have e1 : ((b - 0xE0) * 4096 + (b1 - 0x80) * 64 + (b2 - 0x80)) / 4096
                  = b - 0xE0 := by omega
              have e2 : ((b - 0xE0) * 4096 + (b1 - 0x80) * 64 + (b2 - 0x80)) / 64 % 64
                  = b1 - 0x80 := by omega
              have e3 : ((b - 0xE0) * 4096 + (b1 - 0x80) * 64 + (b2 - 0x80)) % 64
                  = b2 - 0x80 := by omega
              simp only [utf8Encode]
              rw [if_neg (by omega), if_neg (by omega), if_pos (by omega), e1, e2, e3]
              simp only [List.cons_append, List.nil_append, List.cons.injEq]
              exact ⟨by omega, by omega, by omega, trivial⟩
            · rw [if_neg hcnd] at h
              simp at h
      · by_cases h4 : 0xF0 ≤ b ∧ b ≤ 0xF4
        · cases bs with
          | nil => simp [utf8Step, if_neg h1, if_neg h2, if_neg h3, if_pos h4] at h
          | cons b1 bs1 =>
            cases bs1 with
            | nil => simp [utf8Step, if_neg h1, if_neg h2, if_neg h3, if_pos h4] at h
            | cons b2 bs2 =>
              cases bs2 with
              | nil => simp [utf8Step, if_neg h1, if_neg h2, if_neg h3, if_pos h4] at h
              | cons b3 bs' =>
                simp only [utf8Step, if_neg h1, if_neg h2, if_neg h3, if_pos h4] at h
                by_cases hcnd : (if b = 0xF0 then 0x90 ≤ b1 ∧ b1 ≤ 0xBF
                    else if b = 0xF4 then 0x80 ≤ b1 ∧ b1 ≤ 0x8F
                    else 0x80 ≤ b1 ∧ b1 ≤ 0xBF) ∧ (0x80 ≤ b2 ∧ b2 ≤ 0xBF)
                    ∧ (0x80 ≤ b3 ∧ b3 ≤ 0xBF)
                · rw [if_pos hcnd] at h
                  obtain ⟨hin, hb2, hb3⟩ := hcnd
                  have hb1 : 0x80 ≤ b1 ∧ b1 ≤ 0xBF := by
                    by_cases he : b = 0xF0
                    · rw [if_pos he] at hin; omega
                    · by_cases hd : b = 0xF4
                      · rw [if_neg he, if_pos hd] at hin; omega
                      · rw [if_neg he, if_neg hd] at hin; omega
                  have hlow : 0x10000 ≤ (b - 0xF0) * 262144 + (b1 - 0x80) * 4096
                      + (b2 - 0x80) * 64 + (b3 - 0x80) := by
                    by_cases he : b = 0xF0
                    · rw [if_pos he] at hin; omega
                    · omega
                  simp only [Option.some.injEq, Prod.mk.injEq] at h
                  obtain ⟨hc, hr⟩ := h
                  subst hc; subst hr
                  have e1 : ((b - 0xF0) * 262144 + (b1 - 0x80) * 4096 + (b2 - 0x80) * 64
                      + (b3 - 0x80)) / 262144 = b - 0xF0 := by omega
                  have e2 : ((b - 0xF0) * 262144 + (b1 - 0x80) * 4096 + (b2 - 0x80) * 64
                      + (b3 - 0x80)) / 4096 % 64 = b1 - 0x80 := by omega
                  have e3 : ((b - 0xF0) * 262144 + (b1 - 0x80) * 4096 + (b2 - 0x80) * 64
                      + (b3 - 0x80)) / 64 % 64 = b2 - 0x80 := by omega
                  have e4 : ((b - 0xF0) * 262144 + (b1 - 0x80) * 4096 + (b2 - 0x80) * 64
                      + (b3 - 0x80)) % 64 = b3 - 0x80 := by omega
                  simp only [utf8Encode]
                  rw [if_neg (by omega), if_neg (by omega), if_neg (by omega), e1, e2, e3, e4]
                  simp only [List.cons_append, List.nil_append, List.cons.injEq]
                  exact ⟨by omega, by omega, by omega, by omega, trivial⟩
                · rw [if_neg hcnd] at h
                  simp at h
        · simp [utf8Step, if_neg h1, if_neg h2, if_neg h3, if_neg h4] at h

/-- Decoding then re-encoding gives back the original bytes. -/
theorem utf8Encode_decodeAux (fuel : Nat) (bs : List Nat) (cps : List Nat)
    (h : utf8DecodeAux fuel bs = some cps) :
    ((cps.map utf8Encode).flatten) = bs := by
  induction fuel generalizing bs cps with
  | zero =>
    cases bs with
    | nil =>
      simp only [utf8DecodeAux, Option.some.injEq] at h
      subst h; rfl
    | cons b bs' => simp [utf8DecodeAux] at h
  | succ f ih =>
    cases bs with
    | nil =>
      simp only [utf8DecodeAux, Option.some.injEq] at h
      subst h; rfl
    | cons b bs' =>
      simp only [utf8DecodeAux] at h
      cases hstep : utf8Step b bs' with
      | none =>
        simp only [hstep] at h
        exact Option.noConfusion h
      | some pr =>
        obtain ⟨c, rest⟩ := pr
        simp only [hstep] at h
        cases hrec : utf8DecodeAux f rest with
        | none =>
          simp only [hrec, Option.map_none'] at h
          exact Option.noConfusion h
        | some cps' =>
          simp only [hrec, Option.map_some', Option.some.injEq] at h
          subst h
          have hr := ih rest cps' hrec
          simp only [List.map_cons, List.flatten_cons, hr]
          exact utf8Step_inv b bs' c rest hstep

/-- Decoding then re-encoding gives back the original bytes. -/
theorem utf8Encode_decode (bs : List Nat) (cps : List Nat)
    (h : utf8Decode bs = some cps) : ((cps.map utf8Encode).flatten) = bs :=
  utf8Encode_decodeAux bs.length bs cps h

/-! ### Sanity checks: the unit tests of src/src/main.rs, reproduced
against the embedding (the `run` helper of the tests trims trailing
whitespace, hence the extra final record-separator newline here). -/

example : parse (strBytes "") = .ok [] := by decide

example : parse (strBytes "\x7b\x7d") = .ok [10] := by decide

example : parse (strBytes "[]") = .ok [10] := by decide

example : parse (strBytes "[\x7b\x7d]") = .ok [10] := by decide

example : parse (strBytes "\x7b\"foo\": []\x7d") = .ok (strBytes ".foo = []\n\n") := by decide

example : parse (strBytes "\x7b\"foo\": \"bar\"\x7d") =
    .ok (strBytes ".foo = \"bar\"\n\n") := by decide

example : parse (strBytes "\x7b\"bare\": \"a\"\x7d") =
    .ok (strBytes ".bare = \"a\"\n\n") := by decide

example : parse (strBytes "\x7b\"quoted now\": \"b\"\x7d") =
    .ok (strBytes ".\"quoted now\" = \"b\"\n\n") := by decide

example : parse (strBytes "\x7b\"⚙🖥\": \"🦀\"\x7d") =
    .ok (strBytes ".\"⚙🖥\" = \"🦀\"\n\n") := by decide

example : parse (strBytes "\x7b\"smile\": \"\\ud83d\\ude0a\"\x7d") =
    .ok (strBytes ".smile = \"😊\"\n\n") := by decide

example : parse (strBytes "\x7b\"\\b_backspace\": \"carriage\\r\\nreturn\"\x7d") =
    .ok (strBytes ".\"\\b_backspace\" = \"carriage\\r\\nreturn\"\n\n") := by decide

/-- C1 counterexample: the input `5` is accepted as a single top-level
scalar, yet parse writes only the record-separator newline — the completed
top-level value is discarded by `parse_ch` (src/src/main.rs lines 136-140)
without ever printing a `path = value` line (no `=` byte, 61, appears in
the output), contradicting "including a scalar that is itself a top-level
value". -/
theorem C1_counterexample :
    parse (strBytes "5") = .ok [10] ∧ ¬ (61 ∈ ([10] : List Nat)) := by decide

/-- C2 counterexample: for the input `\x7b\x7d` parse succeeds but writes
one byte (the record-separator newline emitted when the completed
top-level value is discarded at end of input), not zero bytes. -/
theorem C2_counterexample :
    parse (strBytes "\x7b\x7d") = .ok [10] ∧ ([10] : List Nat) ≠ [] := by decide

/-- C3: the code has an off-by-one on the high-surrogate deferral range.
A lone `\u` escape is deferred only for 0xD800-0xDBFE (the source uses the
half-open range `0xD800..0xDBFF` at line 298), so the valid surrogate pair
`\udbff\udc00` is rejected with InvalidEscape instead of resolving to
U+10FC00 — although the 8-digit path (line 275, inclusive range `0xD800
..= 0xDBFF`) itself accepts 0xDBFF as a high surrogate, and pairs with
high surrogates up to 0xDBFE do resolve by the claimed formula (the
`\ud83d\ude0a` example works). -/
theorem C3_surrogate_pair :
    parse (strBytes "\x7b\"a\": \"\\udbff\\udc00\"\x7d") =
      .err 1 14 (.InvalidEscape "\\udbff ?") ∧
    parse (strBytes "\x7b\"smile\": \"\\ud83d\\ude0a\"\x7d") =
      .ok (strBytes ".smile = \"😊\"\n\n") ∧
    do_action 0xE 0x5C ⟨[], [], strCps "dbff", []⟩ =
      .err (.InvalidEscape "\\udbff ?") ∧
    do_action 0xE 0x22 ⟨[], [], strCps "dbffdc00", []⟩ =
      .ok ⟨[], utf8Encode 0x10FC00, [], []⟩ ∧
    do_action 0xE 0x5C ⟨[], [], strCps "d800", []⟩ =
      .ok ⟨[], [], strCps "d800", []⟩ ∧
    0x10000 + (0xD83D - 0xD800) * 0x400 + (0xDE0A - 0xDC00) = 0x1F60A := by decide

/-- C4 counterexample: `[\x7b\x7d]` contains an empty object as an array
element, yet the output is just the record-separator newline — no
`[0] = \x7b\x7d` line (no `=` byte at all): "pop & append" (action 0x3,
src/src/main.rs lines 166-178) prints nothing for containers.  This
matches the source's own `test_empty` unit test. -/
theorem C4_counterexample :
    parse (strBytes "[\x7b\x7d]") = .ok [10] ∧ ¬ (61 ∈ ([10] : List Nat)) := by decide

/-- C5 counterexample: the input `[1e` ends in the middle of an array
(and of a number's exponent); the synthetic end-of-input byte has no valid
transition there, so parse reports Syntax at the final position, not
Truncated. -/
theorem C5_counterexample :
    parse (strBytes "[1e") = .err 1 3 .Syntax ∧ JsonError.Syntax ≠ .Truncated := by decide

/-- C6 counterexample: the unpaired high surrogate `\ud800` immediately
followed by the closing quote is silently dropped — the string finalizer
(action 0x8, src/src/main.rs lines 223-229) clears the pending escape
scratch without checking it — so parse succeeds with `.a = ""` instead of
failing with InvalidEscape. -/
theorem C6_counterexample :
    parse (strBytes "\x7b\"a\": \"\\ud800\"\x7d") =
      .ok (strBytes ".a = \"\"\n\n") := by decide

/-- C9 counterexample: after the prefix `\x7b"a": true` of a parse, the
value stack is `[Object, Str "a", Bool true]`: the string terminal "a" (a
pending object key) sits in the non-topmost prefix of the stack, so the
prefix is not made of Object/List markers only. -/
theorem C9_counterexample :
    runBytes (strBytes "\x7b\"a\": true") initCfg =
      .ok ⟨1, 10, [6, 0], 1,
        ⟨[.Object true, .Term (.Str (strCps "a")), .Term (.Bool true)], [], [], []⟩⟩ ∧
    ([Value.Object true, .Term (.Str (strCps "a")),
      .Term (.Bool true)].dropLast.all isMarker) = false := by decide

/-! ### Action-level lemmas about "pop & append" (0x3) and
"pop pop & setitem" (0x4) -/

theorem act3_term (ch : Nat) (st : DState) (ds0 : List Value) (n : Nat)
    (t : Terminal) (p : List Nat)
    (hds : st.ds = ds0 ++ [.List n, .Term t])
    (hp : print_path (ds0 ++ [.List n]) = .ok p) :
    do_action 0x3 ch st =
      .ok { st with
            ds := ds0 ++ [.List (n + 1)],
            out := st.out ++ p ++ [32, 61, 32] ++ fmtTerminal t ++ [10] } := by
  have hsnoc : st.ds = (ds0 ++ [Value.List n]) ++ [Value.Term t] := by rw [hds]; simp
  simp only [do_action, hsnoc, popLast_snoc, hp]

theorem act3_container (ch : Nat) (st : DState) (ds0 : List Value) (n : Nat)
    (v : Value) (hv : isMarker v = true)
    (hds : st.ds = ds0 ++ [.List n, v]) :
    do_action 0x3 ch st = .ok { st with ds := ds0 ++ [.List (n + 1)] } := by
  have hsnoc : st.ds = (ds0 ++ [Value.List n]) ++ [v] := by rw [hds]; simp
  cases v with
  | Object b => simp only [do_action, hsnoc, popLast_snoc]
  | List m => simp only [do_action, hsnoc, popLast_snoc]
  | Term t => simp [isMarker] at hv

theorem act4_term (ch : Nat) (st : DState) (ds0 : List Value) (b : Bool)
    (k : List Nat) (t : Terminal) (p : List Nat)
    (hds : st.ds = ds0 ++ [.Object b, .Term (.Str k), .Term t])
    (hp : print_path (ds0 ++ [.Object b, .Term (.Str k)]) = .ok p) :
    do_action 0x4 ch st =
      .ok { st with
            ds := ds0 ++ [.Object false],
            out := st.out ++ (p ++ [32, 61, 32]) ++ fmtTerminal t ++ [10] } := by
  have hsnoc : st.ds = (ds0 ++ [Value.Object b, Value.Term (.Str k)]) ++ [Value.Term t] := by
    rw [hds]; simp
  have hsnoc2 : ds0 ++ [Value.Object b, Value.Term (.Str k)] =
      (ds0 ++ [Value.Object b]) ++ [Value.Term (.Str k)] := by simp
  have hp2 : print_path ((ds0 ++ [Value.Object b]) ++ [Value.Term (.Str k)]) = .ok p := by
    simpa using hp
  simp only [do_action, hsnoc, popLast_snoc, hsnoc2, hp2]

theorem act4_emptyList (ch : Nat) (st : DState) (ds0 : List Value) (b : Bool)
    (k : List Nat) (p : List Nat)
    (hds : st.ds = ds0 ++ [.Object b, .Term (.Str k), .List 0])
    (hp : print_path (ds0 ++ [.Object b, .Term (.Str k)]) = .ok p) :
    do_action 0x4 ch st =
      .ok { st with
            ds := ds0 ++ [.Object false],
            out := st.out ++ (p ++ [32, 61, 32]) ++ [91, 93, 10] } := by
  have hsnoc : st.ds = (ds0 ++ [Value.Object b, Value.Term (.Str k)]) ++ [Value.List 0] := by
    rw [hds]; simp
  have hsnoc2 : ds0 ++ [Value.Object b, Value.Term (.Str k)] =
      (ds0 ++ [Value.Object b]) ++ [Value.Term (.Str k)] := by simp
  have hp2 : print_path ((ds0 ++ [Value.Object b]) ++ [Value.Term (.Str k)]) = .ok p := by
    simpa using hp
  simp only [do_action, hsnoc, popLast_snoc, hsnoc2, hp2]

theorem act4_emptyObject (ch : Nat) (st : DState) (ds0 : List Value) (b : Bool)
    (k : List Nat) (p : List Nat)
    (hds : st.ds = ds0 ++ [.Object b, .Term (.Str k), .Object true])
    (hp : print_path (ds0 ++ [.Object b, .Term (.Str k)]) = .ok p) :
    do_action 0x4 ch st =
      .ok { st with
            ds := ds0 ++ [.Object false],
            out := st.out ++ (p ++ [32, 61, 32]) ++ [123, 125, 10] } := by
  have hsnoc : st.ds = (ds0 ++ [Value.Object b, Value.Term (.Str k)]) ++ [Value.Object true] := by
    rw [hds]; simp
  have hsnoc2 : ds0 ++ [Value.Object b, Value.Term (.Str k)] =
      (ds0 ++ [Value.Object b]) ++ [Value.Term (.Str k)] := by simp
  have hp2 : print_path ((ds0 ++ [Value.Object b]) ++ [Value.Term (.Str k)]) = .ok p := by
    simpa using hp
  simp only [do_action, hsnoc, popLast_snoc, hsnoc2, hp2]

theorem act4_nonempty (ch : Nat) (st : DState) (ds0 : List Value) (b : Bool)
    (k : List Nat) (v : Value)
    (hv : (∃ m, v = .List (m + 1)) ∨ v = .Object false)
    (hds : st.ds = ds0 ++ [.Object b, .Term (.Str k), v]) :
    do_action 0x4 ch st = .ok { st with ds := ds0 ++ [.Object false] } := by
  have hsnoc : st.ds = (ds0 ++ [Value.Object b, Value.Term (.Str k)]) ++ [v] := by
    rw [hds]; simp
  have hsnoc2 : ds0 ++ [Value.Object b, Value.Term (.Str k)] =
      (ds0 ++ [Value.Object b]) ++ [Value.Term (.Str k)] := by simp
  rcases hv with ⟨m, hm⟩ | hm <;> subst hm <;>
    simp only [do_action, hsnoc, popLast_snoc, hsnoc2]

/-- Every semantic action other than "pop & append" (0x3) and
"pop pop & setitem" (0x4) leaves the output untouched: the stack pushes,
the string/keyword/number finalizers and every escape-scratch action only
modify the value stack and the scratch buffers. -/
theorem act_out_silent (a ch : Nat) (st d2 : DState)
    (h3 : a ≠ 0x3) (h4 : a ≠ 0x4)
    (h : do_action a ch st = .ok d2) : d2.out = st.out := by
  unfold do_action at h
  split at h <;>
    first
      | exact absurd rfl h3
      | exact absurd rfl h4
      | (try simp only [finishCodepoint] at h
         repeat' split at h
         all_goals first | (cases h; rfl) | cases h)

/-- C5 (amended): whenever every input byte and the synthetic end-of-input
byte are processed without error and the resulting state is not the
initial state, parse reports Truncated at the final position (and in
particular does not panic). -/
theorem C5_truncated (bytes : List Nat) (p : PCfg) (st : Nat) (stk : List Nat)
    (d : DState) (hrun : runBytes bytes initCfg = .ok p)
    (heof : parse_ch (p.stack.length + 2) (CATCODE 32) 0x3F p.stack p.state p.d
      = .ok (st, stk, d))
    (hst : st ≠ 0) :
    parse bytes = .err p.line p.col .Truncated := by
  simp only [parse, parseFrom, hrun, parseEnd, heof]
  rw [if_pos hst]

theorem C5_truncated_witness :
    parse (strBytes "\x7b") = .err 1 1 .Truncated :=
  C5_truncated (strBytes "\x7b") ⟨1, 1, [0], 2, ⟨[.Object true], [], [], []⟩⟩ 2 [0]
    ⟨[.Object true], [], [], []⟩ (by decide) (by decide) (by decide)

/-- C7: a key whose characters are all ASCII alphanumeric or underscore is
rendered bare in the path, any other key is rendered exactly as the scalar
string formatter would render it; and the end-to-end example from the
spec. -/
theorem C7_path_keys :
    (∀ (pre : List Value) (p : List Nat) (s : List Nat),
      print_path pre = .ok p →
      print_path (pre ++ [.Term (.Str s)]) =
        .ok (p ++ (if s.all isBareChar then (s.map utf8Encode).flatten
                   else fmtTerminal (.Str s)))) ∧
    parse (strBytes "\x7b\"quoted now\": \"b\"\x7d") =
      .ok (strBytes ".\"quoted now\" = \"b\"\n\n") := by
  constructor
  · intro pre p s hpre
    have hone : print_path [Value.Term (.Str s)] =
        .ok ((if s.all isBareChar then (s.map utf8Encode).flatten
              else fmtTerminal (.Str s)) ++ []) := by
      by_cases hb : s.all isBareChar = true
      · simp [print_path, pathItem, hb, prBind]
      · simp [print_path, pathItem, hb, prBind]
    have := print_path_append pre [Value.Term (.Str s)] p _ hpre hone
    simpa using this
  · decide

theorem C7_path_keys_witness :
    print_path [Value.Object true, .Term (.Str (strCps "quoted now"))] =
      .ok ([46] ++ fmtTerminal (.Str (strCps "quoted now"))) ∧
    print_path [Value.Object true, .Term (.Str (strCps "bare"))] =
      .ok ([46] ++ (((strCps "bare").map utf8Encode).flatten)) := by
  constructor
  · have h := C7_path_keys.1 [Value.Object true] [46] (strCps "quoted now") (by decide)
    simp only [List.singleton_append] at h
    rw [h, if_neg (by decide)]
    rfl
  · have h := C7_path_keys.1 [Value.Object true] [46] (strCps "bare") (by decide)
    simp only [List.singleton_append] at h
    rw [h, if_pos (by decide)]
    rfl

/-- C8: pushing a number (actions 0x9/0xA) stores the decoded verbatim
text of the accumulation buffer, and formatting that Number terminal
produces exactly the accumulated bytes again — the value never passes
through a binary float or integer; with an end-to-end example showing the
trailing zero of `1.50` preserved. -/
theorem C8_number_verbatim :
    (∀ (a ch : Nat) (st : DState) (cps : List Nat), (a = 0x9 ∨ a = 0xA) →
      utf8Decode st.ss = some cps →
      do_action a ch st = .ok { st with ds := st.ds ++ [.Term (.Number cps)], ss := [] } ∧
      fmtTerminal (.Number cps) = st.ss) ∧
    parse (strBytes "\x7b\"a\": 1.50\x7d") = .ok (strBytes ".a = 1.50\n\n") := by
  constructor
  · intro a ch st cps ha hdec
    have hfmt : fmtTerminal (.Number cps) = st.ss := by
      simp only [fmtTerminal]
      exact utf8Encode_decode st.ss cps hdec
    rcases ha with h | h <;> subst h <;> exact ⟨by simp [do_action, hdec], hfmt⟩
  · decide

theorem C8_number_verbatim_witness :
    do_action 0x9 0x3F ⟨[], strCps "1.50", [], []⟩ =
      .ok ⟨[.Term (.Number (strCps "1.50"))], [], [], []⟩ ∧
    fmtTerminal (.Number (strCps "1.50")) = strCps "1.50" := by
  have h := C8_number_verbatim.1 0x9 0x3F ⟨[], strCps "1.50", [], []⟩ (strCps "1.50")
    (Or.inl rfl) (by decide)
  exact ⟨h.1, h.2⟩

/-- C9 (amended): every entry of the value stack except possibly the
topmost is an Object marker, a List marker, or a string Terminal (a
pending object key); non-string terminals appear only transiently at the
top.  Stated as preservation by every semantic action under its
applicability precondition: pushes (0x1/0x2/0x5/0x6/0x7 and the
finalizers 0x8/0x9/0xA) require all existing entries to be path entries;
pop-and-append (0x3) a List directly beneath the popped value;
pop-pop-and-bind (0x4) an Object beneath the popped value and key. -/
theorem C9_stack_invariant :
    (∀ (a ch : Nat) (st : DState),
      (a = 0x1 ∨ a = 0x2 ∨ a = 0x5 ∨ a = 0x6 ∨ a = 0x7) →
      st.ds.all pathEntry = true →
      ∃ st', do_action a ch st = .ok st' ∧ st'.ds.dropLast.all pathEntry = true) ∧
    (∀ (a ch : Nat) (st : DState) (cps : List Nat),
      (a = 0x8 ∨ a = 0x9 ∨ a = 0xA) →
      utf8Decode st.ss = some cps →
      st.ds.all pathEntry = true →
      ∃ st', do_action a ch st = .ok st' ∧ st'.ds.dropLast.all pathEntry = true) ∧
    (∀ (ch : Nat) (st : DState) (ds0 : List Value) (n : Nat) (v : Value),
      st.ds = ds0 ++ [.List n, v] → ds0.all pathEntry = true →
      ∃ st', do_action 0x3 ch st = .ok st' ∧ st'.ds = ds0 ++ [.List (n + 1)] ∧
        st'.ds.dropLast.all pathEntry = true) ∧
    (∀ (ch : Nat) (st : DState) (ds0 : List Value) (b : Bool) (k : List Nat) (v : Value),
      st.ds = ds0 ++ [.Object b, .Term (.Str k), v] → ds0.all pathEntry = true →
      ∃ st', do_action 0x4 ch st = .ok st' ∧ st'.ds = ds0 ++ [.Object false] ∧
        st'.ds.dropLast.all pathEntry = true) := by
  refine ⟨?_, ?_, ?_, ?_⟩
  · intro a ch st ha hall
    have hd : ∀ (v : Value), (st.ds ++ [v]).dropLast.all pathEntry = true := by
      intro v; simpa [List.dropLast_concat] using hall
    rcases ha with h | h | h | h | h <;> subst h
    · exact ⟨_, rfl, hd _⟩
    · exact ⟨_, rfl, hd _⟩
    · exact ⟨_, rfl, hd _⟩
    · exact ⟨_, rfl, hd _⟩
    · exact ⟨_, rfl, hd _⟩
  · intro a ch st cps ha hdec hall
    have hd : ∀ (v : Value), (st.ds ++ [v]).dropLast.all pathEntry = true := by
      intro v; simpa [List.dropLast_concat] using hall
    rcases ha with h | h | h <;> subst h
    · exact ⟨{ st with ds := st.ds ++ [.Term (.Str cps)], ss := [], es := [] },
        by simp [do_action, hdec], hd _⟩
    · exact ⟨{ st with ds := st.ds ++ [.Term (.Number cps)], ss := [] },
        by simp [do_action, hdec], hd _⟩
    · exact ⟨{ st with ds := st.ds ++ [.Term (.Number cps)], ss := [] },
        by simp [do_action, hdec], hd _⟩
  · intro ch st ds0 n v hds hall
    have hdrop : (ds0 ++ [Value.List (n + 1)]).dropLast.all pathEntry = true := by
      simpa [List.dropLast_concat] using hall
    cases v with
    | Term t =>
      obtain ⟨p, hp⟩ := print_path_ok (ds0 ++ [Value.List n])
        (by simp [List.all_append, hall, pathEntry])
      exact ⟨_, act3_term ch st ds0 n t p hds hp, rfl, hdrop⟩
    | Object bb =>
      exact ⟨_, act3_container ch st ds0 n _ (by simp [isMarker]) hds, rfl, hdrop⟩
    | List m =>
      exact ⟨_, act3_container ch st ds0 n _ (by simp [isMarker]) hds, rfl, hdrop⟩
  · intro ch st ds0 b k v hds hall
    have hdrop : (ds0 ++ [Value.Object false]).dropLast.all pathEntry = true := by
      simpa [List.dropLast_concat] using hall
    have hallk : (ds0 ++ [Value.Object b, Value.Term (.Str k)]).all pathEntry = true := by
      simp [List.all_append, hall, pathEntry]
    obtain ⟨p, hp⟩ := print_path_ok _ hallk
    cases v with
    | Term t => exact ⟨_, act4_term ch st ds0 b k t p hds hp, rfl, hdrop⟩
    | Object bb =>
      cases bb with
      | true => exact ⟨_, act4_emptyObject ch st ds0 b k p hds hp, rfl, hdrop⟩
      | false => exact ⟨_, act4_nonempty ch st ds0 b k _ (Or.inr rfl) hds, rfl, hdrop⟩
    | List m =>
      cases m with
      | zero => exact ⟨_, act4_emptyList ch st ds0 b k p hds hp, rfl, hdrop⟩
      | succ m' =>
        exact ⟨_, act4_nonempty ch st ds0 b k _ (Or.inl ⟨m', rfl⟩) hds, rfl, hdrop⟩

theorem C9_stack_invariant_witness :
    (∃ st', do_action 0x5 0 ⟨[], [], [], []⟩ = .ok st' ∧
      st'.ds.dropLast.all pathEntry = true) ∧
    (∃ st', do_action 0x8 0 ⟨[], [97], [], []⟩ = .ok st' ∧
      st'.ds.dropLast.all pathEntry = true) ∧
    (∃ st', do_action 0x3 0 ⟨[.List 0, .Term .Null], [], [], []⟩ = .ok st' ∧
      st'.ds = [] ++ [.List 1] ∧ st'.ds.dropLast.all pathEntry = true) ∧
    (∃ st', do_action 0x4 0 ⟨[.Object true, .Term (.Str [97]), .Term .Null], [], [], []⟩
      = .ok st' ∧ st'.ds = [] ++ [.Object false] ∧
      st'.ds.dropLast.all pathEntry = true) := by
  refine ⟨C9_stack_invariant.1 0x5 0 ⟨[], [], [], []⟩
      (Or.inr (Or.inr (Or.inl rfl))) (by decide),
    C9_stack_invariant.2.1 0x8 0 ⟨[], [97], [], []⟩ [97] (Or.inl rfl)
      (by decide) (by decide),
    C9_stack_invariant.2.2.1 0 ⟨[.List 0, .Term .Null], [], [], []⟩ [] 0
      (.Term .Null) rfl (by decide),
    C9_stack_invariant.2.2.2 0 ⟨[.Object true, .Term (.Str [97]), .Term .Null], [], [], []⟩
      [] true [97] (.Term .Null) rfl (by decide)⟩

/-- C4 (amended): an empty array or empty object produces a
`path = []` / `path = \x7b\x7d` line only when it is an object member's
value (action 0x4); as an array element (action 0x3) or at top level a
container — empty or not — produces no line of its own, and non-empty
containers in member position also produce no line.  With the end-to-end
examples `\x7b"foo": []\x7d` and `[[]]`. -/
theorem C4_empty_container_lines :
    (∀ (ch : Nat) (st : DState) (ds0 : List Value) (b : Bool) (k p : List Nat),
      st.ds = ds0 ++ [.Object b, .Term (.Str k), .List 0] →
      print_path (ds0 ++ [.Object b, .Term (.Str k)]) = .ok p →
      do_action 0x4 ch st =
        .ok { st with
              ds := ds0 ++ [.Object false],
              out := st.out ++ (p ++ [32, 61, 32]) ++ [91, 93, 10] }) ∧
    (∀ (ch : Nat) (st : DState) (ds0 : List Value) (b : Bool) (k p : List Nat),
      st.ds = ds0 ++ [.Object b, .Term (.Str k), .Object true] →
      print_path (ds0 ++ [.Object b, .Term (.Str k)]) = .ok p →
      do_action 0x4 ch st =
        .ok { st with
              ds := ds0 ++ [.Object false],
              out := st.out ++ (p ++ [32, 61, 32]) ++ [123, 125, 10] }) ∧
    (∀ (ch : Nat) (st : DState) (ds0 : List Value) (b : Bool) (k : List Nat) (v : Value),
      ((∃ m, v = .List (m + 1)) ∨ v = .Object false) →
      st.ds = ds0 ++ [.Object b, .Term (.Str k), v] →
      do_action 0x4 ch st = .ok { st with ds := ds0 ++ [.Object false] }) ∧
    (∀ (ch : Nat) (st : DState) (ds0 : List Value) (n : Nat) (v : Value),
      isMarker v = true → st.ds = ds0 ++ [.List n, v] →
      do_action 0x3 ch st = .ok { st with ds := ds0 ++ [.List (n + 1)] }) ∧
    parse (strBytes "\x7b\"foo\": []\x7d") = .ok (strBytes ".foo = []\n\n") ∧
    parse (strBytes "[[]]") = .ok [10] := by
  refine ⟨?_, ?_, ?_, ?_, by decide, by decide⟩
  · intro ch st ds0 b k p hds hp
    exact act4_emptyList ch st ds0 b k p hds hp
  · intro ch st ds0 b k p hds hp
    exact act4_emptyObject ch st ds0 b k p hds hp
  · intro ch st ds0 b k v hv hds
    exact act4_nonempty ch st ds0 b k v hv hds
  · intro ch st ds0 n v hv hds
    exact act3_container ch st ds0 n v hv hds

theorem C4_empty_container_lines_witness :
    do_action 0x4 0 ⟨[.Object true, .Term (.Str [97]), .List 0], [], [], []⟩ =
      .ok ⟨[.Object false], [], [],
        (([46, 97] ++ [32, 61, 32]) ++ [91, 93, 10])⟩ ∧
    do_action 0x3 0 ⟨[.List 0, .Object true], [], [], []⟩ =
      .ok ⟨[.List 1], [], [], []⟩ := by
  constructor
  · have h := C4_empty_container_lines.1 0 ⟨[.Object true, .Term (.Str [97]), .List 0],
      [], [], []⟩ [] true [97] [46, 97] rfl (by decide)
    simpa using h
  · have h := C4_empty_container_lines.2.2.2.1 0 ⟨[.List 0, .Object true], [], [], []⟩
      [] 0 (.Object true) (by decide) rfl
    simpa using h

/-- C6 (amended): a non-hex-digit character inside a `\u` escape, a wrong
digit count at resolution, a pending high surrogate followed by a second
`\u` escape whose low half is out of range, and a plain byte arriving on a
pending escape fragment all fail with InvalidEscape carrying the
offending fragment; a replacement character is never appended — but an
unpaired high surrogate whose string ends (action 0x8) is silently
dropped rather than reported: the finalizer pushes exactly the decoded
accumulation buffer and clears the pending fragment. -/
theorem C6_invalid_escapes :
    (∀ (ch : Nat) (st : DState), hexVal ch = none →
      do_action 0xC ch st =
        .err (.InvalidEscape (charQuote ch ++ " is not a hex digit"))) ∧
    (∀ (ch : Nat) (st : DState), st.es.length ≠ 4 → st.es.length ≠ 8 →
      do_action 0xE ch st =
        .err (.InvalidEscape ("\\u" ++ natsToString st.es ++ ": wrong number of digits"))) ∧
    (∀ (ch : Nat) (st : DState) (high low : Nat), st.es.length = 8 →
      parseHex (st.es.take 4) = some high → 0xD800 ≤ high → high ≤ 0xDBFF →
      parseHex (st.es.drop 4) = some low → ¬ (0xDC00 ≤ low ∧ low ≤ 0xDFFF) →
      do_action 0xE ch st =
        .err (.InvalidEscape ("\\u" ++ natsToString (st.es.drop 4)
          ++ ": unpaired low surrogate"))) ∧
    (∀ (ch : Nat) (st : DState), st.es ≠ [] →
      do_action 0xB ch st = .err (.InvalidEscape (natsToString st.es))) ∧
    (∀ (ch : Nat) (st : DState) (cps : List Nat), utf8Decode st.ss = some cps →
      do_action 0x8 ch st =
        .ok { st with ds := st.ds ++ [.Term (.Str cps)], ss := [], es := [] }) := by
  refine ⟨?_, ?_, ?_, ?_, ?_⟩
  · intro ch st h
    simp [do_action, h]
  · intro ch st h4 h8
    simp [do_action, h4, h8]
  · intro ch st high low h8 hph hh1 hh2 hpl hlr
    simp only [do_action, if_pos h8, hph, if_pos (And.intro hh1 hh2), hpl, if_neg hlr]
  · intro ch st h
    simp [do_action, h]
  · intro ch st cps hdec
    simp [do_action, hdec]

theorem C6_invalid_escapes_witness :
    do_action 0xC 0x3F ⟨[], [], [100], []⟩ =
      .err (.InvalidEscape (charQuote 0x3F ++ " is not a hex digit")) ∧
    do_action 0xE 0x22 ⟨[], [], strCps "d8", []⟩ =
      .err (.InvalidEscape ("\\u" ++ natsToString (strCps "d8")
        ++ ": wrong number of digits")) ∧
    do_action 0xE 0x22 ⟨[], [], strCps "d800d800", []⟩ =
      .err (.InvalidEscape ("\\u" ++ natsToString (strCps "d800") ++ ": unpaired low surrogate")) ∧
    do_action 0xB 0x78 ⟨[], [], strCps "d800", []⟩ =
      .err (.InvalidEscape (natsToString (strCps "d800"))) ∧
    do_action 0x8 0x22 ⟨[], [97], strCps "d800", []⟩ =
      .ok ⟨[.Term (.Str [97])], [], [], []⟩ := by
  refine ⟨C6_invalid_escapes.1 0x3F ⟨[], [], [100], []⟩ (by decide),
    C6_invalid_escapes.2.1 0x22 ⟨[], [], strCps "d8", []⟩ (by decide) (by decide),
    ?_, C6_invalid_escapes.2.2.2.1 0x78 ⟨[], [], strCps "d800", []⟩ (by decide), ?_⟩
  · have h := C6_invalid_escapes.2.2.1 0x22 ⟨[], [], strCps "d800d800", []⟩ 0xD800 0xD800
      (by decide) (by decide) (by decide) (by decide) (by decide) (by decide)
    have he : (⟨[], [], strCps "d800d800", []⟩ : DState).es.drop 4 = strCps "d800" := by decide
    rw [h, he]
  · have h := C6_invalid_escapes.2.2.2.2 0x22 ⟨[], [97], strCps "d800", []⟩ [97] (by decide)
    simpa using h

/-! ### Whitespace and composition machinery -/

/-- The whitespace bytes: tab, LF, CR, space. -/
def isWsByte (b : Nat) : Bool := b == 9 || b == 10 || b == 13 || b == 32

theorem isWsByte_cases (b : Nat) (hb : isWsByte b = true) :
    b = 9 ∨ b = 10 ∨ b = 13 ∨ b = 32 := by
  simpa [isWsByte, or_assoc] using hb

theorem runBytes_append (l1 l2 : List Nat) (p : PCfg) :
    runBytes (l1 ++ l2) p = match runBytes l1 p with
      | .ok p1 => runBytes l2 p1
      | .err l c e => .err l c e
      | .panicked m => .panicked m := by
  induction l1 generalizing p with
  | nil => rfl
  | cons b rest ih =>
    simp only [List.cons_append, runBytes]
    cases stepByte p b with
    | ok p1 => exact ih p1
    | err l c e => rfl
    | panicked m => rfl

theorem parseFrom_append (l1 l2 : List Nat) (p : PCfg) :
    parseFrom (l1 ++ l2) p = match runBytes l1 p with
      | .ok p1 => parseFrom l2 p1
      | .err l c e => .err l c e
      | .panicked m => .panicked m := by
  simp only [parseFrom, runBytes_append]
  cases runBytes l1 p <;> rfl

/-- States in which a whitespace byte is skipped with no effect besides
position tracking: the structural states 2-9, and the initial state with
an empty value stack. -/
def wsStay (s : Nat) (d : DState) : Prop :=
  s = 2 ∨ s = 3 ∨ s = 4 ∨ s = 5 ∨ s = 6 ∨ s = 7 ∨ s = 8 ∨ s = 9 ∨ (s = 0 ∧ d.ds = [])

theorem stepByte_ws_stay (p : PCfg) (b : Nat) (hb : isWsByte b = true)
    (hs : wsStay p.state p.d) :
    stepByte p b = .ok ⟨if b = 10 then p.line + 1 else p.line,
      if b = 10 then 0 else p.col + 1, p.stack, p.state, p.d⟩ := by
  obtain ⟨l, c, stk, st, d⟩ := p
  obtain ⟨ds, ss, es, out⟩ := d
  have hcat : CATCODE (min b 0x7E) = 0 := by
    rcases isWsByte_cases b hb with h | h | h | h <;> subst h <;> rfl
  have hch : chStep 0 b stk st ⟨ds, ss, es, out⟩ =
      .done (.ok (st, stk, ⟨ds, ss, es, out⟩)) := by
    rcases hs with h | h | h | h | h | h | h | h | ⟨h, hds⟩ <;> subst h <;> try rfl
    have hds' : ds = [] := hds
    subst hds'
    rfl
  simp only [stepByte, hcat]
  rw [parse_ch_done (stk.length + 2) (by omega) 0 b stk st ⟨ds, ss, es, out⟩ _ hch]

theorem runBytes_ws (w : List Nat) (hw : ∀ b ∈ w, isWsByte b = true) (p : PCfg)
    (hs : wsStay p.state p.d) :
    ∃ l c, runBytes w p = .ok ⟨l, c, p.stack, p.state, p.d⟩ := by
  induction w generalizing p with
  | nil => exact ⟨p.line, p.col, rfl⟩
  | cons b rest ih =>
    have hb : isWsByte b = true := hw b (List.mem_cons_self b rest)
    have hstep := stepByte_ws_stay p b hb hs
    obtain ⟨l, c, hrest⟩ := ih (fun x hx => hw x (List.mem_cons_of_mem b hx))
      ⟨if b = 10 then p.line + 1 else p.line, if b = 10 then 0 else p.col + 1,
        p.stack, p.state, p.d⟩ hs
    exact ⟨l, c, by rw [runBytes, hstep]; exact hrest⟩

/-- Processing any byte in the "value done" state first pops the control
stack and re-dispatches the byte in the popped state. -/
theorem stepByte_vd (l c : Nat) (g : Nat) (k : List Nat) (d : DState) (b : Nat) :
    stepByte ⟨l, c, g :: k, 1, d⟩ b = stepByte ⟨l, c, k, g, d⟩ b := by
  have hch : chStep (CATCODE (min b 0x7E)) b (g :: k) 1 d = .cont g k d := by
    rw [chStep_entry_pop (CATCODE (min b 0x7E)) b (g :: k) 1 d 0 rfl (by omega)
      (by omega)]
    rfl
  simp only [stepByte]
  rw [parse_ch_cont ((g :: k).length + 2) (by omega) _ b (g :: k) 1 d g k d hch]
  have hf : (g :: k).length + 2 - 1 = k.length + 2 := by
    simp only [List.length_cons]; omega
  rw [hf]

/-- A whitespace byte arriving at top level with a pending completed
top-level value emits the record separator and discards the value. -/
theorem stepByte_ws0_discard (l c b : Nat) (d : DState) (hb : isWsByte b = true)
    (hne : d.ds ≠ []) :
    stepByte ⟨l, c, [], 0, d⟩ b = .ok ⟨if b = 10 then l + 1 else l,
      if b = 10 then 0 else c + 1, [], 0,
      { d with ds := d.ds.dropLast, out := d.out ++ [10] }⟩ := by
  obtain ⟨ds, ss, es, out⟩ := d
  have hne' : ds ≠ [] := hne
  have hcat : CATCODE (min b 0x7E) = 0 := by
    rcases isWsByte_cases b hb with h | h | h | h <;> subst h <;> rfl
  cases ds with
  | nil => exact absurd rfl hne'
  | cons x xs =>
    have hch : chStep 0 b [] 0 ⟨x :: xs, ss, es, out⟩ =
        .done (.ok (0, [], ⟨(x :: xs).dropLast, ss, es, out ++ [10]⟩)) := rfl
    simp only [stepByte, hcat]
    rw [parse_ch_done (([] : List Nat).length + 2) (by omega) 0 b [] 0
      ⟨x :: xs, ss, es, out⟩ _ hch]

theorem parseFrom_cons (b : Nat) (t : List Nat) (p : PCfg) :
    parseFrom (b :: t) p = match stepByte p b with
      | .ok p1 => parseFrom t p1
      | .err l c e => .err l c e
      | .panicked m => .panicked m := by
  simp only [parseFrom, runBytes]
  cases stepByte p b <;> rfl

/-- Composition: a successful prefix run advances the remaining parse. -/
theorem parseFrom_run (l1 l2 : List Nat) (p p1 : PCfg)
    (h : runBytes l1 p = .ok p1) :
    parseFrom (l1 ++ l2) p = parseFrom l2 p1 := by
  rw [parseFrom_append, h]

/-- Composition: a successful single engine step advances the remaining
parse. -/
theorem parseFrom_step (b : Nat) (t : List Nat) (p p1 : PCfg)
    (h : stepByte p b = .ok p1) :
    parseFrom (b :: t) p = parseFrom t p1 := by
  rw [parseFrom_cons, h]

/-- Computing one engine step from a single `chStep` iteration that
finishes at once. -/
theorem stepByte_chain1 (p : PCfg) (b : Nat) (s1 : Nat) (k1 : List Nat) (d1 : DState)
    (h : chStep (CATCODE (min b 0x7E)) b p.stack p.state p.d = .done (.ok (s1, k1, d1))) :
    stepByte p b = .ok ⟨if b = 10 then p.line + 1 else p.line,
      if b = 10 then 0 else p.col + 1, k1, s1, d1⟩ := by
  simp only [stepByte]
  rw [parse_ch_done (p.stack.length + 2) (by omega) _ _ _ _ _ _ h]

/-- Variant of `stepByte_chain1` for a non-newline byte, with the
position update pre-reduced. -/
theorem stepByte_chain1n (p : PCfg) (b : Nat) (hb : b ≠ 10) (s1 : Nat)
    (k1 : List Nat) (d1 : DState)
    (h : chStep (CATCODE (min b 0x7E)) b p.stack p.state p.d = .done (.ok (s1, k1, d1))) :
    stepByte p b = .ok ⟨p.line, p.col + 1, k1, s1, d1⟩ := by
  rw [stepByte_chain1 p b s1 k1 d1 h, if_neg hb, if_neg hb]

theorem parseEnd_idle (l c : Nat) (ss es out : List Nat) :
    parseEnd ⟨l, c, [], 0, ⟨[], ss, es, out⟩⟩ = .ok out := by
  have hch : chStep 0 0x3F [] 0 (⟨[], ss, es, out⟩ : DState) =
      .done (.ok (0, [], ⟨[], ss, es, out⟩)) := rfl
  have hc : CATCODE 32 = 0 := rfl
  have hp : parse_ch 2 0 0x3F [] 0 ⟨[], ss, es, out⟩ = .ok (0, [], ⟨[], ss, es, out⟩) :=
    parse_ch_done 2 (by omega) _ _ _ _ _ _ hch
  simp [parseEnd, hc, hp]

/-- Finishing a parse from the "value done" state at top level: any
trailing whitespace and the end-of-input byte emit the record separator,
discard the completed top-level value, and accept. -/
theorem parseFrom_vd_top (w : List Nat) (hw : ∀ b ∈ w, isWsByte b = true)
    (l c : Nat) (v : Value) (ss es out : List Nat) :
    parseFrom w ⟨l, c, [0], 1, ⟨[v], ss, es, out⟩⟩ = .ok (out ++ [10]) := by
  cases w with
  | nil =>
    show parseEnd _ = _
    have hch1 : chStep 0 0x3F [0] 1 (⟨[v], ss, es, out⟩ : DState) =
        .cont 0 [] ⟨[v], ss, es, out⟩ := rfl
    have hch2 : chStep 0 0x3F [] 0 (⟨[v], ss, es, out⟩ : DState) =
        .done (.ok (0, [], ⟨[], ss, es, out ++ [10]⟩)) := rfl
    have hc : CATCODE 32 = 0 := rfl
    have hp : parse_ch 3 0 0x3F [0] 1 ⟨[v], ss, es, out⟩
        = .ok (0, [], ⟨[], ss, es, out ++ [10]⟩) := by
      rw [parse_ch_cont 3 (by omega) _ _ _ _ _ _ _ _ hch1]
      exact parse_ch_done (3 - 1) (by omega) _ _ _ _ _ _ hch2
    simp [parseEnd, hc, hp]
  | cons b w' =>
    have hb : isWsByte b = true := hw b (List.mem_cons_self b w')
    rw [parseFrom_cons, stepByte_vd,
      stepByte_ws0_discard l c b ⟨[v], ss, es, out⟩ hb (by simp)]
    show parseFrom w' ⟨_, _, [], 0, ⟨[], ss, es, out ++ [10]⟩⟩ = _
    obtain ⟨l2, c2, hrun⟩ := runBytes_ws w' (fun x hx => hw x (List.mem_cons_of_mem b hx))
      ⟨if b = 10 then l + 1 else l, if b = 10 then 0 else c + 1, [], 0,
        ⟨[], ss, es, out ++ [10]⟩⟩ (Or.inr (Or.inr (Or.inr (Or.inr (Or.inr (Or.inr
          (Or.inr (Or.inr ⟨rfl, rfl⟩))))))))
    simp only [parseFrom] at *
    rw [hrun]
    exact parseEnd_idle l2 c2 ss es (out ++ [10])

/-- C2 (amended): for every valid JSON input whose root is `\x7b\x7d`,
`[]`, or `[\x7b\x7d]` — any amount of whitespace around and inside the
tokens — parse returns Ok, and the output is not empty but exactly one
byte: the record-separator newline written when the completed top-level
value is discarded at end of input.  No `path = value` line is written. -/
theorem C2_empty_roots (w0 w1 w2 w3 w4 : List Nat)
    (h0 : ∀ b ∈ w0, isWsByte b = true) (h1 : ∀ b ∈ w1, isWsByte b = true)
    (h2 : ∀ b ∈ w2, isWsByte b = true) (h3 : ∀ b ∈ w3, isWsByte b = true)
    (h4 : ∀ b ∈ w4, isWsByte b = true) :
    parse (w0 ++ (123 :: (w1 ++ (125 :: w2)))) = .ok [10] ∧
    parse (w0 ++ (91 :: (w1 ++ (93 :: w2)))) = .ok [10] ∧
    parse (w0 ++ (91 :: (w1 ++ (123 :: (w2 ++ (125 :: (w3 ++ (93 :: w4)))))))) =
      .ok [10] := by
  have hws0 : wsStay 0 (⟨[], [], [], []⟩ : DState) :=
    Or.inr (Or.inr (Or.inr (Or.inr (Or.inr (Or.inr (Or.inr (Or.inr ⟨rfl, rfl⟩)))))))
  obtain ⟨l0, c0, hr0⟩ := runBytes_ws w0 h0 initCfg hws0
  simp only [initCfg] at hr0
  refine ⟨?_, ?_, ?_⟩
  · have hc1 : chStep (CATCODE (min 123 0x7E)) 123 [] 0 ⟨[], [], [], []⟩ =
        .done (.ok (2, [0], ⟨[.Object true], [], [], []⟩)) := by decide
    have s1 := stepByte_chain1n ⟨l0, c0, [], 0, ⟨[], [], [], []⟩⟩ 123 (by decide)
      2 [0] ⟨[.Object true], [], [], []⟩ hc1
    obtain ⟨l1, c1, hr1⟩ := runBytes_ws w1 h1
      ⟨l0, c0 + 1, [0], 2, ⟨[.Object true], [], [], []⟩⟩ (Or.inl rfl)
    have hc2 : chStep (CATCODE (min 125 0x7E)) 125 [0] 2 ⟨[.Object true], [], [], []⟩ =
        .done (.ok (1, [0], ⟨[.Object true], [], [], []⟩)) := by decide
    have s2 := stepByte_chain1n ⟨l1, c1, [0], 2, ⟨[.Object true], [], [], []⟩⟩ 125
      (by decide) 1 [0] ⟨[.Object true], [], [], []⟩ hc2
    show parseFrom _ initCfg = _
    simp only [initCfg, parseFrom_append, parseFrom_cons, hr0, s1, hr1, s2]
    simpa using parseFrom_vd_top w2 h2 l1 (c1 + 1) (.Object true) [] [] []
  · have hc1 : chStep (CATCODE (min 91 0x7E)) 91 [] 0 ⟨[], [], [], []⟩ =
        .done (.ok (7, [0], ⟨[.List 0], [], [], []⟩)) := by decide
    have s1 := stepByte_chain1n ⟨l0, c0, [], 0, ⟨[], [], [], []⟩⟩ 91 (by decide)
      7 [0] ⟨[.List 0], [], [], []⟩ hc1
    obtain ⟨l1, c1, hr1⟩ := runBytes_ws w1 h1
      ⟨l0, c0 + 1, [0], 7, ⟨[.List 0], [], [], []⟩⟩
      (by right; right; right; right; right; left; rfl)
    have hc2 : chStep (CATCODE (min 93 0x7E)) 93 [0] 7 ⟨[.List 0], [], [], []⟩ =
        .done (.ok (1, [0], ⟨[.List 0], [], [], []⟩)) := by decide
    have s2 := stepByte_chain1n ⟨l1, c1, [0], 7, ⟨[.List 0], [], [], []⟩⟩ 93
      (by decide) 1 [0] ⟨[.List 0], [], [], []⟩ hc2
    show parseFrom _ initCfg = _
    simp only [initCfg, parseFrom_append, parseFrom_cons, hr0, s1, hr1, s2]
    simpa using parseFrom_vd_top w2 h2 l1 (c1 + 1) (.List 0) [] [] []
  · have s1 : stepByte ⟨l0, c0, [], 0, ⟨[], [], [], []⟩⟩ 91 =
        .ok ⟨l0, c0 + 1, [0], 7, ⟨[.List 0], [], [], []⟩⟩ :=
      stepByte_chain1n ⟨l0, c0, [], 0, ⟨[], [], [], []⟩⟩ 91 (by decide)
        7 [0] ⟨[.List 0], [], [], []⟩
        (by decide : chStep (CATCODE (min 91 0x7E)) 91 [] 0 ⟨[], [], [], []⟩ =
          .done (.ok (7, [0], ⟨[.List 0], [], [], []⟩)))
    obtain ⟨l1, c1, hr1⟩ := runBytes_ws w1 h1
      ⟨l0, c0 + 1, [0], 7, ⟨[.List 0], [], [], []⟩⟩
      (by right; right; right; right; right; left; rfl)
    have hr1' : runBytes w1 ⟨l0, c0 + 1, [0], 7, ⟨[.List 0], [], [], []⟩⟩ =
        .ok ⟨l1, c1, [0], 7, ⟨[.List 0], [], [], []⟩⟩ := hr1
    have s2 : stepByte ⟨l1, c1, [0], 7, ⟨[.List 0], [], [], []⟩⟩ 123 =
        .ok ⟨l1, c1 + 1, [9, 0], 2, ⟨[.List 0, .Object true], [], [], []⟩⟩ :=
      stepByte_chain1n ⟨l1, c1, [0], 7, ⟨[.List 0], [], [], []⟩⟩ 123 (by decide)
        2 [9, 0] ⟨[.List 0, .Object true], [], [], []⟩
        (by decide : chStep (CATCODE (min 123 0x7E)) 123 [0] 7
            ⟨[.List 0], [], [], []⟩ =
          .done (.ok (2, [9, 0], ⟨[.List 0, .Object true], [], [], []⟩)))
    obtain ⟨l2, c2, hr2⟩ := runBytes_ws w2 h2
      ⟨l1, c1 + 1, [9, 0], 2, ⟨[.List 0, .Object true], [], [], []⟩⟩ (Or.inl rfl)
    have hr2' : runBytes w2
        ⟨l1, c1 + 1, [9, 0], 2, ⟨[.List 0, .Object true], [], [], []⟩⟩ =
        .ok ⟨l2, c2, [9, 0], 2, ⟨[.List 0, .Object true], [], [], []⟩⟩ := hr2
    have s3 : stepByte ⟨l2, c2, [9, 0], 2, ⟨[.List 0, .Object true], [], [], []⟩⟩ 125 =
        .ok ⟨l2, c2 + 1, [9, 0], 1, ⟨[.List 0, .Object true], [], [], []⟩⟩ :=
      stepByte_chain1n ⟨l2, c2, [9, 0], 2, ⟨[.List 0, .Object true], [], [], []⟩⟩ 125
        (by decide) 1 [9, 0] ⟨[.List 0, .Object true], [], [], []⟩
        (by decide : chStep (CATCODE (min 125 0x7E)) 125 [9, 0] 2
            ⟨[.List 0, .Object true], [], [], []⟩ =
          .done (.ok (1, [9, 0], ⟨[.List 0, .Object true], [], [], []⟩)))
    show parseFrom (w0 ++ (91 :: (w1 ++ (123 :: (w2 ++ (125 :: (w3 ++ (93 :: w4))))))))
      ⟨1, 0, [], 0, ⟨[], [], [], []⟩⟩ = _
    rw [parseFrom_run w0 _ _ _ hr0, parseFrom_step 91 _ _ _ s1,
      parseFrom_run w1 _ _ _ hr1', parseFrom_step 123 _ _ _ s2,
      parseFrom_run w2 _ _ _ hr2', parseFrom_step 125 _ _ _ s3]
    cases w3 with
    | nil =>
      have s4 : stepByte ⟨l2, c2 + 1, [9, 0], 1,
          ⟨[.List 0, .Object true], [], [], []⟩⟩ 93 =
          .ok ⟨l2, c2 + 1 + 1, [0], 1, ⟨[.List 1], [], [], []⟩⟩ :=
        (stepByte_vd l2 (c2 + 1) 9 [0] ⟨[.List 0, .Object true], [], [], []⟩ 93).trans
          (stepByte_chain1n ⟨l2, c2 + 1, [0], 9,
              ⟨[.List 0, .Object true], [], [], []⟩⟩ 93
            (by decide) 1 [0] ⟨[.List 1], [], [], []⟩
            (by decide : chStep (CATCODE (min 93 0x7E)) 93 [0] 9
                ⟨[.List 0, .Object true], [], [], []⟩ =
              .done (.ok (1, [0], ⟨[.List 1], [], [], []⟩))))
      rw [List.nil_append, parseFrom_step 93 _ _ _ s4]
      exact parseFrom_vd_top w4 h4 l2 (c2 + 1 + 1) (.List 1) [] [] []
    | cons b w3' =>
      have hb : isWsByte b = true := h3 b (List.mem_cons_self b w3')
      have s4 : stepByte ⟨l2, c2 + 1, [9, 0], 1,
          ⟨[.List 0, .Object true], [], [], []⟩⟩ b =
          .ok ⟨if b = 10 then l2 + 1 else l2, if b = 10 then 0 else c2 + 1 + 1,
            [0], 9, ⟨[.List 0, .Object true], [], [], []⟩⟩ :=
        (stepByte_vd l2 (c2 + 1) 9 [0] ⟨[.List 0, .Object true], [], [], []⟩ b).trans
          (stepByte_ws_stay ⟨l2, c2 + 1, [0], 9,
              ⟨[.List 0, .Object true], [], [], []⟩⟩ b hb
            (by right; right; right; right; right; right; right; left; rfl))
      obtain ⟨l3, c3, hr3⟩ := runBytes_ws w3'
        (fun x hx => h3 x (List.mem_cons_of_mem b hx))
        ⟨if b = 10 then l2 + 1 else l2, if b = 10 then 0 else c2 + 1 + 1,
          [0], 9, ⟨[.List 0, .Object true], [], [], []⟩⟩
        (by right; right; right; right; right; right; right; left; rfl)
      have hr3' : runBytes w3' ⟨if b = 10 then l2 + 1 else l2,
          if b = 10 then 0 else c2 + 1 + 1, [0], 9,
          ⟨[.List 0, .Object true], [], [], []⟩⟩ =
          .ok ⟨l3, c3, [0], 9, ⟨[.List 0, .Object true], [], [], []⟩⟩ := hr3
      have s5 : stepByte ⟨l3, c3, [0], 9, ⟨[.List 0, .Object true], [], [], []⟩⟩ 93 =
          .ok ⟨l3, c3 + 1, [0], 1, ⟨[.List 1], [], [], []⟩⟩ :=
        stepByte_chain1n ⟨l3, c3, [0], 9, ⟨[.List 0, .Object true], [], [], []⟩⟩ 93
          (by decide) 1 [0] ⟨[.List 1], [], [], []⟩
          (by decide : chStep (CATCODE (min 93 0x7E)) 93 [0] 9
              ⟨[.List 0, .Object true], [], [], []⟩ =
            .done (.ok (1, [0], ⟨[.List 1], [], [], []⟩)))
      rw [List.cons_append, parseFrom_step b _ _ _ s4, parseFrom_run w3' _ _ _ hr3',
        parseFrom_step 93 _ _ _ s5]
      exact parseFrom_vd_top w4 h4 l3 (c3 + 1) (.List 1) [] [] []

theorem C2_empty_roots_witness :
    parse ([32] ++ (123 :: ([] ++ (125 :: [32])))) = .ok [10] ∧
    parse ([] ++ (91 :: ([10] ++ (93 :: [])))) = .ok [10] ∧
    parse ([] ++ (91 :: ([] ++ (123 :: ([] ++ (125 :: ([32] ++ (93 :: [])))))))) =
      .ok [10] := by
  have h := C2_empty_roots [32] [] [32] [] [] (by decide) (by decide) (by decide)
    (by decide) (by decide)
  have h2 := C2_empty_roots [] [10] [] [] [] (by decide) (by decide) (by decide)
    (by decide) (by decide)
  have h3 := C2_empty_roots [] [] [] [32] [] (by decide) (by decide) (by decide)
    (by decide) (by decide)
  exact ⟨h.1, h2.2.1, h3.2.2⟩

/-! ### The reachable-configuration invariant (for panic-freedom) -/

/-- The slice of the value stack owned by one control-stack entry (the
goto pushed when the corresponding nested construct was entered). -/
def SegOK : Nat → List Value → Prop
  | 0, seg => seg = []
  | 4, seg => ∃ b, seg = [.Object b]
  | 6, seg => ∃ b kk, seg = [.Object b, .Term (.Str kk)]
  | 9, seg => ∃ n, seg = [.List n]
  | 10, seg => seg = []
  | _, _ => False

/-- The part of the value stack below the construct currently being
parsed is the concatenation, bottom to top, of the slices owned by the
control-stack entries. -/
def Below : List Nat → List Value → Prop
  | [], ds => ds = []
  | g :: k, ds => ∃ pre seg, ds = pre ++ seg ∧ Below k pre ∧ SegOK g seg

/-- Control stacks reachable while parsing a value: member-value and
list-element gotos over the top-level goto. -/
def KMid : List Nat → Prop
  | [] => False
  | g :: k => (g = 0 ∧ k = []) ∨ ((g = 6 ∨ g = 9) ∧ KMid k)

/-- Control stacks reachable inside a string: a value string sits
directly on a value context, a key string adds the "after key" goto. -/
def KStr (k : List Nat) : Prop := KMid k ∨ ∃ k', k = 4 :: k' ∧ KMid k'

/-- The reachable-configuration invariant: for each state, the shape of
the value stack (split into the `Below` part and the slice owned by the
construct in progress) and the shape of the control stack. -/
def ReachInv : Nat → List Nat → List Value → Prop
  | 0, k, ds => k = [] ∧ (ds = [] ∨ ∃ v, ds = [v])
  | 1, k, ds => ∃ below v, ds = below ++ [v] ∧ Below k below ∧ KStr k ∧
      (∀ k', k = 4 :: k' → ∃ kk, v = .Term (.Str kk))
  | 2, k, ds => ∃ below b, ds = below ++ [.Object b] ∧ Below k below ∧ KMid k
  | 3, k, ds => ∃ below b, ds = below ++ [.Object b] ∧ Below k below ∧ KMid k
  | 4, k, ds => ∃ below b kk,
      ds = below ++ [.Object b, .Term (.Str kk)] ∧ Below k below ∧ KMid k
  | 5, k, ds => ∃ below b kk,
      ds = below ++ [.Object b, .Term (.Str kk)] ∧ Below k below ∧ KMid k
  | 6, k, ds => ∃ below b kk v,
      ds = below ++ [.Object b, .Term (.Str kk), v] ∧ Below k below ∧ KMid k
  | 7, k, ds => ∃ below n, ds = below ++ [.List n] ∧ Below k below ∧ KMid k
  | 8, k, ds => ∃ below n, ds = below ++ [.List n] ∧ Below k below ∧ KMid k
  | 9, k, ds => ∃ below n v, ds = below ++ [.List n, v] ∧ Below k below ∧ KMid k
  | 10, k, ds => Below k ds ∧ KStr k
  | 11, k, ds => Below k ds ∧ KStr k
  | 12, k, ds => ∃ k', k = 10 :: k' ∧ Below k' ds ∧ KStr k'
  | 13, k, ds => ∃ k', k = 10 :: k' ∧ Below k' ds ∧ KStr k'
  | 14, k, ds => ∃ k', k = 10 :: k' ∧ Below k' ds ∧ KStr k'
  | 15, k, ds => ∃ k', k = 10 :: k' ∧ Below k' ds ∧ KStr k'
  | 16, k, ds => ∃ k', k = 10 :: k' ∧ Below k' ds ∧ KStr k'
  | 17, k, ds => Below k ds ∧ KMid k
  | 18, k, ds => Below k ds ∧ KMid k
  | 19, k, ds => Below k ds ∧ KMid k
  | 20, k, ds => Below k ds ∧ KMid k
  | 21, k, ds => Below k ds ∧ KMid k
  | 22, k, ds => Below k ds ∧ KMid k
  | 23, k, ds => Below k ds ∧ KMid k
  | 24, k, ds => Below k ds ∧ KMid k
  | 25, k, ds => Below k ds ∧ KMid k
  | 26, k, ds => Below k ds ∧ KMid k
  | 27, k, ds => Below k ds ∧ KMid k
  | 28, k, ds => Below k ds ∧ KMid k
  | 29, k, ds => Below k ds ∧ KMid k
  | 30, k, ds => Below k ds ∧ KMid k
  | 31, k, ds => Below k ds ∧ KMid k
  | 32, k, ds => Below k ds ∧ KMid k
  | 33, k, ds => Below k ds ∧ KMid k
  | 34, k, ds => Below k ds ∧ KMid k
  | _, _, _ => False

theorem SegOK_pathEntry (g : Nat) (seg : List Value) (h : SegOK g seg) :
    seg.all pathEntry = true := by
  match g, h with
  | 0, h => rw [h]; rfl
  | 4, ⟨b, h⟩ => rw [h]; rfl
  | 6, ⟨b, kk, h⟩ => rw [h]; rfl
  | 9, ⟨n, h⟩ => rw [h]; rfl
  | 10, h => rw [h]; rfl

theorem Below_pathEntry (k : List Nat) (below : List Value) (h : Below k below) :
    below.all pathEntry = true := by
  induction k generalizing below with
  | nil => rw [h]; rfl
  | cons g k' ih =>
    obtain ⟨pre, seg, hsplit, hpre, hseg⟩ := h
    rw [hsplit]
    simp [List.all_append, ih pre hpre, SegOK_pathEntry g seg hseg]

theorem KMid_head (g : Nat) (k : List Nat) (h : KMid (g :: k)) :
    g = 0 ∨ g = 6 ∨ g = 9 := by
  rcases h with ⟨h0, _⟩ | ⟨h69, _⟩
  · exact Or.inl h0
  · rcases h69 with h | h
    · exact Or.inr (Or.inl h)
    · exact Or.inr (Or.inr h)

theorem KMid_ne_nil (k : List Nat) (h : KMid k) : k ≠ [] := by
  cases k with
  | nil => simp [KMid] at h
  | cons g k' => simp

theorem KStr_ne_nil (k : List Nat) (h : KStr k) : k ≠ [] := by
  rcases h with h | ⟨k', hk, _⟩
  · exact KMid_ne_nil k h
  · rw [hk]; simp


/-- A transition-loop outcome that does not panic: either an error or a
successful step into another invariant-satisfying configuration. -/
def StepOK (r : PR (Nat × List Nat × DState)) : Prop :=
  (∃ e, r = .err e) ∨ ∃ s2 k2 d2, r = .ok (s2, k2, d2) ∧ ReachInv s2 k2 d2.ds

theorem stepOK_done_ok (fuel : Nat) (hf : fuel ≠ 0) (cat ch : Nat) (k : List Nat)
    (s : Nat) (d : DState) (s2 : Nat) (k2 : List Nat) (d2 : DState)
    (hstep : chStep cat ch k s d = .done (.ok (s2, k2, d2)))
    (hinv : ReachInv s2 k2 d2.ds) : StepOK (parse_ch fuel cat ch k s d) :=
  Or.inr ⟨s2, k2, d2, parse_ch_done fuel hf cat ch k s d _ hstep, hinv⟩

theorem stepOK_done_err (fuel : Nat) (hf : fuel ≠ 0) (cat ch : Nat) (k : List Nat)
    (s : Nat) (d : DState) (e : JsonError)
    (hstep : chStep cat ch k s d = .done (.err e)) :
    StepOK (parse_ch fuel cat ch k s d) :=
  Or.inl ⟨e, parse_ch_done fuel hf cat ch k s d _ hstep⟩

/-- The scratch-buffer actions (string byte, hex digit, simple escape,
`\u` resolution) either fail or leave the value stack untouched. -/
theorem act_scratch_ok (a ch : Nat) (st : DState)
    (ha : a = 0xB ∨ a = 0xC ∨ a = 0xD ∨ a = 0xE) :
    (∃ e, do_action a ch st = .err e) ∨
    (∃ ss1 es1, do_action a ch st = .ok { st with ss := ss1, es := es1 }) := by
  rcases ha with rfl | rfl | rfl | rfl
  · by_cases h : st.es = []
    · right; simp only [do_action, if_pos h]; exact ⟨_, _, rfl⟩
    · left; simp only [do_action, if_neg h]; exact ⟨_, rfl⟩
  · cases h : hexVal ch with
    | none => left; simp only [do_action, h]; exact ⟨_, rfl⟩
    | some v => right; simp only [do_action, h]; exact ⟨_, _, rfl⟩
  · simp only [do_action]
    split_ifs <;> first
      | exact Or.inr ⟨_, _, rfl⟩
      | exact Or.inl ⟨_, rfl⟩
  · by_cases h8 : st.es.length = 8
    · cases hhi : parseHex (st.es.take 4) with
      | none => left; simp only [do_action, if_pos h8, hhi]; exact ⟨_, rfl⟩
      | some high =>
        by_cases hrh : 0xD800 ≤ high ∧ high ≤ 0xDBFF
        · cases hlo : parseHex (st.es.drop 4) with
          | none =>
            left; simp only [do_action, if_pos h8, hhi, if_pos hrh, hlo]; exact ⟨_, rfl⟩
          | some low =>
            by_cases hrl : 0xDC00 ≤ low ∧ low ≤ 0xDFFF
            · by_cases hsc :
                isScalar (0x10000 + (high - 0xD800) * 0x400 + (low - 0xDC00)) = true
              · right
                simp only [do_action, if_pos h8, hhi, if_pos hrh, hlo, if_pos hrl,
                  finishCodepoint, if_pos hsc]
                exact ⟨_, _, rfl⟩
              · left
                simp only [do_action, if_pos h8, hhi, if_pos hrh, hlo, if_pos hrl,
                  finishCodepoint, if_neg hsc]
                exact ⟨_, rfl⟩
            · left
              simp only [do_action, if_pos h8, hhi, if_pos hrh, hlo, if_neg hrl]
              exact ⟨_, rfl⟩
        · left; simp only [do_action, if_pos h8, hhi, if_neg hrh]; exact ⟨_, rfl⟩
    · by_cases h4 : st.es.length = 4
      · cases htb : parseHex st.es with
        | none =>
          left; simp only [do_action, if_neg h8, if_pos h4, htb]; exact ⟨_, rfl⟩
        | some tb =>
          by_cases hrt : 0xD800 ≤ tb ∧ tb < 0xDBFF
          · right; simp only [do_action, if_neg h8, if_pos h4, htb, if_pos hrt]
            exact ⟨st.ss, st.es, rfl⟩
          · by_cases hsc : isScalar tb = true
            · right
              simp only [do_action, if_neg h8, if_pos h4, htb, if_neg hrt,
                finishCodepoint, if_pos hsc]
              exact ⟨_, _, rfl⟩
            · left
              simp only [do_action, if_neg h8, if_pos h4, htb, if_neg hrt,
                finishCodepoint, if_neg hsc]
              exact ⟨_, rfl⟩
      · left; simp only [do_action, if_neg h8, if_neg h4]; exact ⟨_, rfl⟩

/-- The pop-and-append action succeeds on any stack ending in a list
marker and a value, provided the prefix below is printable. -/
theorem act3_ok (ch : Nat) (st : DState) (below : List Value) (n : Nat) (v : Value)
    (hds : st.ds = below ++ [.List n, v]) (hpe : below.all pathEntry = true) :
    ∃ out1, do_action 0x3 ch st =
      .ok { st with ds := below ++ [.List (n + 1)], out := out1 } := by
  cases v with
  | Term t =>
    have hpe2 : (below ++ [Value.List n]).all pathEntry = true := by
      simp [List.all_append, hpe, pathEntry]
    obtain ⟨p, hp⟩ := print_path_ok (below ++ [Value.List n]) hpe2
    exact ⟨_, act3_term ch st below n t p hds hp⟩
  | Object b => exact ⟨st.out, act3_container ch st below n (.Object b) rfl hds⟩
  | List m => exact ⟨st.out, act3_container ch st below n (.List m) rfl hds⟩

/-- The pop-pop-and-bind action succeeds on any stack ending in an object
marker, a string key and a value, provided the prefix below is printable. -/
theorem act4_ok (ch : Nat) (st : DState) (below : List Value) (b : Bool)
    (kk : List Nat) (v : Value)
    (hds : st.ds = below ++ [.Object b, .Term (.Str kk), v])
    (hpe : below.all pathEntry = true) :
    ∃ out1, do_action 0x4 ch st =
      .ok { st with ds := below ++ [.Object false], out := out1 } := by
  have hpe2 : (below ++ [Value.Object b, Value.Term (.Str kk)]).all pathEntry = true := by
    simp [List.all_append, hpe, pathEntry]
  obtain ⟨p, hp⟩ := print_path_ok (below ++ [Value.Object b, Value.Term (.Str kk)]) hpe2
  cases v with
  | Term t => exact ⟨_, act4_term ch st below b kk t p hds hp⟩
  | Object ob =>
    cases ob with
    | true => exact ⟨_, act4_emptyObject ch st below b kk p hds hp⟩
    | false => exact ⟨st.out, act4_nonempty ch st below b kk _ (Or.inr rfl) hds⟩
  | List m =>
    cases m with
    | zero => exact ⟨_, act4_emptyList ch st below b kk p hds hp⟩
    | succ m1 => exact ⟨st.out, act4_nonempty ch st below b kk _ (Or.inl ⟨m1, rfl⟩) hds⟩

theorem valueStartEntry_syntax (c : Nat) (h1 : c ≠ 1) (h3 : c ≠ 3) (h7 : c ≠ 7)
    (h10 : c ≠ 10) (h12 : c ≠ 12) (h13 : c ≠ 13) (h16 : c ≠ 16) (h22 : c ≠ 22)
    (h19 : c ≠ 19) : valueStartEntry c = tSyntax := by
  simp [valueStartEntry, h1, h3, h7, h10, h12, h13, h16, h22, h19]

theorem KMid_key_vacuous (k : List Nat) (h : KMid k) (v : Value) :
    ∀ k2, k = 4 :: k2 → ∃ kk, v = .Term (.Str kk) := by
  intro k2 hk
  subst hk
  rcases KMid_head 4 k2 h with h4 | h4 | h4 <;> omega

theorem dispatch0 (fuel : Nat) (hf : 1 ≤ fuel) (cat ch : Nat) (d : DState)
    (hds : d.ds = [] ∨ ∃ v, d.ds = [v]) :
    StepOK (parse_ch fuel cat ch [] 0 d) := by
  have hf0 : fuel ≠ 0 := by omega
  have hsep : (sepAdj 0 d).ds = [] := by
    rcases hds with h | ⟨v, h⟩
    · simp [sepAdj, h]
    · simp [sepAdj, h]
  by_cases h0 : cat = 0
  · subst h0
    refine stepOK_done_ok fuel hf0 0 ch [] 0 d 0 [] (sepAdj 0 d) ?_ ?_
    · rw [chStep_entry_nopush 0 ch [] 0 d 0 0 rfl (by omega) (by omega)]; rfl
    · exact ⟨rfl, Or.inl hsep⟩
  by_cases h1 : cat = 1
  · subst h1
    refine stepOK_done_ok fuel hf0 1 ch [] 0 d 2 [0]
      { sepAdj 0 d with ds := (sepAdj 0 d).ds ++ [.Object true] } ?_ ?_
    · rw [chStep_entry_push 1 ch [] 0 d 0x2 2 rfl (by omega) (by omega)]; rfl
    · refine ⟨[], true, ?_, ⟨[], [], rfl, rfl, rfl⟩, Or.inl ⟨rfl, rfl⟩⟩
      show (sepAdj 0 d).ds ++ [Value.Object true] = [] ++ [Value.Object true]
      rw [hsep]
  by_cases h3 : cat = 3
  · subst h3
    refine stepOK_done_ok fuel hf0 3 ch [] 0 d 7 [0]
      { sepAdj 0 d with ds := (sepAdj 0 d).ds ++ [.List 0] } ?_ ?_
    · rw [chStep_entry_push 3 ch [] 0 d 0x1 7 rfl (by omega) (by omega)]; rfl
    · refine ⟨[], 0, ?_, ⟨[], [], rfl, rfl, rfl⟩, Or.inl ⟨rfl, rfl⟩⟩
      show (sepAdj 0 d).ds ++ [Value.List 0] = [] ++ [Value.List 0]
      rw [hsep]
  by_cases h7 : cat = 7
  · subst h7
    refine stepOK_done_ok fuel hf0 7 ch [] 0 d 10 [0] (sepAdj 0 d) ?_ ?_
    · rw [chStep_entry_push 7 ch [] 0 d 0x0 10 rfl (by omega) (by omega)]; rfl
    · exact ⟨⟨[], [], hsep, rfl, rfl⟩, Or.inl (Or.inl ⟨rfl, rfl⟩)⟩
  by_cases h10 : cat = 10
  · subst h10
    rcases act_scratch_ok 0xB ch (sepAdj 0 d) (Or.inl rfl) with ⟨e, he⟩ | ⟨ss1, es1, hok⟩
    · refine stepOK_done_err fuel hf0 10 ch [] 0 d e ?_
      rw [chStep_entry_push 10 ch [] 0 d 0xB 17 rfl (by omega) (by omega)]
      simp only [he]; rfl
    · refine stepOK_done_ok fuel hf0 10 ch [] 0 d 17 [0]
        { sepAdj 0 d with ss := ss1, es := es1 } ?_ ?_
      · rw [chStep_entry_push 10 ch [] 0 d 0xB 17 rfl (by omega) (by omega)]
        simp only [hok]; rfl
      · exact ⟨⟨[], [], hsep, rfl, rfl⟩, Or.inl ⟨rfl, rfl⟩⟩
  by_cases h12 : cat = 12
  · subst h12
    rcases act_scratch_ok 0xB ch (sepAdj 0 d) (Or.inl rfl) with ⟨e, he⟩ | ⟨ss1, es1, hok⟩
    · refine stepOK_done_err fuel hf0 12 ch [] 0 d e ?_
      rw [chStep_entry_push 12 ch [] 0 d 0xB 18 rfl (by omega) (by omega)]
      simp only [he]; rfl
    · refine stepOK_done_ok fuel hf0 12 ch [] 0 d 18 [0]
        { sepAdj 0 d with ss := ss1, es := es1 } ?_ ?_
      · rw [chStep_entry_push 12 ch [] 0 d 0xB 18 rfl (by omega) (by omega)]
        simp only [hok]; rfl
      · exact ⟨⟨[], [], hsep, rfl, rfl⟩, Or.inl ⟨rfl, rfl⟩⟩
  by_cases h13 : cat = 13
  · subst h13
    rcases act_scratch_ok 0xB ch (sepAdj 0 d) (Or.inl rfl) with ⟨e, he⟩ | ⟨ss1, es1, hok⟩
    · refine stepOK_done_err fuel hf0 13 ch [] 0 d e ?_
      rw [chStep_entry_push 13 ch [] 0 d 0xB 19 rfl (by omega) (by omega)]
      simp only [he]; rfl
    · refine stepOK_done_ok fuel hf0 13 ch [] 0 d 19 [0]
        { sepAdj 0 d with ss := ss1, es := es1 } ?_ ?_
      · rw [chStep_entry_push 13 ch [] 0 d 0xB 19 rfl (by omega) (by omega)]
        simp only [hok]; rfl
      · exact ⟨⟨[], [], hsep, rfl, rfl⟩, Or.inl ⟨rfl, rfl⟩⟩
  by_cases h16 : cat = 16
  · subst h16
    refine stepOK_done_ok fuel hf0 16 ch [] 0 d 25 [0] (sepAdj 0 d) ?_ ?_
    · rw [chStep_entry_push 16 ch [] 0 d 0x0 25 rfl (by omega) (by omega)]; rfl
    · exact ⟨⟨[], [], hsep, rfl, rfl⟩, Or.inl ⟨rfl, rfl⟩⟩
  by_cases h22 : cat = 22
  · subst h22
    refine stepOK_done_ok fuel hf0 22 ch [] 0 d 28 [0] (sepAdj 0 d) ?_ ?_
    · rw [chStep_entry_push 22 ch [] 0 d 0x0 28 rfl (by omega) (by omega)]; rfl
    · exact ⟨⟨[], [], hsep, rfl, rfl⟩, Or.inl ⟨rfl, rfl⟩⟩
  by_cases h19 : cat = 19
  · subst h19
    refine stepOK_done_ok fuel hf0 19 ch [] 0 d 32 [0] (sepAdj 0 d) ?_ ?_
    · rw [chStep_entry_push 19 ch [] 0 d 0x0 32 rfl (by omega) (by omega)]; rfl
    · exact ⟨⟨[], [], hsep, rfl, rfl⟩, Or.inl ⟨rfl, rfl⟩⟩
  · have hS : STATES 0 cat = tSyntax := by
      simp only [STATES]
      rw [if_neg h0]
      exact valueStartEntry_syntax cat h1 h3 h7 h10 h12 h13 h16 h22 h19
    exact stepOK_done_err fuel hf0 cat ch [] 0 d .Syntax (chStep_synErr cat ch [] 0 d hS)

theorem dispatch4 (fuel : Nat) (hf : 1 ≤ fuel) (cat ch : Nat) (k : List Nat) (d : DState)
    (below : List Value) (b : Bool) (kk : List Nat)
    (hds : d.ds = below ++ [.Object b, .Term (.Str kk)])
    (hB : Below k below) (hK : KMid k) :
    StepOK (parse_ch fuel cat ch k 4 d) := by
  have hf0 : fuel ≠ 0 := by omega
  by_cases h0 : cat = 0
  · subst h0
    refine stepOK_done_ok fuel hf0 0 ch k 4 d 4 k (sepAdj 4 d) ?_ ?_
    · rw [chStep_entry_nopush 0 ch k 4 d 0 4 rfl (by omega) (by omega)]; rfl
    · exact ⟨below, b, kk, hds, hB, hK⟩
  by_cases h5 : cat = 5
  · subst h5
    refine stepOK_done_ok fuel hf0 5 ch k 4 d 5 k (sepAdj 4 d) ?_ ?_
    · rw [chStep_entry_nopush 5 ch k 4 d 0 5 rfl (by omega) (by omega)]; rfl
    · exact ⟨below, b, kk, hds, hB, hK⟩
  · have hS : STATES 4 cat = tSyntax := by simp [STATES, h0, h5]
    exact stepOK_done_err fuel hf0 cat ch k 4 d .Syntax (chStep_synErr cat ch k 4 d hS)

theorem dispatch6 (fuel : Nat) (hf : 1 ≤ fuel) (cat ch : Nat) (k : List Nat) (d : DState)
    (below : List Value) (b : Bool) (kk : List Nat) (v : Value)
    (hds : d.ds = below ++ [.Object b, .Term (.Str kk), v])
    (hB : Below k below) (hK : KMid k) :
    StepOK (parse_ch fuel cat ch k 6 d) := by
  have hf0 : fuel ≠ 0 := by omega
  by_cases h0 : cat = 0
  · subst h0
    refine stepOK_done_ok fuel hf0 0 ch k 6 d 6 k (sepAdj 6 d) ?_ ?_
    · rw [chStep_entry_nopush 0 ch k 6 d 0 6 rfl (by omega) (by omega)]; rfl
    · exact ⟨below, b, kk, v, hds, hB, hK⟩
  by_cases h6 : cat = 6
  · subst h6
    obtain ⟨out1, hact⟩ := act4_ok ch d below b kk v hds (Below_pathEntry k below hB)
    refine stepOK_done_ok fuel hf0 6 ch k 6 d 3 k
      { d with ds := below ++ [.Object false], out := out1 } ?_ ?_
    · rw [chStep_entry_nopush 6 ch k 6 d 0x4 3 rfl (by omega) (by omega)]
      rw [sepAdj_ne 6 d (by omega)]
      simp only [hact]; rfl
    · exact ⟨below, false, rfl, hB, hK⟩
  by_cases h2 : cat = 2
  · subst h2
    obtain ⟨out1, hact⟩ := act4_ok ch d below b kk v hds (Below_pathEntry k below hB)
    refine stepOK_done_ok fuel hf0 2 ch k 6 d 1 k
      { d with ds := below ++ [.Object false], out := out1 } ?_ ?_
    · rw [chStep_entry_nopush 2 ch k 6 d 0x4 1 rfl (by omega) (by omega)]
      rw [sepAdj_ne 6 d (by omega)]
      simp only [hact]; rfl
    · exact ⟨below, .Object false, rfl, hB, Or.inl hK, KMid_key_vacuous k hK _⟩
  · have hS : STATES 6 cat = tSyntax := by simp [STATES, h0, h6, h2]
    exact stepOK_done_err fuel hf0 cat ch k 6 d .Syntax (chStep_synErr cat ch k 6 d hS)

theorem dispatch9 (fuel : Nat) (hf : 1 ≤ fuel) (cat ch : Nat) (k : List Nat) (d : DState)
    (below : List Value) (n : Nat) (v : Value)
    (hds : d.ds = below ++ [.List n, v])
    (hB : Below k below) (hK : KMid k) :
    StepOK (parse_ch fuel cat ch k 9 d) := by
  have hf0 : fuel ≠ 0 := by omega
  by_cases h0 : cat = 0
  · subst h0
    refine stepOK_done_ok fuel hf0 0 ch k 9 d 9 k (sepAdj 9 d) ?_ ?_
    · rw [chStep_entry_nopush 0 ch k 9 d 0 9 rfl (by omega) (by omega)]; rfl
    · exact ⟨below, n, v, hds, hB, hK⟩
  by_cases h6 : cat = 6
  · subst h6
    obtain ⟨out1, hact⟩ := act3_ok ch d below n v hds (Below_pathEntry k below hB)
    refine stepOK_done_ok fuel hf0 6 ch k 9 d 8 k
      { d with ds := below ++ [.List (n + 1)], out := out1 } ?_ ?_
    · rw [chStep_entry_nopush 6 ch k 9 d 0x3 8 rfl (by omega) (by omega)]
      rw [sepAdj_ne 9 d (by omega)]
      simp only [hact]; rfl
    · exact ⟨below, n + 1, rfl, hB, hK⟩
  by_cases h4 : cat = 4
  · subst h4
    obtain ⟨out1, hact⟩ := act3_ok ch d below n v hds (Below_pathEntry k below hB)
    refine stepOK_done_ok fuel hf0 4 ch k 9 d 1 k
      { d with ds := below ++ [.List (n + 1)], out := out1 } ?_ ?_
    · rw [chStep_entry_nopush 4 ch k 9 d 0x3 1 rfl (by omega) (by omega)]
      rw [sepAdj_ne 9 d (by omega)]
      simp only [hact]; rfl
    · exact ⟨below, .List (n + 1), rfl, hB, Or.inl hK, KMid_key_vacuous k hK _⟩
  · have hS : STATES 9 cat = tSyntax := by simp [STATES, h0, h6, h4]
    exact stepOK_done_err fuel hf0 cat ch k 9 d .Syntax (chStep_synErr cat ch k 9 d hS)

theorem dispatch10 (fuel : Nat) (hf : 1 ≤ fuel) (cat ch : Nat) (k : List Nat) (d : DState)
    (hB : Below k d.ds) (hK : KStr k) :
    StepOK (parse_ch fuel cat ch k 10 d) := by
  have hf0 : fuel ≠ 0 := by omega
  by_cases h7 : cat = 7
  · subst h7
    cases hdec : utf8Decode d.ss with
    | none =>
      have hact : do_action 0x8 ch d = .err .Unicode := by simp only [do_action, hdec]
      refine stepOK_done_err fuel hf0 7 ch k 10 d .Unicode ?_
      rw [chStep_entry_nopush 7 ch k 10 d 0x8 1 rfl (by omega) (by omega)]
      rw [sepAdj_ne 10 d (by omega)]
      simp only [hact]; rfl
    | some cps =>
      have hact : do_action 0x8 ch d =
          .ok { d with ds := d.ds ++ [.Term (.Str cps)], ss := [], es := [] } := by
        simp only [do_action, hdec]
      refine stepOK_done_ok fuel hf0 7 ch k 10 d 1 k
        { d with ds := d.ds ++ [.Term (.Str cps)], ss := [], es := [] } ?_ ?_
      · rw [chStep_entry_nopush 7 ch k 10 d 0x8 1 rfl (by omega) (by omega)]
        rw [sepAdj_ne 10 d (by omega)]
        simp only [hact]; rfl
      · exact ⟨d.ds, .Term (.Str cps), rfl, hB, hK, fun k2 hk => ⟨cps, rfl⟩⟩
  by_cases h8 : cat = 8
  · subst h8
    refine stepOK_done_ok fuel hf0 8 ch k 10 d 11 k (sepAdj 10 d) ?_ ?_
    · rw [chStep_entry_nopush 8 ch k 10 d 0 11 rfl (by omega) (by omega)]; rfl
    · exact ⟨hB, hK⟩
  · have hS : STATES 10 cat = tEntry false 0xB 10 := by simp [STATES, h7, h8]
    rcases act_scratch_ok 0xB ch d (Or.inl rfl) with ⟨e, he⟩ | ⟨ss1, es1, hok⟩
    · refine stepOK_done_err fuel hf0 cat ch k 10 d e ?_
      rw [chStep_entry_nopush cat ch k 10 d 0xB 10 hS (by omega) (by omega)]
      rw [sepAdj_ne 10 d (by omega)]
      simp only [he]; rfl
    · refine stepOK_done_ok fuel hf0 cat ch k 10 d 10 k
        { d with ss := ss1, es := es1 } ?_ ?_
      · rw [chStep_entry_nopush cat ch k 10 d 0xB 10 hS (by omega) (by omega)]
        rw [sepAdj_ne 10 d (by omega)]
        simp only [hok]; rfl
      · exact ⟨hB, hK⟩

theorem dispatch_return (fuel : Nat) (hf : 1 ≤ fuel) (cat ch : Nat) (g : Nat)
    (k2 : List Nat) (d : DState) (below : List Value) (v : Value)
    (hds : d.ds = below ++ [v]) (hB : Below (g :: k2) below) (hK : KMid (g :: k2)) :
    StepOK (parse_ch fuel cat ch k2 g d) := by
  have hB2 : ∃ pre seg, below = pre ++ seg ∧ Below k2 pre ∧ SegOK g seg := hB
  obtain ⟨pre, seg, hsplit, hpre, hseg⟩ := hB2
  rcases KMid_head g k2 hK with rfl | rfl | rfl
  · have hk2 : k2 = [] := by
      have hK2 : ((0 : Nat) = 0 ∧ k2 = []) ∨ (((0 : Nat) = 6 ∨ (0 : Nat) = 9) ∧ KMid k2) := hK
      rcases hK2 with ⟨_, h⟩ | ⟨h, _⟩
      · exact h
      · omega
    subst hk2
    have hpre0 : pre = [] := hpre
    have hseg0 : seg = [] := hseg
    subst hpre0; subst hseg0
    refine dispatch0 fuel hf cat ch d (Or.inr ⟨v, ?_⟩)
    rw [hds, hsplit]; rfl
  · have hseg2 : ∃ b kk, seg = [Value.Object b, Value.Term (.Str kk)] := hseg
    obtain ⟨b, kk, hseg6⟩ := hseg2
    have hKmid : KMid k2 := by
      have hK2 : ((6 : Nat) = 0 ∧ k2 = []) ∨ (((6 : Nat) = 6 ∨ (6 : Nat) = 9) ∧ KMid k2) := hK
      rcases hK2 with ⟨h, _⟩ | ⟨_, h⟩
      · omega
      · exact h
    refine dispatch6 fuel hf cat ch k2 d pre b kk v ?_ hpre hKmid
    rw [hds, hsplit, hseg6]; simp
  · have hseg2 : ∃ n, seg = [Value.List n] := hseg
    obtain ⟨n, hseg9⟩ := hseg2
    have hKmid : KMid k2 := by
      have hK2 : ((9 : Nat) = 0 ∧ k2 = []) ∨ (((9 : Nat) = 6 ∨ (9 : Nat) = 9) ∧ KMid k2) := hK
      rcases hK2 with ⟨h, _⟩ | ⟨_, h⟩
      · omega
      · exact h
    refine dispatch9 fuel hf cat ch k2 d pre n v ?_ hpre hKmid
    rw [hds, hsplit, hseg9]; simp

theorem dispatch_return_key (fuel : Nat) (hf : 1 ≤ fuel) (cat ch : Nat)
    (k2 : List Nat) (d : DState) (below : List Value) (kk : List Nat)
    (hds : d.ds = below ++ [.Term (.Str kk)]) (hB : Below (4 :: k2) below)
    (hK : KMid k2) :
    StepOK (parse_ch fuel cat ch k2 4 d) := by
  have hB2 : ∃ pre seg, below = pre ++ seg ∧ Below k2 pre ∧ SegOK 4 seg := hB
  obtain ⟨pre, seg, hsplit, hpre, hseg⟩ := hB2
  have hseg2 : ∃ b, seg = [Value.Object b] := hseg
  obtain ⟨b, hseg4⟩ := hseg2
  refine dispatch4 fuel hf cat ch k2 d pre b kk ?_ hpre hK
  rw [hds, hsplit, hseg4]; simp

theorem stepOK_plain (fuel : Nat) (hf : fuel ≠ 0) (cat ch : Nat) (k : List Nat)
    (d : DState) (s scode : Nat) (hS : STATES s cat = tEntry false 0 scode)
    (hsc : scode < 0xFF) (hs0 : s ≠ 0) (htgt : ReachInv scode k d.ds) :
    StepOK (parse_ch fuel cat ch k s d) := by
  refine stepOK_done_ok fuel hf cat ch k s d scode k (sepAdj s d) ?_ ?_
  · rw [chStep_entry_nopush cat ch k s d 0 scode hS (by omega) hsc]; rfl
  · rw [sepAdj_ne s d hs0]; exact htgt

theorem stepOK_pushPlain (fuel : Nat) (hf : fuel ≠ 0) (cat ch : Nat) (k : List Nat)
    (d : DState) (s scode : Nat) (hS : STATES s cat = tEntry true 0 scode)
    (hsc : scode < 0xFF) (hs0 : s ≠ 0) (htgt : ReachInv scode (GOTOS s :: k) d.ds) :
    StepOK (parse_ch fuel cat ch k s d) := by
  refine stepOK_done_ok fuel hf cat ch k s d scode (GOTOS s :: k) (sepAdj s d) ?_ ?_
  · rw [chStep_entry_push cat ch k s d 0 scode hS (by omega) hsc]; rfl
  · rw [sepAdj_ne s d hs0]; exact htgt

theorem stepOK_pushContainer (fuel : Nat) (hf : fuel ≠ 0) (cat ch : Nat) (k : List Nat)
    (d : DState) (s a scode : Nat) (v : Value)
    (hS : STATES s cat = tEntry true a scode) (ha : 0 < a ∧ a < 0x80)
    (hsc : scode < 0xFF) (hs0 : s ≠ 0)
    (hact : do_action a ch d = .ok { d with ds := d.ds ++ [v] })
    (htgt : ReachInv scode (GOTOS s :: k) (d.ds ++ [v])) :
    StepOK (parse_ch fuel cat ch k s d) := by
  refine stepOK_done_ok fuel hf cat ch k s d scode (GOTOS s :: k)
    { d with ds := d.ds ++ [v] } ?_ ?_
  · rw [chStep_entry_push cat ch k s d a scode hS ha.2 hsc]
    rw [sepAdj_ne s d hs0, if_pos ha.1]
    simp only [hact]
  · exact htgt

theorem stepOK_pushScratch (fuel : Nat) (hf : fuel ≠ 0) (cat ch : Nat) (k : List Nat)
    (d : DState) (s scode : Nat) (hS : STATES s cat = tEntry true 0xB scode)
    (hsc : scode < 0xFF) (hs0 : s ≠ 0)
    (htgt : ReachInv scode (GOTOS s :: k) d.ds) :
    StepOK (parse_ch fuel cat ch k s d) := by
  rcases act_scratch_ok 0xB ch d (Or.inl rfl) with ⟨e, he⟩ | ⟨ss1, es1, hok⟩
  · refine stepOK_done_err fuel hf cat ch k s d e ?_
    rw [chStep_entry_push cat ch k s d 0xB scode hS (by omega) hsc]
    rw [sepAdj_ne s d hs0, if_pos (by omega : (0 : Nat) < 0xB)]
    simp only [he]
  · refine stepOK_done_ok fuel hf cat ch k s d scode (GOTOS s :: k)
      { d with ss := ss1, es := es1 } ?_ ?_
    · rw [chStep_entry_push cat ch k s d 0xB scode hS (by omega) hsc]
      rw [sepAdj_ne s d hs0, if_pos (by omega : (0 : Nat) < 0xB)]
      simp only [hok]
    · exact htgt

theorem stepOK_scratchStep (fuel : Nat) (hf : fuel ≠ 0) (cat ch : Nat) (k : List Nat)
    (d : DState) (s a scode : Nat) (hS : STATES s cat = tEntry false a scode)
    (ha : a = 0xB ∨ a = 0xC ∨ a = 0xD ∨ a = 0xE) (hsc : scode < 0xFF) (hs0 : s ≠ 0)
    (htgt : ReachInv scode k d.ds) :
    StepOK (parse_ch fuel cat ch k s d) := by
  have ha2 : a < 0x80 := by rcases ha with rfl | rfl | rfl | rfl <;> omega
  have hpa : 0 < a := by rcases ha with rfl | rfl | rfl | rfl <;> omega
  rcases act_scratch_ok a ch d ha with ⟨e, he⟩ | ⟨ss1, es1, hok⟩
  · refine stepOK_done_err fuel hf cat ch k s d e ?_
    rw [chStep_entry_nopush cat ch k s d a scode hS ha2 hsc]
    rw [sepAdj_ne s d hs0, if_pos hpa]
    simp only [he]
  · refine stepOK_done_ok fuel hf cat ch k s d scode k
      { d with ss := ss1, es := es1 } ?_ ?_
    · rw [chStep_entry_nopush cat ch k s d a scode hS ha2 hsc]
      rw [sepAdj_ne s d hs0, if_pos hpa]
      simp only [hok]
    · exact htgt

theorem stepOK_kwEnd (fuel : Nat) (hf : fuel ≠ 0) (cat ch : Nat) (k : List Nat)
    (d : DState) (s a : Nat) (t : Terminal)
    (hS : STATES s cat = tEntry false a 1) (ha : 0 < a ∧ a < 0x80) (hs0 : s ≠ 0)
    (hact : do_action a ch d = .ok { d with ds := d.ds ++ [.Term t] })
    (hB : Below k d.ds) (hK : KMid k) :
    StepOK (parse_ch fuel cat ch k s d) := by
  refine stepOK_done_ok fuel hf cat ch k s d 1 k
    { d with ds := d.ds ++ [.Term t] } ?_ ?_
  · rw [chStep_entry_nopush cat ch k s d a 1 hS ha.2 (by omega)]
    rw [sepAdj_ne s d hs0, if_pos ha.1]
    simp only [hact]
  · exact ⟨d.ds, .Term t, rfl, hB, Or.inl hK, KMid_key_vacuous k hK _⟩

theorem stepOK_numEnd (fuel : Nat) (hf : 2 ≤ fuel) (cat ch : Nat) (k : List Nat)
    (d : DState) (s a : Nat) (hS : STATES s cat = tEntry false a 0xFF)
    (ha : a = 0x9 ∨ a = 0xA) (hs0 : s ≠ 0)
    (hB : Below k d.ds) (hK : KMid k) :
    StepOK (parse_ch fuel cat ch k s d) := by
  have hf0 : fuel ≠ 0 := by omega
  have hane : a < 0x80 := by rcases ha with rfl | rfl <;> omega
  have hpa : 0 < a := by rcases ha with rfl | rfl <;> omega
  cases hdec : utf8Decode d.ss with
  | none =>
    have hact : do_action a ch d = .err .Unicode := by
      rcases ha with rfl | rfl <;> simp only [do_action, hdec]
    refine stepOK_done_err fuel hf0 cat ch k s d .Unicode ?_
    rw [chStep_entry_pop cat ch k s d a hS hane hs0, if_pos hpa]
    simp only [hact]
  | some cps =>
    have hact : do_action a ch d =
        .ok { d with ds := d.ds ++ [.Term (.Number cps)], ss := [] } := by
      rcases ha with rfl | rfl <;> simp only [do_action, hdec]
    cases k with
    | nil => simp [KMid] at hK
    | cons g k2 =>
      have hstep : chStep cat ch (g :: k2) s d =
          .cont g k2 { d with ds := d.ds ++ [.Term (.Number cps)], ss := [] } := by
        rw [chStep_entry_pop cat ch (g :: k2) s d a hS hane hs0, if_pos hpa]
        simp only [hact]
      rw [parse_ch_cont fuel (by omega) cat ch (g :: k2) s d g k2 _ hstep]
      exact dispatch_return (fuel - 1) (by omega) cat ch g k2 _ d.ds
        (.Term (.Number cps)) rfl hB hK

theorem ReachInv_lt (s : Nat) (k : List Nat) (ds : List Value)
    (h : ReachInv s k ds) : s < 35 := by
  by_contra hge
  push_neg at hge
  obtain ⟨m, rfl⟩ : ∃ m, s = m + 35 := ⟨s - 35, by omega⟩
  exact h

/-- Every transition of the engine from an invariant-satisfying
configuration, on any byte category whatsoever, either reports an error
or reaches another invariant-satisfying configuration — never a panic,
and never fuel exhaustion at the engine's fuel budget. -/
theorem parse_ch_safe (fuel : Nat) (hf : 2 ≤ fuel) (cat ch : Nat) (k : List Nat)
    (s : Nat) (d : DState) (hinv : ReachInv s k d.ds) :
    StepOK (parse_ch fuel cat ch k s d) := by
  have hf0 : fuel ≠ 0 := by omega
  have hf1 : (1 : Nat) ≤ fuel := by omega
  have hs35 : s < 35 := ReachInv_lt s k d.ds hinv
  interval_cases s
  · -- state 0: top level
    obtain ⟨hk, hds⟩ := (hinv : k = [] ∧ (d.ds = [] ∨ ∃ v, d.ds = [v]))
    subst hk
    exact dispatch0 fuel hf1 cat ch d hds
  · -- state 1: value done, pop and redispatch
    obtain ⟨below, v, hds, hB, hK, hkey⟩ :=
      (hinv : ∃ below v, d.ds = below ++ [v] ∧ Below k below ∧ KStr k ∧
        (∀ k2, k = 4 :: k2 → ∃ kk, v = Value.Term (.Str kk)))
    rcases hK with hKm | ⟨k2, hk4, hKm⟩
    · cases k with
      | nil => simp [KMid] at hKm
      | cons g k2 =>
        have hstep : chStep cat ch (g :: k2) 1 d = .cont g k2 d := by
          rw [chStep_entry_pop cat ch (g :: k2) 1 d 0 rfl (by omega) (by omega)]; rfl
        rw [parse_ch_cont fuel hf0 cat ch (g :: k2) 1 d g k2 d hstep]
        exact dispatch_return (fuel - 1) (by omega) cat ch g k2 d below v hds hB hKm
    · subst hk4
      obtain ⟨kk, hv⟩ := hkey k2 rfl
      subst hv
      have hstep : chStep cat ch (4 :: k2) 1 d = .cont 4 k2 d := by
        rw [chStep_entry_pop cat ch (4 :: k2) 1 d 0 rfl (by omega) (by omega)]; rfl
      rw [parse_ch_cont fuel hf0 cat ch (4 :: k2) 1 d 4 k2 d hstep]
      exact dispatch_return_key (fuel - 1) (by omega) cat ch k2 d below kk hds hB hKm
  · -- state 2: object expecting first key
    obtain ⟨below, b, hds, hB, hK⟩ :=
      (hinv : ∃ below b, d.ds = below ++ [Value.Object b] ∧ Below k below ∧ KMid k)
    by_cases h0 : cat = 0
    · subst h0
      exact stepOK_plain fuel hf0 0 ch k d 2 2 rfl (by omega) (by omega)
        ⟨below, b, hds, hB, hK⟩
    by_cases h7 : cat = 7
    · subst h7
      exact stepOK_pushPlain fuel hf0 7 ch k d 2 10 rfl (by omega) (by omega)
        ⟨⟨below, [Value.Object b], hds, hB, ⟨b, rfl⟩⟩, Or.inr ⟨k, rfl, hK⟩⟩
    by_cases h2 : cat = 2
    · subst h2
      exact stepOK_plain fuel hf0 2 ch k d 2 1 rfl (by omega) (by omega)
        ⟨below, Value.Object b, hds, hB, Or.inl hK, KMid_key_vacuous k hK _⟩
    · have hS : STATES 2 cat = tSyntax := by
        simp only [STATES]; rw [if_neg h0, if_neg h7, if_neg h2]
      exact stepOK_done_err fuel hf0 cat ch k 2 d .Syntax (chStep_synErr cat ch k 2 d hS)
  · -- state 3: object expecting key after comma
    obtain ⟨below, b, hds, hB, hK⟩ :=
      (hinv : ∃ below b, d.ds = below ++ [Value.Object b] ∧ Below k below ∧ KMid k)
    by_cases h0 : cat = 0
    · subst h0
      exact stepOK_plain fuel hf0 0 ch k d 3 3 rfl (by omega) (by omega)
        ⟨below, b, hds, hB, hK⟩
    by_cases h7 : cat = 7
    · subst h7
      exact stepOK_pushPlain fuel hf0 7 ch k d 3 10 rfl (by omega) (by omega)
        ⟨⟨below, [Value.Object b], hds, hB, ⟨b, rfl⟩⟩, Or.inr ⟨k, rfl, hK⟩⟩
    · have hS : STATES 3 cat = tSyntax := by
        simp only [STATES]; rw [if_neg h0, if_neg h7]
      exact stepOK_done_err fuel hf0 cat ch k 3 d .Syntax (chStep_synErr cat ch k 3 d hS)
  · -- state 4: after key, expecting colon
    obtain ⟨below, b, kk, hds, hB, hK⟩ :=
      (hinv : ∃ below b kk, d.ds = below ++ [Value.Object b, Value.Term (.Str kk)] ∧
        Below k below ∧ KMid k)
    exact dispatch4 fuel hf1 cat ch k d below b kk hds hB hK
  · -- state 5: expecting member value
    obtain ⟨below, b, kk, hds, hB, hK⟩ :=
      (hinv : ∃ below b kk, d.ds = below ++ [Value.Object b, Value.Term (.Str kk)] ∧
        Below k below ∧ KMid k)
    have hB6 : Below (6 :: k) d.ds :=
      ⟨below, [Value.Object b, Value.Term (.Str kk)], hds, hB, ⟨b, kk, rfl⟩⟩
    have hK6 : KMid (6 :: k) := Or.inr ⟨Or.inl rfl, hK⟩
    by_cases h0 : cat = 0
    · subst h0
      exact stepOK_plain fuel hf0 0 ch k d 5 5 rfl (by omega) (by omega)
        ⟨below, b, kk, hds, hB, hK⟩
    by_cases h1 : cat = 1
    · subst h1
      exact stepOK_pushContainer fuel hf0 1 ch k d 5 0x2 2 (Value.Object true) rfl
        (by omega) (by omega) (by omega) rfl ⟨d.ds, true, rfl, hB6, hK6⟩
    by_cases h3 : cat = 3
    · subst h3
      exact stepOK_pushContainer fuel hf0 3 ch k d 5 0x1 7 (Value.List 0) rfl
        (by omega) (by omega) (by omega) rfl ⟨d.ds, 0, rfl, hB6, hK6⟩
    by_cases h7 : cat = 7
    · subst h7
      exact stepOK_pushPlain fuel hf0 7 ch k d 5 10 rfl (by omega) (by omega)
        ⟨hB6, Or.inl hK6⟩
    by_cases h10 : cat = 10
    · subst h10
      exact stepOK_pushScratch fuel hf0 10 ch k d 5 17 rfl (by omega) (by omega) ⟨hB6, hK6⟩
    by_cases h12 : cat = 12
    · subst h12
      exact stepOK_pushScratch fuel hf0 12 ch k d 5 18 rfl (by omega) (by omega) ⟨hB6, hK6⟩
    by_cases h13 : cat = 13
    · subst h13
      exact stepOK_pushScratch fuel hf0 13 ch k d 5 19 rfl (by omega) (by omega) ⟨hB6, hK6⟩
    by_cases h16 : cat = 16
    · subst h16
      exact stepOK_pushPlain fuel hf0 16 ch k d 5 25 rfl (by omega) (by omega) ⟨hB6, hK6⟩
    by_cases h22 : cat = 22
    · subst h22
      exact stepOK_pushPlain fuel hf0 22 ch k d 5 28 rfl (by omega) (by omega) ⟨hB6, hK6⟩
    by_cases h19 : cat = 19
    · subst h19
      exact stepOK_pushPlain fuel hf0 19 ch k d 5 32 rfl (by omega) (by omega) ⟨hB6, hK6⟩
    · have hS : STATES 5 cat = tSyntax := by
        simp only [STATES]; rw [if_neg h0]
        exact valueStartEntry_syntax cat h1 h3 h7 h10 h12 h13 h16 h22 h19
      exact stepOK_done_err fuel hf0 cat ch k 5 d .Syntax (chStep_synErr cat ch k 5 d hS)
  · -- state 6: after member value
    obtain ⟨below, b, kk, v, hds, hB, hK⟩ :=
      (hinv : ∃ below b kk v,
        d.ds = below ++ [Value.Object b, Value.Term (.Str kk), v] ∧
        Below k below ∧ KMid k)
    exact dispatch6 fuel hf1 cat ch k d below b kk v hds hB hK
  · -- state 7: list expecting first value
    obtain ⟨below, n, hds, hB, hK⟩ :=
      (hinv : ∃ below n, d.ds = below ++ [Value.List n] ∧ Below k below ∧ KMid k)
    have hB9 : Below (9 :: k) d.ds := ⟨below, [Value.List n], hds, hB, ⟨n, rfl⟩⟩
    have hK9 : KMid (9 :: k) := Or.inr ⟨Or.inr rfl, hK⟩
    by_cases h0 : cat = 0
    · subst h0
      exact stepOK_plain fuel hf0 0 ch k d 7 7 rfl (by omega) (by omega)
        ⟨below, n, hds, hB, hK⟩
    by_cases h4 : cat = 4
    · subst h4
      exact stepOK_plain fuel hf0 4 ch k d 7 1 rfl (by omega) (by omega)
        ⟨below, Value.List n, hds, hB, Or.inl hK, KMid_key_vacuous k hK _⟩
    by_cases h1 : cat = 1
    · subst h1
      exact stepOK_pushContainer fuel hf0 1 ch k d 7 0x2 2 (Value.Object true) rfl
        (by omega) (by omega) (by omega) rfl ⟨d.ds, true, rfl, hB9, hK9⟩
    by_cases h3 : cat = 3
    · subst h3
      exact stepOK_pushContainer fuel hf0 3 ch k d 7 0x1 7 (Value.List 0) rfl
        (by omega) (by omega) (by omega) rfl ⟨d.ds, 0, rfl, hB9, hK9⟩
    by_cases h7 : cat = 7
    · subst h7
      exact stepOK_pushPlain fuel hf0 7 ch k d 7 10 rfl (by omega) (by omega)
        ⟨hB9, Or.inl hK9⟩
    by_cases h10 : cat = 10
    · subst h10
      exact stepOK_pushScratch fuel hf0 10 ch k d 7 17 rfl (by omega) (by omega) ⟨hB9, hK9⟩
    by_cases h12 : cat = 12
    · subst h12
      exact stepOK_pushScratch fuel hf0 12 ch k d 7 18 rfl (by omega) (by omega) ⟨hB9, hK9⟩
    by_cases h13 : cat = 13
    · subst h13
      exact stepOK_pushScratch fuel hf0 13 ch k d 7 19 rfl (by omega) (by omega) ⟨hB9, hK9⟩
    by_cases h16 : cat = 16
    · subst h16
      exact stepOK_pushPlain fuel hf0 16 ch k d 7 25 rfl (by omega) (by omega) ⟨hB9, hK9⟩
    by_cases h22 : cat = 22
    · subst h22
      exact stepOK_pushPlain fuel hf0 22 ch k d 7 28 rfl (by omega) (by omega) ⟨hB9, hK9⟩
    by_cases h19 : cat = 19
    · subst h19
      exact stepOK_pushPlain fuel hf0 19 ch k d 7 32 rfl (by omega) (by omega) ⟨hB9, hK9⟩
    · have hS : STATES 7 cat = tSyntax := by
        simp only [STATES]; rw [if_neg h0, if_neg h4]
        exact valueStartEntry_syntax cat h1 h3 h7 h10 h12 h13 h16 h22 h19
      exact stepOK_done_err fuel hf0 cat ch k 7 d .Syntax (chStep_synErr cat ch k 7 d hS)
  · -- state 8: list expecting value after comma
    obtain ⟨below, n, hds, hB, hK⟩ :=
      (hinv : ∃ below n, d.ds = below ++ [Value.List n] ∧ Below k below ∧ KMid k)
    have hB9 : Below (9 :: k) d.ds := ⟨below, [Value.List n], hds, hB, ⟨n, rfl⟩⟩
    have hK9 : KMid (9 :: k) := Or.inr ⟨Or.inr rfl, hK⟩
    by_cases h0 : cat = 0
    · subst h0
      exact stepOK_plain fuel hf0 0 ch k d 8 8 rfl (by omega) (by omega)
        ⟨below, n, hds, hB, hK⟩
    by_cases h1 : cat = 1
    · subst h1
      exact stepOK_pushContainer fuel hf0 1 ch k d 8 0x2 2 (Value.Object true) rfl
        (by omega) (by omega) (by omega) rfl ⟨d.ds, true, rfl, hB9, hK9⟩
    by_cases h3 : cat = 3
    · subst h3
      exact stepOK_pushContainer fuel hf0 3 ch k d 8 0x1 7 (Value.List 0) rfl
        (by omega) (by omega) (by omega) rfl ⟨d.ds, 0, rfl, hB9, hK9⟩
    by_cases h7 : cat = 7
    · subst h7
      exact stepOK_pushPlain fuel hf0 7 ch k d 8 10 rfl (by omega) (by omega)
        ⟨hB9, Or.inl hK9⟩
    by_cases h10 : cat = 10
    · subst h10
      exact stepOK_pushScratch fuel hf0 10 ch k d 8 17 rfl (by omega) (by omega) ⟨hB9, hK9⟩
    by_cases h12 : cat = 12
    · subst h12
      exact stepOK_pushScratch fuel hf0 12 ch k d 8 18 rfl (by omega) (by omega) ⟨hB9, hK9⟩
    by_cases h13 : cat = 13
    · subst h13
      exact stepOK_pushScratch fuel hf0 13 ch k d 8 19 rfl (by omega) (by omega) ⟨hB9, hK9⟩
    by_cases h16 : cat = 16
    · subst h16
      exact stepOK_pushPlain fuel hf0 16 ch k d 8 25 rfl (by omega) (by omega) ⟨hB9, hK9⟩
    by_cases h22 : cat = 22
    · subst h22
      exact stepOK_pushPlain fuel hf0 22 ch k d 8 28 rfl (by omega) (by omega) ⟨hB9, hK9⟩
    by_cases h19 : cat = 19
    · subst h19
      exact stepOK_pushPlain fuel hf0 19 ch k d 8 32 rfl (by omega) (by omega) ⟨hB9, hK9⟩
    · have hS : STATES 8 cat = tSyntax := by
        simp only [STATES]; rw [if_neg h0]
        exact valueStartEntry_syntax cat h1 h3 h7 h10 h12 h13 h16 h22 h19
      exact stepOK_done_err fuel hf0 cat ch k 8 d .Syntax (chStep_synErr cat ch k 8 d hS)
  · -- state 9: after list element
    obtain ⟨below, n, v, hds, hB, hK⟩ :=
      (hinv : ∃ below n v, d.ds = below ++ [Value.List n, v] ∧ Below k below ∧ KMid k)
    exact dispatch9 fuel hf1 cat ch k d below n v hds hB hK
  · -- state 10: string body
    obtain ⟨hB, hK⟩ := (hinv : Below k d.ds ∧ KStr k)
    exact dispatch10 fuel hf1 cat ch k d hB hK
  · -- state 11: after backslash
    obtain ⟨hB, hK⟩ := (hinv : Below k d.ds ∧ KStr k)
    by_cases h789 : cat = 7 ∨ cat = 8 ∨ cat = 9
    · have hS : STATES 11 cat = tEntry false 0xB 10 := by
        simp only [STATES]; rw [if_pos h789]
      exact stepOK_scratchStep fuel hf0 cat ch k d 11 0xB 10 hS (Or.inl rfl)
        (by omega) (by omega) ⟨hB, hK⟩
    by_cases h18 : cat = 18
    · subst h18
      have hS : STATES 11 18 = tEntry true 0 12 := by
        simp only [STATES]; rw [if_neg h789]; exact if_pos trivial
      exact stepOK_pushPlain fuel hf0 18 ch k d 11 12 hS (by omega) (by omega)
        ⟨k, rfl, hB, hK⟩
    · have hS : STATES 11 cat = tEntry false 0xD 10 := by
        simp only [STATES]; rw [if_neg h789, if_neg h18]
      exact stepOK_scratchStep fuel hf0 cat ch k d 11 0xD 10 hS
        (Or.inr (Or.inr (Or.inl rfl))) (by omega) (by omega) ⟨hB, hK⟩
  · -- state 12: first hex digit
    obtain ⟨k2, hk, hB, hK⟩ :=
      (hinv : ∃ k2, k = 10 :: k2 ∧ Below k2 d.ds ∧ KStr k2)
    subst hk
    exact stepOK_scratchStep fuel hf0 cat ch (10 :: k2) d 12 0xC 13 rfl
      (Or.inr (Or.inl rfl)) (by omega) (by omega) ⟨k2, rfl, hB, hK⟩
  · -- state 13: second hex digit
    obtain ⟨k2, hk, hB, hK⟩ :=
      (hinv : ∃ k2, k = 10 :: k2 ∧ Below k2 d.ds ∧ KStr k2)
    subst hk
    exact stepOK_scratchStep fuel hf0 cat ch (10 :: k2) d 13 0xC 14 rfl
      (Or.inr (Or.inl rfl)) (by omega) (by omega) ⟨k2, rfl, hB, hK⟩
  · -- state 14: third hex digit
    obtain ⟨k2, hk, hB, hK⟩ :=
      (hinv : ∃ k2, k = 10 :: k2 ∧ Below k2 d.ds ∧ KStr k2)
    subst hk
    exact stepOK_scratchStep fuel hf0 cat ch (10 :: k2) d 14 0xC 15 rfl
      (Or.inr (Or.inl rfl)) (by omega) (by omega) ⟨k2, rfl, hB, hK⟩
  · -- state 15: fourth hex digit
    obtain ⟨k2, hk, hB, hK⟩ :=
      (hinv : ∃ k2, k = 10 :: k2 ∧ Below k2 d.ds ∧ KStr k2)
    subst hk
    exact stepOK_scratchStep fuel hf0 cat ch (10 :: k2) d 15 0xC 16 rfl
      (Or.inr (Or.inl rfl)) (by omega) (by omega) ⟨k2, rfl, hB, hK⟩
  · -- state 16: escape scratch complete, resolve and pop
    obtain ⟨k2, hk, hB, hK⟩ :=
      (hinv : ∃ k2, k = 10 :: k2 ∧ Below k2 d.ds ∧ KStr k2)
    subst hk
    rcases act_scratch_ok 0xE ch d (Or.inr (Or.inr (Or.inr rfl))) with
      ⟨e, he⟩ | ⟨ss1, es1, hok⟩
    · refine stepOK_done_err fuel hf0 cat ch (10 :: k2) 16 d e ?_
      rw [chStep_entry_pop cat ch (10 :: k2) 16 d 0xE rfl (by omega) (by omega),
        if_pos (by omega : (0 : Nat) < 0xE)]
      simp only [he]
    · have hstep : chStep cat ch (10 :: k2) 16 d =
          .cont 10 k2 { d with ss := ss1, es := es1 } := by
        rw [chStep_entry_pop cat ch (10 :: k2) 16 d 0xE rfl (by omega) (by omega),
          if_pos (by omega : (0 : Nat) < 0xE)]
        simp only [hok]
      rw [parse_ch_cont fuel hf0 cat ch (10 :: k2) 16 d 10 k2 _ hstep]
      exact dispatch10 (fuel - 1) (by omega) cat ch k2 _ hB hK
  · -- state 17: after minus sign
    obtain ⟨hB, hK⟩ := (hinv : Below k d.ds ∧ KMid k)
    by_cases h12 : cat = 12
    · subst h12
      exact stepOK_scratchStep fuel hf0 12 ch k d 17 0xB 18 rfl (Or.inl rfl)
        (by omega) (by omega) ⟨hB, hK⟩
    by_cases h13 : cat = 13
    · subst h13
      exact stepOK_scratchStep fuel hf0 13 ch k d 17 0xB 19 rfl (Or.inl rfl)
        (by omega) (by omega) ⟨hB, hK⟩
    · have hS : STATES 17 cat = tSyntax := by
        simp only [STATES]; rw [if_neg h12, if_neg h13]
      exact stepOK_done_err fuel hf0 cat ch k 17 d .Syntax (chStep_synErr cat ch k 17 d hS)
  · -- state 18: after leading zero
    obtain ⟨hB, hK⟩ := (hinv : Below k d.ds ∧ KMid k)
    by_cases h14 : cat = 14
    · subst h14
      exact stepOK_scratchStep fuel hf0 14 ch k d 18 0xB 20 rfl (Or.inl rfl)
        (by omega) (by omega) ⟨hB, hK⟩
    by_cases h15 : cat = 15
    · subst h15
      exact stepOK_scratchStep fuel hf0 15 ch k d 18 0xB 22 rfl (Or.inl rfl)
        (by omega) (by omega) ⟨hB, hK⟩
    by_cases hdel : isDelimCat cat = true
    · have hS : STATES 18 cat = tEntry false 0x9 0xFF := by
        simp only [STATES]; rw [if_neg h14, if_neg h15, if_pos hdel]
      exact stepOK_numEnd fuel hf cat ch k d 18 0x9 hS (Or.inl rfl) (by omega) hB hK
    · have hS : STATES 18 cat = tSyntax := by
        simp only [STATES]; rw [if_neg h14, if_neg h15, if_neg hdel]
      exact stepOK_done_err fuel hf0 cat ch k 18 d .Syntax (chStep_synErr cat ch k 18 d hS)
  · -- state 19: integer part
    obtain ⟨hB, hK⟩ := (hinv : Below k d.ds ∧ KMid k)
    by_cases h1213 : cat = 12 ∨ cat = 13
    · have hS : STATES 19 cat = tEntry false 0xB 19 := by
        simp only [STATES]; rw [if_pos h1213]
      exact stepOK_scratchStep fuel hf0 cat ch k d 19 0xB 19 hS (Or.inl rfl)
        (by omega) (by omega) ⟨hB, hK⟩
    by_cases h14 : cat = 14
    · subst h14
      exact stepOK_scratchStep fuel hf0 14 ch k d 19 0xB 20 rfl (Or.inl rfl)
        (by omega) (by omega) ⟨hB, hK⟩
    by_cases h15 : cat = 15
    · subst h15
      exact stepOK_scratchStep fuel hf0 15 ch k d 19 0xB 22 rfl (Or.inl rfl)
        (by omega) (by omega) ⟨hB, hK⟩
    by_cases hdel : isDelimCat cat = true
    · have hS : STATES 19 cat = tEntry false 0x9 0xFF := by
        simp only [STATES]; rw [if_neg h1213, if_neg h14, if_neg h15, if_pos hdel]
      exact stepOK_numEnd fuel hf cat ch k d 19 0x9 hS (Or.inl rfl) (by omega) hB hK
    · have hS : STATES 19 cat = tSyntax := by
        simp only [STATES]; rw [if_neg h1213, if_neg h14, if_neg h15, if_neg hdel]
      exact stepOK_done_err fuel hf0 cat ch k 19 d .Syntax (chStep_synErr cat ch k 19 d hS)
  · -- state 20: fraction start
    obtain ⟨hB, hK⟩ := (hinv : Below k d.ds ∧ KMid k)
    by_cases h1213 : cat = 12 ∨ cat = 13
    · have hS : STATES 20 cat = tEntry false 0xB 21 := by
        simp only [STATES]; rw [if_pos h1213]
      exact stepOK_scratchStep fuel hf0 cat ch k d 20 0xB 21 hS (Or.inl rfl)
        (by omega) (by omega) ⟨hB, hK⟩
    · have hS : STATES 20 cat = tSyntax := by
        simp only [STATES]; rw [if_neg h1213]
      exact stepOK_done_err fuel hf0 cat ch k 20 d .Syntax (chStep_synErr cat ch k 20 d hS)
  · -- state 21: fraction digits
    obtain ⟨hB, hK⟩ := (hinv : Below k d.ds ∧ KMid k)
    by_cases h1213 : cat = 12 ∨ cat = 13
    · have hS : STATES 21 cat = tEntry false 0xB 21 := by
        simp only [STATES]; rw [if_pos h1213]
      exact stepOK_scratchStep fuel hf0 cat ch k d 21 0xB 21 hS (Or.inl rfl)
        (by omega) (by omega) ⟨hB, hK⟩
    by_cases h15 : cat = 15
    · subst h15
      exact stepOK_scratchStep fuel hf0 15 ch k d 21 0xB 22 rfl (Or.inl rfl)
        (by omega) (by omega) ⟨hB, hK⟩
    by_cases hdel : isDelimCat cat = true
    · have hS : STATES 21 cat = tEntry false 0xA 0xFF := by
        simp only [STATES]; rw [if_neg h1213, if_neg h15, if_pos hdel]
      exact stepOK_numEnd fuel hf cat ch k d 21 0xA hS (Or.inr rfl) (by omega) hB hK
    · have hS : STATES 21 cat = tSyntax := by
        simp only [STATES]; rw [if_neg h1213, if_neg h15, if_neg hdel]
      exact stepOK_done_err fuel hf0 cat ch k 21 d .Syntax (chStep_synErr cat ch k 21 d hS)
  · -- state 22: exponent start
    obtain ⟨hB, hK⟩ := (hinv : Below k d.ds ∧ KMid k)
    by_cases h1011 : cat = 10 ∨ cat = 11
    · have hS : STATES 22 cat = tEntry false 0xB 23 := by
        simp only [STATES]; rw [if_pos h1011]
      exact stepOK_scratchStep fuel hf0 cat ch k d 22 0xB 23 hS (Or.inl rfl)
        (by omega) (by omega) ⟨hB, hK⟩
    by_cases h1213 : cat = 12 ∨ cat = 13
    · have hS : STATES 22 cat = tEntry false 0xB 24 := by
        simp only [STATES]; rw [if_neg h1011, if_pos h1213]
      exact stepOK_scratchStep fuel hf0 cat ch k d 22 0xB 24 hS (Or.inl rfl)
        (by omega) (by omega) ⟨hB, hK⟩
    · have hS : STATES 22 cat = tSyntax := by
        simp only [STATES]; rw [if_neg h1011, if_neg h1213]
      exact stepOK_done_err fuel hf0 cat ch k 22 d .Syntax (chStep_synErr cat ch k 22 d hS)
  · -- state 23: exponent sign
    obtain ⟨hB, hK⟩ := (hinv : Below k d.ds ∧ KMid k)
    by_cases h1213 : cat = 12 ∨ cat = 13
    · have hS : STATES 23 cat = tEntry false 0xB 24 := by
        simp only [STATES]; rw [if_pos h1213]
      exact stepOK_scratchStep fuel hf0 cat ch k d 23 0xB 24 hS (Or.inl rfl)
        (by omega) (by omega) ⟨hB, hK⟩
    · have hS : STATES 23 cat = tSyntax := by
        simp only [STATES]; rw [if_neg h1213]
      exact stepOK_done_err fuel hf0 cat ch k 23 d .Syntax (chStep_synErr cat ch k 23 d hS)
  · -- state 24: exponent digits
    obtain ⟨hB, hK⟩ := (hinv : Below k d.ds ∧ KMid k)
    by_cases h1213 : cat = 12 ∨ cat = 13
    · have hS : STATES 24 cat = tEntry false 0xB 24 := by
        simp only [STATES]; rw [if_pos h1213]
      exact stepOK_scratchStep fuel hf0 cat ch k d 24 0xB 24 hS (Or.inl rfl)
        (by omega) (by omega) ⟨hB, hK⟩
    by_cases hdel : isDelimCat cat = true
    · have hS : STATES 24 cat = tEntry false 0xA 0xFF := by
        simp only [STATES]; rw [if_neg h1213, if_pos hdel]
      exact stepOK_numEnd fuel hf cat ch k d 24 0xA hS (Or.inr rfl) (by omega) hB hK
    · have hS : STATES 24 cat = tSyntax := by
        simp only [STATES]; rw [if_neg h1213, if_neg hdel]
      exact stepOK_done_err fuel hf0 cat ch k 24 d .Syntax (chStep_synErr cat ch k 24 d hS)
  · -- state 25: after t
    obtain ⟨hB, hK⟩ := (hinv : Below k d.ds ∧ KMid k)
    by_cases hc : cat = 17
    · subst hc
      exact stepOK_plain fuel hf0 17 ch k d 25 26 rfl (by omega) (by omega) ⟨hB, hK⟩
    · have hS : STATES 25 cat = tSyntax := by simp only [STATES]; rw [if_neg hc]
      exact stepOK_done_err fuel hf0 cat ch k 25 d .Syntax (chStep_synErr cat ch k 25 d hS)
  · -- state 26: after tr
    obtain ⟨hB, hK⟩ := (hinv : Below k d.ds ∧ KMid k)
    by_cases hc : cat = 18
    · subst hc
      exact stepOK_plain fuel hf0 18 ch k d 26 27 rfl (by omega) (by omega) ⟨hB, hK⟩
    · have hS : STATES 26 cat = tSyntax := by simp only [STATES]; rw [if_neg hc]
      exact stepOK_done_err fuel hf0 cat ch k 26 d .Syntax (chStep_synErr cat ch k 26 d hS)
  · -- state 27: after tru, e completes true
    obtain ⟨hB, hK⟩ := (hinv : Below k d.ds ∧ KMid k)
    by_cases hc : cat = 15
    · subst hc
      exact stepOK_kwEnd fuel hf0 15 ch k d 27 0x6 (.Bool true) rfl (by omega)
        (by omega) rfl hB hK
    · have hS : STATES 27 cat = tSyntax := by simp only [STATES]; rw [if_neg hc]
      exact stepOK_done_err fuel hf0 cat ch k 27 d .Syntax (chStep_synErr cat ch k 27 d hS)
  · -- state 28: after f
    obtain ⟨hB, hK⟩ := (hinv : Below k d.ds ∧ KMid k)
    by_cases hc : cat = 20
    · subst hc
      exact stepOK_plain fuel hf0 20 ch k d 28 29 rfl (by omega) (by omega) ⟨hB, hK⟩
    · have hS : STATES 28 cat = tSyntax := by simp only [STATES]; rw [if_neg hc]
      exact stepOK_done_err fuel hf0 cat ch k 28 d .Syntax (chStep_synErr cat ch k 28 d hS)
  · -- state 29: after fa
    obtain ⟨hB, hK⟩ := (hinv : Below k d.ds ∧ KMid k)
    by_cases hc : cat = 21
    · subst hc
      exact stepOK_plain fuel hf0 21 ch k d 29 30 rfl (by omega) (by omega) ⟨hB, hK⟩
    · have hS : STATES 29 cat = tSyntax := by simp only [STATES]; rw [if_neg hc]
      exact stepOK_done_err fuel hf0 cat ch k 29 d .Syntax (chStep_synErr cat ch k 29 d hS)
  · -- state 30: after fal
    obtain ⟨hB, hK⟩ := (hinv : Below k d.ds ∧ KMid k)
    by_cases hc : cat = 23
    · subst hc
      exact stepOK_plain fuel hf0 23 ch k d 30 31 rfl (by omega) (by omega) ⟨hB, hK⟩
    · have hS : STATES 30 cat = tSyntax := by simp only [STATES]; rw [if_neg hc]
      exact stepOK_done_err fuel hf0 cat ch k 30 d .Syntax (chStep_synErr cat ch k 30 d hS)
  · -- state 31: after fals, e completes false
    obtain ⟨hB, hK⟩ := (hinv : Below k d.ds ∧ KMid k)
    by_cases hc : cat = 15
    · subst hc
      exact stepOK_kwEnd fuel hf0 15 ch k d 31 0x7 (.Bool false) rfl (by omega)
        (by omega) rfl hB hK
    · have hS : STATES 31 cat = tSyntax := by simp only [STATES]; rw [if_neg hc]
      exact stepOK_done_err fuel hf0 cat ch k 31 d .Syntax (chStep_synErr cat ch k 31 d hS)
  · -- state 32: after n
    obtain ⟨hB, hK⟩ := (hinv : Below k d.ds ∧ KMid k)
    by_cases hc : cat = 18
    · subst hc
      exact stepOK_plain fuel hf0 18 ch k d 32 33 rfl (by omega) (by omega) ⟨hB, hK⟩
    · have hS : STATES 32 cat = tSyntax := by simp only [STATES]; rw [if_neg hc]
      exact stepOK_done_err fuel hf0 cat ch k 32 d .Syntax (chStep_synErr cat ch k 32 d hS)
  · -- state 33: after nu
    obtain ⟨hB, hK⟩ := (hinv : Below k d.ds ∧ KMid k)
    by_cases hc : cat = 21
    · subst hc
      exact stepOK_plain fuel hf0 21 ch k d 33 34 rfl (by omega) (by omega) ⟨hB, hK⟩
    · have hS : STATES 33 cat = tSyntax := by simp only [STATES]; rw [if_neg hc]
      exact stepOK_done_err fuel hf0 cat ch k 33 d .Syntax (chStep_synErr cat ch k 33 d hS)
  · -- state 34: after nul, l completes null
    obtain ⟨hB, hK⟩ := (hinv : Below k d.ds ∧ KMid k)
    by_cases hc : cat = 21
    · subst hc
      exact stepOK_kwEnd fuel hf0 21 ch k d 34 0x5 .Null rfl (by omega)
        (by omega) rfl hB hK
    · have hS : STATES 34 cat = tSyntax := by simp only [STATES]; rw [if_neg hc]
      exact stepOK_done_err fuel hf0 cat ch k 34 d .Syntax (chStep_synErr cat ch k 34 d hS)

theorem stepByte_safe (p : PCfg) (b : Nat)
    (hinv : ReachInv p.state p.stack p.d.ds) :
    (∃ l c e, stepByte p b = .err l c e) ∨
    (∃ p1, stepByte p b = .ok p1 ∧ ReachInv p1.state p1.stack p1.d.ds) := by
  rcases parse_ch_safe (p.stack.length + 2) (by omega) (CATCODE (min b 0x7E)) b
      p.stack p.state p.d hinv with ⟨e, he⟩ | ⟨s2, k2, d2, hok, hinv2⟩
  · left
    refine ⟨if b = 10 then p.line + 1 else p.line, if b = 10 then 0 else p.col + 1,
      e, ?_⟩
    simp only [stepByte, he]
  · right
    refine ⟨⟨if b = 10 then p.line + 1 else p.line, if b = 10 then 0 else p.col + 1,
      k2, s2, d2⟩, ?_, hinv2⟩
    simp only [stepByte, hok]

theorem runBytes_safe (bytes : List Nat) (p : PCfg)
    (hinv : ReachInv p.state p.stack p.d.ds) :
    (∃ l c e, runBytes bytes p = .err l c e) ∨
    (∃ p1, runBytes bytes p = .ok p1 ∧ ReachInv p1.state p1.stack p1.d.ds) := by
  induction bytes generalizing p with
  | nil => exact Or.inr ⟨p, rfl, hinv⟩
  | cons b rest ih =>
    rcases stepByte_safe p b hinv with ⟨l, c, e, he⟩ | ⟨p1, hok, hinv1⟩
    · left; exact ⟨l, c, e, by simp only [runBytes, he]⟩
    · rcases ih p1 hinv1 with ⟨l, c, e, he2⟩ | ⟨p2, hok2, hinv2⟩
      · left; exact ⟨l, c, e, by simp only [runBytes, hok, he2]⟩
      · right; exact ⟨p2, by simp only [runBytes, hok, hok2], hinv2⟩

/-- C10: for every input byte stream whatsoever — arbitrary bytes, not
necessarily valid JSON or valid UTF-8 — `parse` terminates in a
non-panicking outcome: it returns the bytes written to the output sink or
a position-tagged error.  Since these are the only other constructors of
the result type, the control-stack pop of `parse_ch`, the value-stack
pops of `do_action`, the non-string-terminal check of `print_path` and
the engine's fuel budget never hit their panic paths. -/
theorem C10_no_panic (bytes : List Nat) :
    (∃ out, parse bytes = .ok out) ∨ (∃ l c e, parse bytes = .err l c e) := by
  have hinit : ReachInv initCfg.state initCfg.stack initCfg.d.ds := ⟨rfl, Or.inl rfl⟩
  rcases runBytes_safe bytes initCfg hinit with ⟨l, c, e, he⟩ | ⟨p1, hok, hinv1⟩
  · right; exact ⟨l, c, e, by simp only [parse, parseFrom, he]⟩
  · rcases parse_ch_safe (p1.stack.length + 2) (by omega) (CATCODE 32) 0x3F
        p1.stack p1.state p1.d hinv1 with ⟨e, he2⟩ | ⟨s2, k2, d2, hok2, hinv2⟩
    · right
      exact ⟨p1.line, p1.col, e, by simp only [parse, parseFrom, hok, parseEnd, he2]⟩
    · by_cases hs : s2 = 0
      · left
        refine ⟨d2.out, ?_⟩
        simp only [parse, parseFrom, hok, parseEnd, hok2]
        simp [hs]
      · right
        refine ⟨p1.line, p1.col, .Truncated, ?_⟩
        simp only [parse, parseFrom, hok, parseEnd, hok2]
        simp [hs]

/-! ### A canonical class of JSON documents, for the line-listing claim -/

mutual
/-- JSON document trees over the canonical serialisation below: numbers
carry their literal digits, strings their code points. -/
inductive Json where
  | null
  | bool (b : Bool)
  | num (lit : List Nat)
  | str (cps : List Nat)
  | arr (es : JsonList)
  | obj (ms : JsonMembers)
inductive JsonList where
  | nil
  | cons (head : Json) (tail : JsonList)
inductive JsonMembers where
  | nil
  | cons (key : List Nat) (val : Json) (tail : JsonMembers)
end

/-- UTF-8 bytes of a list of code points. -/
def strUtf8 (cps : List Nat) : List Nat := (cps.map utf8Encode).flatten

/-- String contents that serialise without escapes: Unicode scalar values
other than the quote and the backslash. -/
def strOK (cps : List Nat) : Bool :=
  cps.all fun c => isScalar c && (c != 34) && (c != 92)

/-- Integer number literals: nonempty digits, no leading zero. -/
def numOK (lit : List Nat) : Bool :=
  !lit.isEmpty && lit.all (fun b => decide (48 ≤ b ∧ b ≤ 57)) &&
    (match lit with | 48 :: rest => rest.isEmpty | _ => true)

mutual
def wfJson : Json → Bool
  | .null => true
  | .bool _ => true
  | .num lit => numOK lit
  | .str cps => strOK cps
  | .arr es => wfList es
  | .obj ms => wfMembers ms
def wfList : JsonList → Bool
  | .nil => true
  | .cons e t => wfJson e && wfList t
def wfMembers : JsonMembers → Bool
  | .nil => true
  | .cons kk v t => strOK kk && wfJson v && wfMembers t
end

mutual
/-- Canonical serialisation: no whitespace, strings verbatim (no
escapes), commas between elements and members. -/
def serVal : Json → List Nat
  | .null => [110, 117, 108, 108]
  | .bool true => [116, 114, 117, 101]
  | .bool false => [102, 97, 108, 115, 101]
  | .num lit => lit
  | .str cps => [34] ++ strUtf8 cps ++ [34]
  | .arr es => [91] ++ serElems es ++ [93]
  | .obj ms => [123] ++ serMembers ms ++ [125]
def serElems : JsonList → List Nat
  | .nil => []
  | .cons e .nil => serVal e
  | .cons e (.cons e2 t) => serVal e ++ [44] ++ serElems (.cons e2 t)
def serMembers : JsonMembers → List Nat
  | .nil => []
  | .cons kk v .nil => [34] ++ strUtf8 kk ++ [34, 58] ++ serVal v
  | .cons kk v (.cons k2 v2 t) =>
    [34] ++ strUtf8 kk ++ [34, 58] ++ serVal v ++ [44] ++ serMembers (.cons k2 v2 t)
end

def jlen : JsonList → Nat
  | .nil => 0
  | .cons _ t => jlen t + 1

/-- The value-stack entry left behind once a value has been fully
parsed: scalars leave their terminal, containers their marker (a list
with its element count; an object marker that is `false` as soon as one
member was bound). -/
def doneVal : Json → Value
  | .null => .Term .Null
  | .bool b => .Term (.Bool b)
  | .num lit => .Term (.Number lit)
  | .str cps => .Term (.Str cps)
  | .arr es => .List (jlen es)
  | .obj .nil => .Object true
  | .obj (.cons _ _ _) => .Object false

/-- The state in which the engine sits right after the digits of a
number literal (a lone `0` cannot take more digits). -/
def numState (lit : List Nat) : Nat :=
  match lit with
  | 48 :: _ => 18
  | _ => 19

/-- Rendering of an object key inside a path: bare if every character is
ASCII alphanumeric or underscore, quoted otherwise. -/
def keyBytes (kk : List Nat) : List Nat :=
  if kk.all isBareChar then strUtf8 kk else fmtTerminal (.Str kk)

/-- The line written by the pop-and-append action for a completed array
element: scalars get `path = value`, containers nothing. -/
def bindLine3 (p : List Nat) : Value → List Nat
  | .Term t => p ++ [32, 61, 32] ++ fmtTerminal t ++ [10]
  | _ => []

/-- The line written by the pop-pop-and-bind action for a completed
member value: scalars get `path = value`, empty containers their
`[]`/`\x7b\x7d` line, non-empty containers nothing. -/
def bindLine4 (p : List Nat) : Value → List Nat
  | .Term t => p ++ [32, 61, 32] ++ fmtTerminal t ++ [10]
  | .List 0 => p ++ [32, 61, 32] ++ [91, 93, 10]
  | .Object true => p ++ [32, 61, 32] ++ [123, 125, 10]
  | _ => []

mutual
/-- The output written while the bytes of a value at path `p` are being
consumed: nothing for scalars (their line appears only when the
following delimiter triggers the pop action), the member/element lines
for containers. -/
def childLines : List Nat → Json → List Nat
  | _, .null => []
  | _, .bool _ => []
  | _, .num _ => []
  | _, .str _ => []
  | p, .arr es => elemLines p 0 es
  | p, .obj ms => memberLines p ms
/-- Lines of the elements of an array at path `p`, the first element
having index `i`, in document order. -/
def elemLines : List Nat → Nat → JsonList → List Nat
  | _, _, .nil => []
  | p, i, .cons e t =>
    childLines (p ++ [91] ++ decDigits i ++ [93]) e ++
      bindLine3 (p ++ [91] ++ decDigits i ++ [93]) (doneVal e) ++
      elemLines p (i + 1) t
/-- Lines of the members of an object at path `p`, in document order. -/
def memberLines : List Nat → JsonMembers → List Nat
  | _, .nil => []
  | p, .cons kk v t =>
    childLines (p ++ [46] ++ keyBytes kk) v ++
      bindLine4 (p ++ [46] ++ keyBytes kk) (doneVal v) ++
      memberLines p t
end

theorem print_path_single (v : Value) (bs : List Nat) (h : pathItem v = .ok bs) :
    print_path [v] = .ok bs := by
  simp [print_path, prBind, h]

theorem print_path_snoc (l : List Value) (v : Value) (p bs : List Nat)
    (hl : print_path l = .ok p) (h : pathItem v = .ok bs) :
    print_path (l ++ [v]) = .ok (p ++ bs) :=
  print_path_append l [v] p bs hl (print_path_single v bs h)

theorem pathItem_key (kk : List Nat) : pathItem (.Term (.Str kk)) = .ok (keyBytes kk) := by
  simp only [pathItem, keyBytes, strUtf8]
  split_ifs <;> rfl

/-- Among the bytes the category table can see, only the quote has the
quote category and only the backslash the backslash category. -/
theorem catStrByte (b : Nat) (h34 : b ≠ 34) (h92 : b ≠ 92) :
    CATCODE (min b 0x7E) ≠ 7 ∧ CATCODE (min b 0x7E) ≠ 8 := by
  have hlt : min b 0x7E < 0x7F := by omega
  have hb34 : min b 0x7E ≠ 34 := by omega
  have hb92 : min b 0x7E ≠ 92 := by omega
  have key : ∀ x, x < 0x7F → (CATCODE x = 7 → x = 34) ∧ (CATCODE x = 8 → x = 92) := by decide
  exact ⟨fun h => hb34 ((key _ hlt).1 h), fun h => hb92 ((key _ hlt).2 h)⟩

theorem catDigit (b : Nat) (h1 : 48 ≤ b) (h2 : b ≤ 57) :
    CATCODE (min b 0x7E) = 12 ∨ CATCODE (min b 0x7E) = 13 := by
  have hmin : min b 0x7E = b := by omega
  have key : ∀ x, x < 58 → 48 ≤ x → CATCODE x = 12 ∨ CATCODE x = 13 := by decide
  rw [hmin]
  exact key b (by omega) h1

theorem catDigitPos (b : Nat) (h1 : 49 ≤ b) (h2 : b ≤ 57) :
    CATCODE (min b 0x7E) = 13 := by
  have hmin : min b 0x7E = b := by omega
  have key : ∀ x, x < 58 → 49 ≤ x → CATCODE x = 13 := by decide
  rw [hmin]
  exact key b (by omega) h1

theorem utf8Encode_ne (c : Nat) (h34 : c ≠ 34) (h92 : c ≠ 92) :
    ∀ b ∈ utf8Encode c, b ≠ 34 ∧ b ≠ 92 := by
  intro b hb
  unfold utf8Encode at hb
  split_ifs at hb with h1 h2 h3 <;> simp at hb
  · omega
  · rcases hb with rfl | rfl <;> omega
  · rcases hb with rfl | rfl | rfl <;> omega
  · rcases hb with rfl | rfl | rfl | rfl <;> omega

theorem strOK_props (cps : List Nat) (h : strOK cps = true) :
    ∀ c ∈ cps, isScalar c = true ∧ c ≠ 34 ∧ c ≠ 92 := by
  intro c hc
  simp only [strOK, List.all_eq_true, Bool.and_eq_true, bne_iff_ne, ne_eq] at h
  obtain ⟨⟨hs, h1⟩, h2⟩ := h c hc
  exact ⟨hs, h1, h2⟩

theorem strUtf8_ne (cps : List Nat) (h : strOK cps = true) :
    ∀ b ∈ strUtf8 cps, b ≠ 34 ∧ b ≠ 92 := by
  intro b hb
  simp only [strUtf8, List.mem_flatten, List.mem_map] at hb
  obtain ⟨bs, ⟨c, hc, rfl⟩, hbin⟩ := hb
  obtain ⟨_, h1, h2⟩ := strOK_props cps h c hc
  exact utf8Encode_ne c h1 h2 b hbin

theorem strUtf8_decode (cps : List Nat) (h : strOK cps = true) :
    utf8Decode (strUtf8 cps) = some cps :=
  utf8Decode_encode cps (fun c hc => (strOK_props cps h c hc).1)

/-- Two-iteration engine step: a pop followed by a completing dispatch. -/
theorem stepByte_chain2n (p : PCfg) (b : Nat) (hb : b ≠ 10) (g : Nat)
    (k1 : List Nat) (d1 : DState) (s2 : Nat) (k2 : List Nat) (d2 : DState)
    (h1 : chStep (CATCODE (min b 0x7E)) b p.stack p.state p.d = .cont g k1 d1)
    (h2 : chStep (CATCODE (min b 0x7E)) b k1 g d1 = .done (.ok (s2, k2, d2))) :
    stepByte p b = .ok ⟨p.line, p.col + 1, k2, s2, d2⟩ := by
  simp only [stepByte]
  rw [parse_ch_cont (p.stack.length + 2) (by omega) _ _ _ _ _ _ _ _ h1,
    parse_ch_done (p.stack.length + 2 - 1) (by omega) _ _ _ _ _ _ h2]
  rw [if_neg hb, if_neg hb]

theorem STATES_valueStart (s : Nat) (hs : s = 0 ∨ s = 5 ∨ s = 7 ∨ s = 8)
    (cat : Nat) (hcat : cat ≠ 0 ∧ cat ≠ 4) :
    STATES s cat = valueStartEntry cat := by
  rcases hs with rfl | rfl | rfl | rfl
  · simp only [STATES]; rw [if_neg hcat.1]
  · simp only [STATES]; rw [if_neg hcat.1]
  · simp only [STATES]; rw [if_neg hcat.1, if_neg hcat.2]
  · simp only [STATES]; rw [if_neg hcat.1]

/-- One engine step opening a value at a value-expecting state: push the
goto, run the action of the value's first byte. -/
theorem stepByte_value_open (l c : Nat) (k : List Nat) (s : Nat)
    (hs : s = 0 ∨ s = 5 ∨ s = 7 ∨ s = 8) (ds : List Value) (out : List Nat)
    (hds0 : s = 0 → ds = []) (b cat0 a scode : Nat) (hb : b ≠ 10)
    (hcat : CATCODE (min b 0x7E) = cat0)
    (hvse : valueStartEntry cat0 = tEntry true a scode)
    (hcat0 : cat0 ≠ 0 ∧ cat0 ≠ 4) (ha : a < 0x80) (hsc : scode < 0xFF)
    (d2 : DState)
    (hact : (if 0 < a then do_action a b ⟨ds, [], [], out⟩
        else .ok ⟨ds, [], [], out⟩) = .ok d2) :
    stepByte ⟨l, c, k, s, ⟨ds, [], [], out⟩⟩ b = .ok ⟨l, c + 1, GOTOS s :: k, scode, d2⟩ := by
  have hS : STATES s cat0 = tEntry true a scode := by
    rw [STATES_valueStart s hs cat0 hcat0, hvse]
  have hsep : sepAdj s ⟨ds, [], [], out⟩ = ⟨ds, [], [], out⟩ := by
    rcases hs with rfl | rfl | rfl | rfl
    · simp [sepAdj, hds0 rfl]
    · exact sepAdj_ne 5 _ (by omega)
    · exact sepAdj_ne 7 _ (by omega)
    · exact sepAdj_ne 8 _ (by omega)
  have hch : chStep cat0 b k s ⟨ds, [], [], out⟩ =
      .done (.ok (scode, GOTOS s :: k, d2)) := by
    rw [chStep_entry_push cat0 b k s _ a scode hS ha hsc, hsep, hact]
  exact stepByte_chain1n ⟨l, c, k, s, _⟩ b hb scode (GOTOS s :: k) d2
    (by rw [hcat]; exact hch)

/-- One engine step through a no-action table entry at a literal state. -/
theorem stepByte_plainLit (l c : Nat) (k : List Nat) (s : Nat) (d : DState)
    (b cat0 scode : Nat) (hb : b ≠ 10) (hcat : CATCODE (min b 0x7E) = cat0)
    (hS : STATES s cat0 = tEntry false 0 scode) (hsc : scode < 0xFF) (hs0 : s ≠ 0) :
    stepByte ⟨l, c, k, s, d⟩ b = .ok ⟨l, c + 1, k, scode, d⟩ := by
  have hch : chStep cat0 b k s d = .done (.ok (scode, k, d)) := by
    rw [chStep_entry_nopush cat0 b k s d 0 scode hS (by omega) hsc,
      sepAdj_ne s d hs0]
    rfl
  exact stepByte_chain1n ⟨l, c, k, s, d⟩ b hb scode k d (by rw [hcat]; exact hch)

/-- One engine step completing a keyword: push the terminal, go to the
value-done state. -/
theorem stepByte_kwEndLit (l c : Nat) (k : List Nat) (s : Nat) (d : DState)
    (b cat0 a : Nat) (t : Terminal) (hb : b ≠ 10)
    (hcat : CATCODE (min b 0x7E) = cat0)
    (hS : STATES s cat0 = tEntry false a 1) (ha : 0 < a ∧ a < 0x80) (hs0 : s ≠ 0)
    (hact : do_action a b d = .ok { d with ds := d.ds ++ [.Term t] }) :
    stepByte ⟨l, c, k, s, d⟩ b =
      .ok ⟨l, c + 1, k, 1, { d with ds := d.ds ++ [.Term t] }⟩ := by
  have hch : chStep cat0 b k s d =
      .done (.ok (1, k, { d with ds := d.ds ++ [.Term t] })) := by
    rw [chStep_entry_nopush cat0 b k s d a 1 hS ha.2 (by omega),
      sepAdj_ne s d hs0, if_pos ha.1]
    simp only [hact]
  exact stepByte_chain1n ⟨l, c, k, s, d⟩ b hb 1 k _ (by rw [hcat]; exact hch)

theorem stepByte_key_open (l c : Nat) (k : List Nat) (s : Nat)
    (hs : s = 2 ∨ s = 3) (d : DState) :
    stepByte ⟨l, c, k, s, d⟩ 34 = .ok ⟨l, c + 1, 4 :: k, 10, d⟩ := by
  have hS : STATES s 7 = tEntry true 0 10 := by rcases hs with rfl | rfl <;> rfl
  have hg : GOTOS s = 4 := by rcases hs with rfl | rfl <;> rfl
  have hs0 : s ≠ 0 := by rcases hs with rfl | rfl <;> omega
  have hch : chStep 7 34 k s d = .done (.ok (10, GOTOS s :: k, d)) := by
    rw [chStep_entry_push 7 34 k s d 0 10 hS (by omega) (by omega),
      sepAdj_ne s d hs0]
    rfl
  have := stepByte_chain1n ⟨l, c, k, s, d⟩ 34 (by omega) 10 (GOTOS s :: k) d
    (by exact hch)
  rw [this, hg]

theorem stepByte_str_close (l c : Nat) (k : List Nat) (ds : List Value)
    (ss out : List Nat) (cps : List Nat) (hdec : utf8Decode ss = some cps) :
    stepByte ⟨l, c, k, 10, ⟨ds, ss, [], out⟩⟩ 34 =
      .ok ⟨l, c + 1, k, 1, ⟨ds ++ [.Term (.Str cps)], [], [], out⟩⟩ := by
  have hact : do_action 0x8 34 ⟨ds, ss, [], out⟩ =
      .ok ⟨ds ++ [.Term (.Str cps)], [], [], out⟩ := by
    simp only [do_action, hdec]
  have hch : chStep 7 34 k 10 ⟨ds, ss, [], out⟩ =
      .done (.ok (1, k, ⟨ds ++ [.Term (.Str cps)], [], [], out⟩)) := by
    rw [chStep_entry_nopush 7 34 k 10 _ 0x8 1 rfl (by omega) (by omega),
      sepAdj_ne 10 _ (by omega), if_pos (by omega : (0 : Nat) < 0x8)]
    simp only [hact]
  exact stepByte_chain1n ⟨l, c, k, 10, _⟩ 34 (by omega) 1 k _ (by exact hch)

theorem runStrBytes (bs : List Nat) (hbs : ∀ b ∈ bs, b ≠ 34 ∧ b ≠ 92)
    (l c : Nat) (k : List Nat) (ds : List Value) (ss out : List Nat) :
    ∃ l2 c2, runBytes bs ⟨l, c, k, 10, ⟨ds, ss, [], out⟩⟩ =
      .ok ⟨l2, c2, k, 10, ⟨ds, ss ++ bs, [], out⟩⟩ := by
  induction bs generalizing l c ss with
  | nil => exact ⟨l, c, by simp [runBytes]⟩
  | cons b rest ih =>
    obtain ⟨h34, h92⟩ := hbs b (List.mem_cons_self b rest)
    obtain ⟨hc7, hc8⟩ := catStrByte b h34 h92
    have hS : STATES 10 (CATCODE (min b 0x7E)) = tEntry false 0xB 10 := by
      simp only [STATES]; rw [if_neg hc7, if_neg hc8]
    have hact : do_action 0xB b ⟨ds, ss, [], out⟩ = .ok ⟨ds, ss ++ [b], [], out⟩ := by
      simp [do_action]
    have hch : chStep (CATCODE (min b 0x7E)) b k 10 ⟨ds, ss, [], out⟩ =
        .done (.ok (10, k, ⟨ds, ss ++ [b], [], out⟩)) := by
      rw [chStep_entry_nopush _ b k 10 _ 0xB 10 hS (by omega) (by omega),
        sepAdj_ne 10 _ (by omega), if_pos (by omega : (0 : Nat) < 0xB)]
      simp only [hact]
    have hstep := stepByte_chain1 ⟨l, c, k, 10, ⟨ds, ss, [], out⟩⟩ b 10 k
      ⟨ds, ss ++ [b], [], out⟩ hch
    obtain ⟨l2, c2, hrest⟩ := ih (fun x hx => hbs x (List.mem_cons_of_mem b hx))
      (if b = 10 then l + 1 else l) (if b = 10 then 0 else c + 1) (ss ++ [b])
    refine ⟨l2, c2, ?_⟩
    rw [runBytes, hstep]
    simpa using hrest

theorem runDigits19 (bs : List Nat) (hbs : ∀ b ∈ bs, 48 ≤ b ∧ b ≤ 57)
    (l c : Nat) (k : List Nat) (ds : List Value) (ss out : List Nat) :
    runBytes bs ⟨l, c, k, 19, ⟨ds, ss, [], out⟩⟩ =
      .ok ⟨l, c + bs.length, k, 19, ⟨ds, ss ++ bs, [], out⟩⟩ := by
  induction bs generalizing c ss with
  | nil => simp [runBytes]
  | cons b rest ih =>
    obtain ⟨h1, h2⟩ := hbs b (List.mem_cons_self b rest)
    have hb10 : b ≠ 10 := by omega
    have hS : STATES 19 (CATCODE (min b 0x7E)) = tEntry false 0xB 19 := by
      rcases catDigit b h1 h2 with h | h <;> rw [h] <;> rfl
    have hact : do_action 0xB b ⟨ds, ss, [], out⟩ = .ok ⟨ds, ss ++ [b], [], out⟩ := by
      simp [do_action]
    have hch : chStep (CATCODE (min b 0x7E)) b k 19 ⟨ds, ss, [], out⟩ =
        .done (.ok (19, k, ⟨ds, ss ++ [b], [], out⟩)) := by
      rw [chStep_entry_nopush _ b k 19 _ 0xB 19 hS (by omega) (by omega),
        sepAdj_ne 19 _ (by omega), if_pos (by omega : (0 : Nat) < 0xB)]
      simp only [hact]
    have hstep : stepByte ⟨l, c, k, 19, ⟨ds, ss, [], out⟩⟩ b =
        .ok ⟨l, c + 1, k, 19, ⟨ds, ss ++ [b], [], out⟩⟩ :=
      stepByte_chain1n ⟨l, c, k, 19, ⟨ds, ss, [], out⟩⟩ b hb10 19 k
        ⟨ds, ss ++ [b], [], out⟩ hch
    rw [runBytes, hstep]
    show runBytes rest ⟨l, c + 1, k, 19, ⟨ds, ss ++ [b], [], out⟩⟩ = _
    rw [ih (fun x hx => hbs x (List.mem_cons_of_mem b hx)) (c + 1) (ss ++ [b])]
    simp only [List.append_assoc, List.singleton_append, List.length_cons]
    congr 2
    omega

theorem numOK_props (lit : List Nat) (h : numOK lit = true) :
    lit ≠ [] ∧ (∀ b ∈ lit, 48 ≤ b ∧ b ≤ 57) ∧
      (∀ rest, lit = 48 :: rest → rest = []) := by
  simp only [numOK, Bool.and_eq_true, List.all_eq_true, decide_eq_true_eq] at h
  obtain ⟨⟨hne, hdig⟩, hlead⟩ := h
  refine ⟨?_, hdig, ?_⟩
  · cases lit with
    | nil => simp at hne
    | cons b rest => simp
  · intro rest hrest
    subst hrest
    simpa using hlead

theorem runValNum (lit : List Nat) (wf : numOK lit = true) (l c : Nat)
    (k : List Nat) (s : Nat) (hs : s = 0 ∨ s = 5 ∨ s = 7 ∨ s = 8)
    (ds : List Value) (out : List Nat) (hds0 : s = 0 → ds = []) :
    runBytes lit ⟨l, c, k, s, ⟨ds, [], [], out⟩⟩ =
      .ok ⟨l, c + lit.length, GOTOS s :: k, numState lit, ⟨ds, lit, [], out⟩⟩ := by
  obtain ⟨hne, hdig, hlead⟩ := numOK_props lit wf
  cases lit with
  | nil => exact absurd rfl hne
  | cons b rest =>
    obtain ⟨hb1, hb2⟩ := hdig b (List.mem_cons_self b rest)
    by_cases hb48 : b = 48
    · subst hb48
      have hrest : rest = [] := hlead rest rfl
      subst hrest
      have hstep := stepByte_value_open l c k s hs ds out hds0 48 12 0xB 18
        (by omega) rfl rfl (by omega) (by omega) (by omega) ⟨ds, [48], [], out⟩
        (by simp [do_action])
      rw [runBytes, hstep]
      simp [runBytes, numState]
    · have hb1' : 49 ≤ b := by omega
      have hstep := stepByte_value_open l c k s hs ds out hds0 b 13 0xB 19
        (by omega) (catDigitPos b hb1' hb2) rfl (by omega) (by omega) (by omega)
        ⟨ds, [b], [], out⟩ (by simp [do_action])
      rw [runBytes, hstep]
      show runBytes rest ⟨l, c + 1, GOTOS s :: k, 19, ⟨ds, [b], [], out⟩⟩ = _
      rw [runDigits19 rest (fun x hx => hdig x (List.mem_cons_of_mem b hx))
        l (c + 1) (GOTOS s :: k) ds [b] out]
      have hns : numState (b :: rest) = 19 := by
        simp only [numState]
        split
        · rename_i heq
          injection heq with hh1 hh2
          omega
        · rfl
      rw [hns]
      simp only [List.singleton_append, List.length_cons]
      congr 2
      omega

theorem runNullTok (l c : Nat) (k : List Nat) (s : Nat)
    (hs : s = 0 ∨ s = 5 ∨ s = 7 ∨ s = 8) (ds : List Value) (out : List Nat)
    (hds0 : s = 0 → ds = []) :
    runBytes [110, 117, 108, 108] ⟨l, c, k, s, ⟨ds, [], [], out⟩⟩ =
      .ok ⟨l, c + 4, GOTOS s :: k, 1, ⟨ds ++ [.Term .Null], [], [], out⟩⟩ := by
  have h1 := stepByte_value_open l c k s hs ds out hds0 110 19 0 32
    (by omega) rfl rfl (by omega) (by omega) (by omega) ⟨ds, [], [], out⟩ rfl
  have h2 := stepByte_plainLit l (c + 1) (GOTOS s :: k) 32 ⟨ds, [], [], out⟩
    117 18 33 (by omega) rfl rfl (by omega) (by omega)
  have h3 := stepByte_plainLit l (c + 2) (GOTOS s :: k) 33 ⟨ds, [], [], out⟩
    108 21 34 (by omega) rfl rfl (by omega) (by omega)
  have h4 := stepByte_kwEndLit l (c + 3) (GOTOS s :: k) 34 ⟨ds, [], [], out⟩
    108 21 0x5 .Null (by omega) rfl rfl (by omega) (by omega) rfl
  rw [runBytes, h1]
  show runBytes _ ⟨l, c + 1, GOTOS s :: k, 32, ⟨ds, [], [], out⟩⟩ = _
  rw [runBytes, h2]
  show runBytes _ ⟨l, c + 2, GOTOS s :: k, 33, ⟨ds, [], [], out⟩⟩ = _
  rw [runBytes, h3]
  show runBytes _ ⟨l, c + 3, GOTOS s :: k, 34, ⟨ds, [], [], out⟩⟩ = _
  rw [runBytes, h4]
  rfl

theorem runTrueTok (l c : Nat) (k : List Nat) (s : Nat)
    (hs : s = 0 ∨ s = 5 ∨ s = 7 ∨ s = 8) (ds : List Value) (out : List Nat)
    (hds0 : s = 0 → ds = []) :
    runBytes [116, 114, 117, 101] ⟨l, c, k, s, ⟨ds, [], [], out⟩⟩ =
      .ok ⟨l, c + 4, GOTOS s :: k, 1, ⟨ds ++ [.Term (.Bool true)], [], [], out⟩⟩ := by
  have h1 := stepByte_value_open l c k s hs ds out hds0 116 16 0 25
    (by omega) rfl rfl (by omega) (by omega) (by omega) ⟨ds, [], [], out⟩ rfl
  have h2 := stepByte_plainLit l (c + 1) (GOTOS s :: k) 25 ⟨ds, [], [], out⟩
    114 17 26 (by omega) rfl rfl (by omega) (by omega)
  have h3 := stepByte_plainLit l (c + 2) (GOTOS s :: k) 26 ⟨ds, [], [], out⟩
    117 18 27 (by omega) rfl rfl (by omega) (by omega)
  have h4 := stepByte_kwEndLit l (c + 3) (GOTOS s :: k) 27 ⟨ds, [], [], out⟩
    101 15 0x6 (.Bool true) (by omega) rfl rfl (by omega) (by omega) rfl
  rw [runBytes, h1]
  show runBytes _ ⟨l, c + 1, GOTOS s :: k, 25, ⟨ds, [], [], out⟩⟩ = _
  rw [runBytes, h2]
  show runBytes _ ⟨l, c + 2, GOTOS s :: k, 26, ⟨ds, [], [], out⟩⟩ = _
  rw [runBytes, h3]
  show runBytes _ ⟨l, c + 3, GOTOS s :: k, 27, ⟨ds, [], [], out⟩⟩ = _
  rw [runBytes, h4]
  rfl

theorem runFalseTok (l c : Nat) (k : List Nat) (s : Nat)
    (hs : s = 0 ∨ s = 5 ∨ s = 7 ∨ s = 8) (ds : List Value) (out : List Nat)
    (hds0 : s = 0 → ds = []) :
    runBytes [102, 97, 108, 115, 101] ⟨l, c, k, s, ⟨ds, [], [], out⟩⟩ =
      .ok ⟨l, c + 5, GOTOS s :: k, 1, ⟨ds ++ [.Term (.Bool false)], [], [], out⟩⟩ := by
  have h1 := stepByte_value_open l c k s hs ds out hds0 102 22 0 28
    (by omega) rfl rfl (by omega) (by omega) (by omega) ⟨ds, [], [], out⟩ rfl
  have h2 := stepByte_plainLit l (c + 1) (GOTOS s :: k) 28 ⟨ds, [], [], out⟩
    97 20 29 (by omega) rfl rfl (by omega) (by omega)
  have h3 := stepByte_plainLit l (c + 2) (GOTOS s :: k) 29 ⟨ds, [], [], out⟩
    108 21 30 (by omega) rfl rfl (by omega) (by omega)
  have h4 := stepByte_plainLit l (c + 3) (GOTOS s :: k) 30 ⟨ds, [], [], out⟩
    115 23 31 (by omega) rfl rfl (by omega) (by omega)
  have h5 := stepByte_kwEndLit l (c + 4) (GOTOS s :: k) 31 ⟨ds, [], [], out⟩
    101 15 0x7 (.Bool false) (by omega) rfl rfl (by omega) (by omega) rfl
  rw [runBytes, h1]
  show runBytes _ ⟨l, c + 1, GOTOS s :: k, 28, ⟨ds, [], [], out⟩⟩ = _
  rw [runBytes, h2]
  show runBytes _ ⟨l, c + 2, GOTOS s :: k, 29, ⟨ds, [], [], out⟩⟩ = _
  rw [runBytes, h3]
  show runBytes _ ⟨l, c + 3, GOTOS s :: k, 30, ⟨ds, [], [], out⟩⟩ = _
  rw [runBytes, h4]
  show runBytes _ ⟨l, c + 4, GOTOS s :: k, 31, ⟨ds, [], [], out⟩⟩ = _
  rw [runBytes, h5]
  rfl

theorem act3_bind (b : Nat) (st : DState) (below : List Value) (n : Nat)
    (v : Value) (p2 : List Nat) (hds : st.ds = below ++ [.List n, v])
    (hp : print_path (below ++ [Value.List n]) = .ok p2) :
    do_action 0x3 b st =
      .ok { st with
            ds := below ++ [.List (n + 1)],
            out := st.out ++ bindLine3 p2 v } := by
  cases v with
  | Term t =>
    rw [act3_term b st below n t p2 hds hp]
    simp [bindLine3, List.append_assoc]
  | Object ob =>
    rw [act3_container b st below n (.Object ob) rfl hds]
    simp [bindLine3]
  | List m =>
    rw [act3_container b st below n (.List m) rfl hds]
    simp [bindLine3]

theorem act4_bind (b : Nat) (st : DState) (below : List Value) (ob : Bool)
    (kk : List Nat) (v : Value) (p2 : List Nat)
    (hds : st.ds = below ++ [.Object ob, .Term (.Str kk), v])
    (hp : print_path (below ++ [.Object ob, .Term (.Str kk)]) = .ok p2) :
    do_action 0x4 b st =
      .ok { st with
            ds := below ++ [.Object false],
            out := st.out ++ bindLine4 p2 v } := by
  cases v with
  | Term t =>
    rw [act4_term b st below ob kk t p2 hds hp]
    simp [bindLine4, List.append_assoc]
  | Object ob2 =>
    cases ob2 with
    | true =>
      rw [act4_emptyObject b st below ob kk p2 hds hp]
      simp [bindLine4, List.append_assoc]
    | false =>
      rw [act4_nonempty b st below ob kk _ (Or.inr rfl) hds]
      simp [bindLine4]
  | List m =>
    cases m with
    | zero =>
      rw [act4_emptyList b st below ob kk p2 hds hp]
      simp [bindLine4, List.append_assoc]
    | succ m1 =>
      rw [act4_nonempty b st below ob kk _ (Or.inl ⟨m1, rfl⟩) hds]
      simp [bindLine4]

theorem stepByte_colonAfterKey (l c : Nat) (k : List Nat) (d : DState) :
    stepByte ⟨l, c, 4 :: k, 1, d⟩ 58 = .ok ⟨l, c + 1, k, 5, d⟩ := by
  rw [stepByte_vd]
  exact stepByte_plainLit l c k 4 d 58 5 5 (by omega) rfl rfl (by omega) (by omega)

theorem stepByte_elemDelim (l c : Nat) (k : List Nat) (below : List Value)
    (n : Nat) (v : Value) (out p2 : List Nat)
    (hp : print_path (below ++ [Value.List n]) = .ok p2)
    (b scode : Nat) (hrow : b = 44 ∧ scode = 8 ∨ b = 93 ∧ scode = 1) :
    stepByte ⟨l, c, 9 :: k, 1, ⟨below ++ [.List n, v], [], [], out⟩⟩ b =
      .ok ⟨l, c + 1, k, scode,
        ⟨below ++ [.List (n + 1)], [], [], out ++ bindLine3 p2 v⟩⟩ := by
  rw [stepByte_vd]
  have hact := act3_bind b ⟨below ++ [.List n, v], [], [], out⟩ below n v p2 rfl hp
  rcases hrow with ⟨rfl, rfl⟩ | ⟨rfl, rfl⟩
  · have hch : chStep 6 44 k 9 ⟨below ++ [.List n, v], [], [], out⟩ =
        .done (.ok (8, k, ⟨below ++ [.List (n + 1)], [], [], out ++ bindLine3 p2 v⟩)) := by
      rw [chStep_entry_nopush 6 44 k 9 _ 0x3 8 rfl (by omega) (by omega),
        sepAdj_ne 9 _ (by omega), if_pos (by omega : (0 : Nat) < 0x3)]
      simp only [hact]
    exact stepByte_chain1n ⟨l, c, k, 9, _⟩ 44 (by omega) 8 k _ (by exact hch)
  · have hch : chStep 4 93 k 9 ⟨below ++ [.List n, v], [], [], out⟩ =
        .done (.ok (1, k, ⟨below ++ [.List (n + 1)], [], [], out ++ bindLine3 p2 v⟩)) := by
      rw [chStep_entry_nopush 4 93 k 9 _ 0x3 1 rfl (by omega) (by omega),
        sepAdj_ne 9 _ (by omega), if_pos (by omega : (0 : Nat) < 0x3)]
      simp only [hact]
    exact stepByte_chain1n ⟨l, c, k, 9, _⟩ 93 (by omega) 1 k _ (by exact hch)

theorem stepByte_memberDelim (l c : Nat) (k : List Nat) (below : List Value)
    (ob : Bool) (kk : List Nat) (v : Value) (out p2 : List Nat)
    (hp : print_path (below ++ [.Object ob, .Term (.Str kk)]) = .ok p2)
    (b scode : Nat) (hrow : b = 44 ∧ scode = 3 ∨ b = 125 ∧ scode = 1) :
    stepByte ⟨l, c, 6 :: k, 1, ⟨below ++ [.Object ob, .Term (.Str kk), v], [], [], out⟩⟩ b =
      .ok ⟨l, c + 1, k, scode,
        ⟨below ++ [.Object false], [], [], out ++ bindLine4 p2 v⟩⟩ := by
  rw [stepByte_vd]
  have hact := act4_bind b ⟨below ++ [.Object ob, .Term (.Str kk), v], [], [], out⟩
    below ob kk v p2 rfl hp
  rcases hrow with ⟨rfl, rfl⟩ | ⟨rfl, rfl⟩
  · have hch : chStep 6 44 k 6 ⟨below ++ [.Object ob, .Term (.Str kk), v], [], [], out⟩ =
        .done (.ok (3, k, ⟨below ++ [.Object false], [], [], out ++ bindLine4 p2 v⟩)) := by
      rw [chStep_entry_nopush 6 44 k 6 _ 0x4 3 rfl (by omega) (by omega),
        sepAdj_ne 6 _ (by omega), if_pos (by omega : (0 : Nat) < 0x4)]
      simp only [hact]
    exact stepByte_chain1n ⟨l, c, k, 6, _⟩ 44 (by omega) 3 k _ (by exact hch)
  · have hch : chStep 2 125 k 6 ⟨below ++ [.Object ob, .Term (.Str kk), v], [], [], out⟩ =
        .done (.ok (1, k, ⟨below ++ [.Object false], [], [], out ++ bindLine4 p2 v⟩)) := by
      rw [chStep_entry_nopush 2 125 k 6 _ 0x4 1 rfl (by omega) (by omega),
        sepAdj_ne 6 _ (by omega), if_pos (by omega : (0 : Nat) < 0x4)]
      simp only [hact]
    exact stepByte_chain1n ⟨l, c, k, 6, _⟩ 125 (by omega) 1 k _ (by exact hch)

theorem stepByte_numElemDelim (l c : Nat) (k : List Nat) (sN : Nat)
    (hsN : sN = 18 ∨ sN = 19) (below : List Value) (n : Nat)
    (lit out p2 : List Nat) (hdec : utf8Decode lit = some lit)
    (hp : print_path (below ++ [Value.List n]) = .ok p2)
    (b scode : Nat) (hrow : b = 44 ∧ scode = 8 ∨ b = 93 ∧ scode = 1) :
    stepByte ⟨l, c, 9 :: k, sN, ⟨below ++ [.List n], lit, [], out⟩⟩ b =
      .ok ⟨l, c + 1, k, scode, ⟨below ++ [.List (n + 1)], [], [],
        out ++ bindLine3 p2 (.Term (.Number lit))⟩⟩ := by
  have hact9 : do_action 0x9 b ⟨below ++ [.List n], lit, [], out⟩ =
      .ok ⟨(below ++ [.List n]) ++ [.Term (.Number lit)], [], [], out⟩ := by
    simp only [do_action, hdec]
  have hact3 := act3_bind b
    ⟨(below ++ [.List n]) ++ [.Term (.Number lit)], [], [], out⟩
    below n (.Term (.Number lit)) p2 (by simp) hp
  have hcat : CATCODE (min b 0x7E) = (if b = 44 then 6 else 4) := by
    rcases hrow with ⟨rfl, _⟩ | ⟨rfl, _⟩ <;> rfl
  have hS : STATES sN (if b = 44 then 6 else 4) = tEntry false 0x9 0xFF := by
    rcases hsN with rfl | rfl <;> rcases hrow with ⟨rfl, _⟩ | ⟨rfl, _⟩ <;> rfl
  have h1 : chStep (if b = 44 then 6 else 4) b (9 :: k) sN
      ⟨below ++ [.List n], lit, [], out⟩ =
      .cont 9 k ⟨(below ++ [.List n]) ++ [.Term (.Number lit)], [], [], out⟩ := by
    have hs0 : sN ≠ 0 := by rcases hsN with rfl | rfl <;> omega
    rw [chStep_entry_pop _ b (9 :: k) sN _ 0x9 hS (by omega) hs0,
      if_pos (by omega : (0 : Nat) < 0x9)]
    simp only [hact9]
  have h2 : chStep (if b = 44 then 6 else 4) b k 9
      ⟨(below ++ [.List n]) ++ [.Term (.Number lit)], [], [], out⟩ =
      .done (.ok (scode, k,
        ⟨below ++ [.List (n + 1)], [], [], out ++ bindLine3 p2 (.Term (.Number lit))⟩)) := by
    rcases hrow with ⟨rfl, rfl⟩ | ⟨rfl, rfl⟩
    · rw [if_pos rfl]
      rw [chStep_entry_nopush 6 44 k 9 _ 0x3 8 rfl (by omega) (by omega),
        sepAdj_ne 9 _ (by omega), if_pos (by omega : (0 : Nat) < 0x3)]
      simp only [hact3]
    · rw [if_neg (by omega)]
      rw [chStep_entry_nopush 4 93 k 9 _ 0x3 1 rfl (by omega) (by omega),
        sepAdj_ne 9 _ (by omega), if_pos (by omega : (0 : Nat) < 0x3)]
      simp only [hact3]
  have hb10 : b ≠ 10 := by rcases hrow with ⟨rfl, _⟩ | ⟨rfl, _⟩ <;> omega
  exact stepByte_chain2n ⟨l, c, 9 :: k, sN, ⟨below ++ [.List n], lit, [], out⟩⟩ b hb10
    9 k _ scode k _ (by rw [hcat]; exact h1) (by rw [hcat]; exact h2)

theorem stepByte_numMemberDelim (l c : Nat) (k : List Nat) (sN : Nat)
    (hsN : sN = 18 ∨ sN = 19) (below : List Value) (ob : Bool) (kk : List Nat)
    (lit out p2 : List Nat) (hdec : utf8Decode lit = some lit)
    (hp : print_path (below ++ [.Object ob, .Term (.Str kk)]) = .ok p2)
    (b scode : Nat) (hrow : b = 44 ∧ scode = 3 ∨ b = 125 ∧ scode = 1) :
    stepByte ⟨l, c, 6 :: k, sN, ⟨below ++ [.Object ob, .Term (.Str kk)], lit, [], out⟩⟩ b =
      .ok ⟨l, c + 1, k, scode, ⟨below ++ [.Object false], [], [],
        out ++ bindLine4 p2 (.Term (.Number lit))⟩⟩ := by
  have hact9 : do_action 0x9 b ⟨below ++ [.Object ob, .Term (.Str kk)], lit, [], out⟩ =
      .ok ⟨(below ++ [.Object ob, .Term (.Str kk)]) ++ [.Term (.Number lit)], [], [], out⟩ := by
    simp only [do_action, hdec]
  have hact4 := act4_bind b
    ⟨(below ++ [.Object ob, .Term (.Str kk)]) ++ [.Term (.Number lit)], [], [], out⟩
    below ob kk (.Term (.Number lit)) p2 (by simp) hp
  have hcat : CATCODE (min b 0x7E) = (if b = 44 then 6 else 2) := by
    rcases hrow with ⟨rfl, _⟩ | ⟨rfl, _⟩ <;> rfl
  have hS : STATES sN (if b = 44 then 6 else 2) = tEntry false 0x9 0xFF := by
    rcases hsN with rfl | rfl <;> rcases hrow with ⟨rfl, _⟩ | ⟨rfl, _⟩ <;> rfl
  have h1 : chStep (if b = 44 then 6 else 2) b (6 :: k) sN
      ⟨below ++ [.Object ob, .Term (.Str kk)], lit, [], out⟩ =
      .cont 6 k ⟨(below ++ [.Object ob, .Term (.Str kk)]) ++ [.Term (.Number lit)], [], [], out⟩ := by
    have hs0 : sN ≠ 0 := by rcases hsN with rfl | rfl <;> omega
    rw [chStep_entry_pop _ b (6 :: k) sN _ 0x9 hS (by omega) hs0,
      if_pos (by omega : (0 : Nat) < 0x9)]
    simp only [hact9]
  have h2 : chStep (if b = 44 then 6 else 2) b k 6
      ⟨(below ++ [.Object ob, .Term (.Str kk)]) ++ [.Term (.Number lit)], [], [], out⟩ =
      .done (.ok (scode, k,
        ⟨below ++ [.Object false], [], [], out ++ bindLine4 p2 (.Term (.Number lit))⟩)) := by
    rcases hrow with ⟨rfl, rfl⟩ | ⟨rfl, rfl⟩
    · rw [if_pos rfl]
      rw [chStep_entry_nopush 6 44 k 6 _ 0x4 3 rfl (by omega) (by omega),
        sepAdj_ne 6 _ (by omega), if_pos (by omega : (0 : Nat) < 0x4)]
      simp only [hact4]
    · rw [if_neg (by omega)]
      rw [chStep_entry_nopush 2 125 k 6 _ 0x4 1 rfl (by omega) (by omega),
        sepAdj_ne 6 _ (by omega), if_pos (by omega : (0 : Nat) < 0x4)]
      simp only [hact4]
  have hb10 : b ≠ 10 := by rcases hrow with ⟨rfl, _⟩ | ⟨rfl, _⟩ <;> omega
  exact stepByte_chain2n
    ⟨l, c, 6 :: k, sN, ⟨below ++ [.Object ob, .Term (.Str kk)], lit, [], out⟩⟩ b hb10
    6 k _ scode k _ (by rw [hcat]; exact h1) (by rw [hcat]; exact h2)

theorem runBytes_cons_ok (b : Nat) (rest : List Nat) (p p1 : PCfg) (r : RunRes)
    (h1 : stepByte p b = .ok p1) (h2 : runBytes rest p1 = r) :
    runBytes (b :: rest) p = r := by
  rw [runBytes, h1]; exact h2

theorem runBytes_append_ok (l1 l2 : List Nat) (p p1 : PCfg) (r : RunRes)
    (h1 : runBytes l1 p = .ok p1) (h2 : runBytes l2 p1 = r) :
    runBytes (l1 ++ l2) p = r := by
  rw [runBytes_append, h1]; exact h2

theorem numState_cases (lit : List Nat) : numState lit = 18 ∨ numState lit = 19 := by
  unfold numState
  split
  · exact Or.inl rfl
  · exact Or.inr rfl

theorem numLit_ascii (lit : List Nat) (h : numOK lit = true) :
    utf8Decode lit = some lit :=
  utf8Decode_ascii lit (fun b hb => by
    have := (numOK_props lit h).2.1 b hb; omega)

theorem print_path_objkey (ob : Bool) (kk : List Nat) :
    print_path [Value.Object ob, Value.Term (.Str kk)] = .ok ([46] ++ keyBytes kk) := by
  have h0 : pathItem (Value.Object ob) = .ok [46] := rfl
  have h1 : print_path [Value.Term (.Str kk)] = .ok (keyBytes kk) :=
    print_path_single _ _ (pathItem_key kk)
  simp [print_path, prBind, h0, h1, pathItem_key kk]

mutual

/-- Processing the serialisation of a well-formed non-number value from
a value-expecting state: push the goto, consume the bytes, end in the
value-done state with the completed value on the stack and exactly the
value's member/element lines written. -/
theorem runVal (v : Json) (wf : wfJson v = true) (hn : ∀ lit, v ≠ Json.num lit)
    (l c : Nat) (k : List Nat) (s : Nat) (hs : s = 0 ∨ s = 5 ∨ s = 7 ∨ s = 8)
    (ds : List Value) (out p : List Nat) (hds0 : s = 0 → ds = [])
    (hpath : print_path ds = .ok p) (hpe : ds.all pathEntry = true) :
    ∃ l2 c2, runBytes (serVal v) ⟨l, c, k, s, ⟨ds, [], [], out⟩⟩ =
      .ok ⟨l2, c2, GOTOS s :: k, 1,
        ⟨ds ++ [doneVal v], [], [], out ++ childLines p v⟩⟩ := by
  cases v with
  | null =>
    refine ⟨l, c + 4, ?_⟩
    rw [show serVal Json.null = [110, 117, 108, 108] from rfl,
      runNullTok l c k s hs ds out hds0]
    simp [childLines, doneVal]
  | bool b =>
    cases b with
    | true =>
      refine ⟨l, c + 4, ?_⟩
      rw [show serVal (Json.bool true) = [116, 114, 117, 101] from rfl,
        runTrueTok l c k s hs ds out hds0]
      simp [childLines, doneVal]
    | false =>
      refine ⟨l, c + 5, ?_⟩
      rw [show serVal (Json.bool false) = [102, 97, 108, 115, 101] from rfl,
        runFalseTok l c k s hs ds out hds0]
      simp [childLines, doneVal]
  | num lit => exact absurd rfl (hn lit)
  | str cps =>
    have hok : strOK cps = true := by simpa [wfJson] using wf
    have hopen := stepByte_value_open l c k s hs ds out hds0 34 7 0 10
      (by omega) rfl rfl (by omega) (by omega) (by omega) ⟨ds, [], [], out⟩ rfl
    obtain ⟨l2, c2, hstr⟩ := runStrBytes (strUtf8 cps) (strUtf8_ne cps hok)
      l (c + 1) (GOTOS s :: k) ds [] out
    have hdec : utf8Decode ([] ++ strUtf8 cps) = some cps := by
      simpa using strUtf8_decode cps hok
    have hclose := stepByte_str_close l2 c2 (GOTOS s :: k) ds ([] ++ strUtf8 cps)
      out cps hdec
    refine ⟨l2, c2 + 1, ?_⟩
    rw [show serVal (Json.str cps) = 34 :: (strUtf8 cps ++ [34]) from by simp [serVal]]
    refine runBytes_cons_ok 34 _ _ _ _ hopen ?_
    refine runBytes_append_ok _ _ _ _ _ hstr ?_
    refine runBytes_cons_ok 34 _ _ _ _ hclose ?_
    simp [runBytes, childLines, doneVal]
  | arr es =>
    have hopen := stepByte_value_open l c k s hs ds out hds0 91 3 0x1 7
      (by omega) rfl rfl (by omega) (by omega) (by omega)
      ⟨ds ++ [Value.List 0], [], [], out⟩ rfl
    cases es with
    | nil =>
      have hclose := stepByte_plainLit l (c + 1) (GOTOS s :: k) 7
        ⟨ds ++ [Value.List 0], [], [], out⟩ 93 4 1 (by omega) rfl rfl (by omega) (by omega)
      refine ⟨l, c + 1 + 1, ?_⟩
      rw [show serVal (Json.arr .nil) = [91, 93] from rfl]
      refine runBytes_cons_ok 91 _ _ _ _ hopen ?_
      refine runBytes_cons_ok 93 _ _ _ _ hclose ?_
      simp [runBytes, childLines, elemLines, doneVal, jlen]
    | cons e t =>
      have hwf : wfList (JsonList.cons e t) = true := by simpa [wfJson] using wf
      obtain ⟨l2, c2, helems⟩ := runElems e t hwf l (c + 1) (GOTOS s :: k) 7
        (Or.inl rfl) 0 ds out p hpath hpe
      refine ⟨l2, c2, ?_⟩
      rw [show serVal (Json.arr (.cons e t)) = 91 :: (serElems (.cons e t) ++ [93])
        from by simp [serVal]]
      refine runBytes_cons_ok 91 _ _ _ _ hopen ?_
      rw [helems]
      simp [childLines, doneVal, jlen]
  | obj ms =>
    have hopen := stepByte_value_open l c k s hs ds out hds0 123 1 0x2 2
      (by omega) rfl rfl (by omega) (by omega) (by omega)
      ⟨ds ++ [Value.Object true], [], [], out⟩ rfl
    cases ms with
    | nil =>
      have hclose := stepByte_plainLit l (c + 1) (GOTOS s :: k) 2
        ⟨ds ++ [Value.Object true], [], [], out⟩ 125 2 1 (by omega) rfl rfl
        (by omega) (by omega)
      refine ⟨l, c + 1 + 1, ?_⟩
      rw [show serVal (Json.obj .nil) = [123, 125] from rfl]
      refine runBytes_cons_ok 123 _ _ _ _ hopen ?_
      refine runBytes_cons_ok 125 _ _ _ _ hclose ?_
      simp [runBytes, childLines, memberLines, doneVal]
    | cons kk v t =>
      have hwf : wfMembers (JsonMembers.cons kk v t) = true := by simpa [wfJson] using wf
      obtain ⟨l2, c2, hmem⟩ := runMembers kk v t hwf l (c + 1) (GOTOS s :: k) 2
        (Or.inl rfl) true ds out p hpath hpe
      refine ⟨l2, c2, ?_⟩
      rw [show serVal (Json.obj (.cons kk v t)) =
          123 :: (serMembers (.cons kk v t) ++ [125]) from by simp [serVal]]
      refine runBytes_cons_ok 123 _ _ _ _ hopen ?_
      rw [hmem]
      simp [childLines, doneVal]
termination_by sizeOf v
decreasing_by all_goals (simp_wf; try subst_vars; try simp_arith; try omega)

/-- Processing the elements of a non-empty array (with the closing
bracket) from the list-expecting states: each element consumed, counted
and bound, its lines written in order. -/
theorem runElems (e : Json) (t : JsonList) (wf : wfList (.cons e t) = true)
    (l c : Nat) (k : List Nat) (s : Nat) (hs : s = 7 ∨ s = 8) (i : Nat)
    (below : List Value) (out p : List Nat)
    (hpath : print_path below = .ok p) (hpe : below.all pathEntry = true) :
    ∃ l2 c2, runBytes (serElems (.cons e t) ++ [93])
        ⟨l, c, k, s, ⟨below ++ [.List i], [], [], out⟩⟩ =
      .ok ⟨l2, c2, k, 1, ⟨below ++ [.List (i + jlen (.cons e t))], [], [],
        out ++ elemLines p i (.cons e t)⟩⟩ := by
  have hwf : wfJson e = true ∧ wfList t = true := by
    simpa [wfList, Bool.and_eq_true] using wf
  have hs' : s = 0 ∨ s = 5 ∨ s = 7 ∨ s = 8 := Or.inr (Or.inr hs)
  have hds0 : s = 0 → below ++ [Value.List i] = [] := by
    intro h; rcases hs with rfl | rfl <;> omega
  have hpathe : print_path (below ++ [Value.List i]) =
      .ok (p ++ ([91] ++ decDigits i ++ [93])) :=
    print_path_snoc below (Value.List i) p _ hpath rfl
  have hpee : (below ++ [Value.List i]).all pathEntry = true := by
    simp [List.all_append, hpe, pathEntry]
  have hg : GOTOS s = 9 := by rcases hs with rfl | rfl <;> rfl
  by_cases hnc : ∃ lit, e = Json.num lit
  · obtain ⟨lit, rfl⟩ := hnc
    have hnok : numOK lit = true := by simpa [wfJson] using hwf.1
    have hnumr := runValNum lit hnok l c k s hs' (below ++ [.List i]) out hds0
    rw [hg] at hnumr
    cases t with
    | nil =>
      have hdelim := stepByte_numElemDelim l (c + lit.length) k (numState lit)
        (numState_cases lit) below i lit out (p ++ ([91] ++ decDigits i ++ [93]))
        (numLit_ascii lit hnok) hpathe 93 1 (Or.inr ⟨rfl, rfl⟩)
      refine ⟨l, c + lit.length + 1, ?_⟩
      rw [show serElems (.cons (Json.num lit) .nil) ++ [93] = lit ++ [93] from rfl]
      refine runBytes_append_ok _ _ _ _ _ hnumr ?_
      refine runBytes_cons_ok 93 _ _ _ _ hdelim ?_
      simp [runBytes, elemLines, childLines, doneVal, jlen, List.append_assoc]
    | cons e2 t2 =>
      have hdelim := stepByte_numElemDelim l (c + lit.length) k (numState lit)
        (numState_cases lit) below i lit out (p ++ ([91] ++ decDigits i ++ [93]))
        (numLit_ascii lit hnok) hpathe 44 8 (Or.inl ⟨rfl, rfl⟩)
      obtain ⟨l3, c3, hrest⟩ := runElems e2 t2 hwf.2 l (c + lit.length + 1) k 8
        (Or.inr rfl) (i + 1) below
        (out ++ bindLine3 (p ++ ([91] ++ decDigits i ++ [93])) (.Term (.Number lit)))
        p hpath hpe
      have hJ : i + 1 + jlen (JsonList.cons e2 t2) =
          i + jlen (JsonList.cons (Json.num lit) (JsonList.cons e2 t2)) := by
        simp [jlen]; omega
      rw [hJ] at hrest
      refine ⟨l3, c3, ?_⟩
      rw [show serElems (.cons (Json.num lit) (.cons e2 t2)) ++ [93] =
          lit ++ (44 :: (serElems (.cons e2 t2) ++ [93])) from by simp [serElems, serVal]]
      refine runBytes_append_ok _ _ _ _ _ hnumr ?_
      refine runBytes_cons_ok 44 _ _ _ _ hdelim ?_
      rw [hrest]
      simp [elemLines, childLines, doneVal, List.append_assoc]
  · have hn : ∀ lit, e ≠ Json.num lit := fun lit hl => hnc ⟨lit, hl⟩
    obtain ⟨l2, c2, hv⟩ := runVal e hwf.1 hn l c k s hs' (below ++ [.List i]) out
      (p ++ ([91] ++ decDigits i ++ [93])) hds0 hpathe hpee
    rw [hg] at hv
    have hassoc : (below ++ [Value.List i]) ++ [doneVal e] =
        below ++ [Value.List i, doneVal e] := by simp
    rw [hassoc] at hv
    cases t with
    | nil =>
      have hdelim := stepByte_elemDelim l2 c2 k below i (doneVal e)
        (out ++ childLines (p ++ ([91] ++ decDigits i ++ [93])) e)
        (p ++ ([91] ++ decDigits i ++ [93])) hpathe 93 1 (Or.inr ⟨rfl, rfl⟩)
      refine ⟨l2, c2 + 1, ?_⟩
      rw [show serElems (.cons e .nil) ++ [93] = serVal e ++ [93] from rfl]
      refine runBytes_append_ok _ _ _ _ _ hv ?_
      refine runBytes_cons_ok 93 _ _ _ _ hdelim ?_
      simp [runBytes, elemLines, jlen, List.append_assoc]
    | cons e2 t2 =>
      have hdelim := stepByte_elemDelim l2 c2 k below i (doneVal e)
        (out ++ childLines (p ++ ([91] ++ decDigits i ++ [93])) e)
        (p ++ ([91] ++ decDigits i ++ [93])) hpathe 44 8 (Or.inl ⟨rfl, rfl⟩)
      obtain ⟨l3, c3, hrest⟩ := runElems e2 t2 hwf.2 l2 (c2 + 1) k 8 (Or.inr rfl)
        (i + 1) below
        ((out ++ childLines (p ++ ([91] ++ decDigits i ++ [93])) e) ++
          bindLine3 (p ++ ([91] ++ decDigits i ++ [93])) (doneVal e)) p hpath hpe
      have hJ : i + 1 + jlen (JsonList.cons e2 t2) =
          i + jlen (JsonList.cons e (JsonList.cons e2 t2)) := by
        simp [jlen]; omega
      rw [hJ] at hrest
      refine ⟨l3, c3, ?_⟩
      rw [show serElems (.cons e (.cons e2 t2)) ++ [93] =
          serVal e ++ (44 :: (serElems (.cons e2 t2) ++ [93])) from by simp [serElems]]
      refine runBytes_append_ok _ _ _ _ _ hv ?_
      refine runBytes_cons_ok 44 _ _ _ _ hdelim ?_
      rw [hrest]
      simp [elemLines, List.append_assoc]
termination_by sizeOf e + sizeOf t + 1
decreasing_by all_goals (simp_wf; try subst_vars; try simp_arith; try omega)

/-- Processing the members of a non-empty object (with the closing
brace) from the key-expecting states: each key parsed, each value
consumed and bound, its lines written in order. -/
theorem runMembers (kk : List Nat) (v : Json) (t : JsonMembers)
    (wf : wfMembers (.cons kk v t) = true) (l c : Nat) (k : List Nat) (s : Nat)
    (hs : s = 2 ∨ s = 3) (ob : Bool) (below : List Value) (out p : List Nat)
    (hpath : print_path below = .ok p) (hpe : below.all pathEntry = true) :
    ∃ l2 c2, runBytes (serMembers (.cons kk v t) ++ [125])
        ⟨l, c, k, s, ⟨below ++ [.Object ob], [], [], out⟩⟩ =
      .ok ⟨l2, c2, k, 1, ⟨below ++ [.Object false], [], [],
        out ++ memberLines p (.cons kk v t)⟩⟩ := by
  have hwf : strOK kk = true ∧ wfJson v = true ∧ wfMembers t = true := by
    simpa [wfMembers, Bool.and_eq_true, and_assoc] using wf
  have hko := stepByte_key_open l c k s hs ⟨below ++ [.Object ob], [], [], out⟩
  obtain ⟨l1, c1, hkstr⟩ := runStrBytes (strUtf8 kk) (strUtf8_ne kk hwf.1)
    l (c + 1) (4 :: k) (below ++ [.Object ob]) [] out
  have hdec : utf8Decode ([] ++ strUtf8 kk) = some kk := by
    simpa using strUtf8_decode kk hwf.1
  have hkc := stepByte_str_close l1 c1 (4 :: k) (below ++ [.Object ob])
    ([] ++ strUtf8 kk) out kk hdec
  have hassoc1 : (below ++ [Value.Object ob]) ++ [Value.Term (.Str kk)] =
      below ++ [Value.Object ob, Value.Term (.Str kk)] := by simp
  rw [hassoc1] at hkc
  have hcolon := stepByte_colonAfterKey l1 (c1 + 1) k
    ⟨below ++ [Value.Object ob, Value.Term (.Str kk)], [], [], out⟩
  have hpm : print_path (below ++ [Value.Object ob, Value.Term (.Str kk)]) =
      .ok (p ++ ([46] ++ keyBytes kk)) :=
    print_path_append below [Value.Object ob, Value.Term (.Str kk)] p
      ([46] ++ keyBytes kk) hpath (print_path_objkey ob kk)
  have hpem : (below ++ [Value.Object ob, Value.Term (.Str kk)]).all pathEntry = true := by
    simp [List.all_append, hpe, pathEntry]
  by_cases hnc : ∃ lit, v = Json.num lit
  · obtain ⟨lit, rfl⟩ := hnc
    have hnok : numOK lit = true := by simpa [wfJson] using hwf.2.1
    have hnumr := runValNum lit hnok l1 (c1 + 1 + 1) k 5 (Or.inr (Or.inl rfl))
      (below ++ [Value.Object ob, Value.Term (.Str kk)]) out
      (fun h => absurd h (by omega))
    rw [show GOTOS 5 = 6 from rfl] at hnumr
    cases t with
    | nil =>
      have hdelim := stepByte_numMemberDelim l1 (c1 + 1 + 1 + lit.length) k
        (numState lit) (numState_cases lit) below ob kk lit out
        (p ++ ([46] ++ keyBytes kk)) (numLit_ascii lit hnok) hpm 125 1
        (Or.inr ⟨rfl, rfl⟩)
      refine ⟨l1, c1 + 1 + 1 + lit.length + 1, ?_⟩
      rw [show serMembers (.cons kk (Json.num lit) .nil) ++ [125] =
          34 :: (strUtf8 kk ++ (34 :: (58 :: (lit ++ [125])))) from by
        simp [serMembers, serVal]]
      refine runBytes_cons_ok 34 _ _ _ _ hko ?_
      refine runBytes_append_ok _ _ _ _ _ hkstr ?_
      refine runBytes_cons_ok 34 _ _ _ _ hkc ?_
      refine runBytes_cons_ok 58 _ _ _ _ hcolon ?_
      refine runBytes_append_ok _ _ _ _ _ hnumr ?_
      refine runBytes_cons_ok 125 _ _ _ _ hdelim ?_
      simp [runBytes, memberLines, childLines, doneVal, List.append_assoc]
    | cons k2 v2 t2 =>
      have hdelim := stepByte_numMemberDelim l1 (c1 + 1 + 1 + lit.length) k
        (numState lit) (numState_cases lit) below ob kk lit out
        (p ++ ([46] ++ keyBytes kk)) (numLit_ascii lit hnok) hpm 44 3
        (Or.inl ⟨rfl, rfl⟩)
      obtain ⟨l3, c3, hrest⟩ := runMembers k2 v2 t2 hwf.2.2 l1
        (c1 + 1 + 1 + lit.length + 1) k 3 (Or.inr rfl) false below
        (out ++ bindLine4 (p ++ ([46] ++ keyBytes kk)) (.Term (.Number lit)))
        p hpath hpe
      refine ⟨l3, c3, ?_⟩
      rw [show serMembers (.cons kk (Json.num lit) (.cons k2 v2 t2)) ++ [125] =
          34 :: (strUtf8 kk ++ (34 :: (58 :: (lit ++
            (44 :: (serMembers (.cons k2 v2 t2) ++ [125])))))) from by
        simp [serMembers, serVal]]
      refine runBytes_cons_ok 34 _ _ _ _ hko ?_
      refine runBytes_append_ok _ _ _ _ _ hkstr ?_
      refine runBytes_cons_ok 34 _ _ _ _ hkc ?_
      refine runBytes_cons_ok 58 _ _ _ _ hcolon ?_
      refine runBytes_append_ok _ _ _ _ _ hnumr ?_
      refine runBytes_cons_ok 44 _ _ _ _ hdelim ?_
      rw [hrest]
      simp [memberLines, childLines, doneVal, List.append_assoc]
  · have hn : ∀ lit, v ≠ Json.num lit := fun lit hl => hnc ⟨lit, hl⟩
    obtain ⟨l2, c2, hv⟩ := runVal v hwf.2.1 hn l1 (c1 + 1 + 1) k 5
      (Or.inr (Or.inl rfl)) (below ++ [Value.Object ob, Value.Term (.Str kk)]) out
      (p ++ ([46] ++ keyBytes kk)) (fun h => absurd h (by omega)) hpm hpem
    rw [show GOTOS 5 = 6 from rfl] at hv
    have hassoc2 : (below ++ [Value.Object ob, Value.Term (.Str kk)]) ++ [doneVal v] =
        below ++ [Value.Object ob, Value.Term (.Str kk), doneVal v] := by simp
    rw [hassoc2] at hv
    cases t with
    | nil =>
      have hdelim := stepByte_memberDelim l2 c2 k below ob kk (doneVal v)
        (out ++ childLines (p ++ ([46] ++ keyBytes kk)) v)
        (p ++ ([46] ++ keyBytes kk)) hpm 125 1 (Or.inr ⟨rfl, rfl⟩)
      refine ⟨l2, c2 + 1, ?_⟩
      rw [show serMembers (.cons kk v .nil) ++ [125] =
          34 :: (strUtf8 kk ++ (34 :: (58 :: (serVal v ++ [125])))) from by
        simp [serMembers]]
      refine runBytes_cons_ok 34 _ _ _ _ hko ?_
      refine runBytes_append_ok _ _ _ _ _ hkstr ?_
      refine runBytes_cons_ok 34 _ _ _ _ hkc ?_
      refine runBytes_cons_ok 58 _ _ _ _ hcolon ?_
      refine runBytes_append_ok _ _ _ _ _ hv ?_
      refine runBytes_cons_ok 125 _ _ _ _ hdelim ?_
      simp [runBytes, memberLines, List.append_assoc]
    | cons k2 v2 t2 =>
      have hdelim := stepByte_memberDelim l2 c2 k below ob kk (doneVal v)
        (out ++ childLines (p ++ ([46] ++ keyBytes kk)) v)
        (p ++ ([46] ++ keyBytes kk)) hpm 44 3 (Or.inl ⟨rfl, rfl⟩)
      obtain ⟨l3, c3, hrest⟩ := runMembers k2 v2 t2 hwf.2.2 l2 (c2 + 1) k 3
        (Or.inr rfl) false below
        ((out ++ childLines (p ++ ([46] ++ keyBytes kk)) v) ++
          bindLine4 (p ++ ([46] ++ keyBytes kk)) (doneVal v)) p hpath hpe
      refine ⟨l3, c3, ?_⟩
      rw [show serMembers (.cons kk v (.cons k2 v2 t2)) ++ [125] =
          34 :: (strUtf8 kk ++ (34 :: (58 :: (serVal v ++
            (44 :: (serMembers (.cons k2 v2 t2) ++ [125])))))) from by
        simp [serMembers]]
      refine runBytes_cons_ok 34 _ _ _ _ hko ?_
      refine runBytes_append_ok _ _ _ _ _ hkstr ?_
      refine runBytes_cons_ok 34 _ _ _ _ hkc ?_
      refine runBytes_cons_ok 58 _ _ _ _ hcolon ?_
      refine runBytes_append_ok _ _ _ _ _ hv ?_
      refine runBytes_cons_ok 44 _ _ _ _ hdelim ?_
      rw [hrest]
      simp [memberLines, List.append_assoc]
termination_by sizeOf v + sizeOf t + 1
decreasing_by all_goals (simp_wf; try subst_vars; try simp_arith; try omega)

end

/-- For every well-formed document of the canonical class, `parse` of its
serialisation succeeds and writes exactly one `<path> = <formatted-value>`
line per scalar leaf in member or element position, in document order
(together with the `[]`/`\x7b\x7d` lines of empty containers in member
position), followed by the record-separator newline.  The top-level value
itself — in particular a top-level scalar — produces no line of its own. -/
theorem parse_serVal (t : Json) (wf : wfJson t = true) :
    parse (serVal t) = .ok (childLines [] t ++ [10]) := by
  by_cases hnc : ∃ lit, t = Json.num lit
  · obtain ⟨lit, rfl⟩ := hnc
    have hnok : numOK lit = true := by simpa [wfJson] using wf
    have hnumr := runValNum lit hnok 1 0 [] 0 (Or.inl rfl) [] [] (fun _ => rfl)
    have hnumr2 : runBytes lit initCfg =
        .ok ⟨1, 0 + lit.length, [0], numState lit, ⟨[], lit, [], []⟩⟩ := hnumr
    have h1 : chStep 0 63 [0] (numState lit) ⟨[], lit, [], []⟩ =
        .cont 0 [] ⟨[] ++ [.Term (.Number lit)], [], [], []⟩ := by
      have hS : STATES (numState lit) 0 = tEntry false 0x9 0xFF := by
        rcases numState_cases lit with h | h <;> rw [h] <;> rfl
      have hs0 : numState lit ≠ 0 := by rcases numState_cases lit with h | h <;> omega
      rw [chStep_entry_pop 0 63 [0] (numState lit) _ 0x9 hS (by omega) hs0,
        if_pos (by omega : (0 : Nat) < 0x9)]
      simp only [do_action, numLit_ascii lit hnok]
    have h2 : chStep 0 63 [] 0 ⟨[] ++ [.Term (.Number lit)], [], [], []⟩ =
        .done (.ok (0, [], ⟨[], [], [], [10]⟩)) := rfl
    have hpend : ∀ l c : Nat,
        parseEnd ⟨l, c, [0], numState lit, ⟨[], lit, [], []⟩⟩ = .ok [10] := by
      intro l c
      have hc : CATCODE 32 = 0 := rfl
      have hp : parse_ch 3 0 63 [0] (numState lit) ⟨[], lit, [], []⟩ =
          .ok (0, [], ⟨[], [], [], [10]⟩) := by
        rw [parse_ch_cont 3 (by omega) 0 63 [0] (numState lit) _ 0 [] _ h1]
        exact parse_ch_done 2 (by omega) _ _ _ _ _ _ h2
      simp [parseEnd, hc, hp]
    rw [show serVal (Json.num lit) = lit from rfl]
    show parseFrom lit initCfg = _
    rw [parseFrom, hnumr2]
    show parseEnd ⟨1, 0 + lit.length, [0], numState lit, ⟨[], lit, [], []⟩⟩ = _
    rw [hpend 1 (0 + lit.length)]
    simp [childLines]
  · have hn : ∀ lit, t ≠ Json.num lit := fun lit hl => hnc ⟨lit, hl⟩
    obtain ⟨l2, c2, hv⟩ := runVal t wf hn 1 0 [] 0 (Or.inl rfl) [] [] []
      (fun _ => rfl) rfl rfl
    have hv2 : runBytes (serVal t) initCfg =
        .ok ⟨l2, c2, [0], 1, ⟨[doneVal t], [], [], childLines [] t⟩⟩ := by
      rw [show initCfg = (⟨1, 0, [], 0, ⟨[], [], [], []⟩⟩ : PCfg) from rfl, hv]
      simp [GOTOS]
    show parseFrom (serVal t) initCfg = _
    rw [parseFrom, hv2]
    exact parseFrom_vd_top [] (by simp) l2 c2 (doneVal t) [] [] (childLines [] t)

/-- C1 (amended): at every point of every parse, consuming a scalar leaf
(a Terminal) as an array element ("pop & append", action 0x3) or as an
object member's value ("pop pop & setitem", action 0x4) writes exactly one
`<path> = <formatted-value>` line followed by a newline; no other semantic
action writes to the output, and outside the actions the engine writes
only the record-separator newline at the top level — so the output lists
one line per scalar leaf in element or member position, in document order,
while a scalar that is itself a top-level value produces no line.  With
the canonical-serialisation family and end-to-end examples covering
float/signed/exponent numbers, escaped strings, whitespace, and
concatenated top-level scalars. -/
theorem C1_document_lines :
    (∀ (ch : Nat) (st : DState) (ds0 : List Value) (n : Nat) (t : Terminal)
        (p : List Nat),
      st.ds = ds0 ++ [.List n, .Term t] →
      print_path (ds0 ++ [.List n]) = .ok p →
      do_action 0x3 ch st =
        .ok { st with
              ds := ds0 ++ [.List (n + 1)],
              out := st.out ++ p ++ [32, 61, 32] ++ fmtTerminal t ++ [10] }) ∧
    (∀ (ch : Nat) (st : DState) (ds0 : List Value) (b : Bool) (k : List Nat)
        (t : Terminal) (p : List Nat),
      st.ds = ds0 ++ [.Object b, .Term (.Str k), .Term t] →
      print_path (ds0 ++ [.Object b, .Term (.Str k)]) = .ok p →
      do_action 0x4 ch st =
        .ok { st with
              ds := ds0 ++ [.Object false],
              out := st.out ++ (p ++ [32, 61, 32]) ++ fmtTerminal t ++ [10] }) ∧
    (∀ (a ch : Nat) (st d2 : DState), a ≠ 0x3 → a ≠ 0x4 →
      do_action a ch st = .ok d2 → d2.out = st.out) ∧
    (∀ (s : Nat) (d : DState), s ≠ 0 → sepAdj s d = d) ∧
    (∀ (t : Json), wfJson t = true →
      parse (serVal t) = .ok (childLines [] t ++ [10])) ∧
    parse (strBytes "\x7b\"a\": [null, -1.5e2, \"x\\n\"]\x7d") =
      .ok (strBytes ".a[0] = null\n.a[1] = -1.5e2\n.a[2] = \"x\\n\"\n\n") ∧
    parse (strBytes "5 6") = .ok [10, 10] := by
  refine ⟨?_, ?_, ?_, ?_, ?_, by decide, by decide⟩
  · intro ch st ds0 n t p hds hp
    exact act3_term ch st ds0 n t p hds hp
  · intro ch st ds0 b k t p hds hp
    exact act4_term ch st ds0 b k t p hds hp
  · intro a ch st d2 h3 h4 h
    exact act_out_silent a ch st d2 h3 h4 h
  · intro s d hs
    exact sepAdj_ne s d hs
  · intro t wf
    exact parse_serVal t wf

/-- C1 witness: one element-position scalar line and one member-position
scalar line at concrete stacks, and the canonical document `{"a":[1,"x"]}`
parsing to its two scalar-leaf lines plus the record separator. -/
theorem C1_document_lines_witness :
    do_action 0x3 0 ⟨[.List 0, .Term (.Bool true)], [], [], []⟩ =
      .ok ⟨[.List 1], [], [],
        ([] ++ [91, 48, 93] ++ [32, 61, 32] ++ [116, 114, 117, 101] ++ [10])⟩ ∧
    do_action 0x4 0 ⟨[.Object true, .Term (.Str [97]), .Term .Null], [], [], []⟩ =
      .ok ⟨[.Object false], [], [],
        ([] ++ ([46, 97] ++ [32, 61, 32]) ++ [110, 117, 108, 108] ++ [10])⟩ ∧
    parse (serVal (Json.obj (.cons [97] (Json.arr (.cons (Json.num [49])
        (.cons (Json.str [120]) .nil))) .nil))) =
      .ok (childLines [] (Json.obj (.cons [97] (Json.arr (.cons (Json.num [49])
        (.cons (Json.str [120]) .nil))) .nil)) ++ [10]) := by
  refine ⟨?_, ?_, ?_⟩
  · have h := C1_document_lines.1 0 ⟨[.List 0, .Term (.Bool true)], [], [], []⟩
      [] 0 (.Bool true) [91, 48, 93] rfl (by decide)
    exact h.trans (by decide)
  · have h := C1_document_lines.2.1 0
      ⟨[.Object true, .Term (.Str [97]), .Term .Null], [], [], []⟩
      [] true [97] .Null [46, 97] rfl (by decide)
    exact h.trans (by decide)
  · exact C1_document_lines.2.2.2.2.1 (Json.obj (.cons [97] (Json.arr (.cons
      (Json.num [49]) (.cons (Json.str [120]) .nil))) .nil)) (by decide)

example :
    childLines [] (Json.obj (.cons [97] (Json.arr (.cons (Json.num [49])
        (.cons (Json.str [120]) .nil))) .nil)) =
      strBytes ".a[0] = 1\n.a[1] = \"x\"\n" := by decide

example :
    serVal (Json.obj (.cons [97] (Json.arr (.cons (Json.num [49])
        (.cons (Json.str [120]) .nil))) .nil)) =
      strBytes "\x7b\"a\":[1,\"x\"]\x7d" := by decide
